import Mathlib

/-!
# OpenBK7231T_App: serial receive ring buffer and driver registry

A shallow embedding of `src/driver/drv_uart.c` (the receive ring buffer) and of
`src/driver/drv_main.c` (driver start/stop and dispatch), with the properties
of the specification stated and settled against it.

Conventions of the embedding:

* C `int` values are mathematical integers (`Int`).  In every state the ring
  buffer can reach, each intermediate value lies between `0` and twice the
  capacity, so 32-bit arithmetic never wraps for a capacity below `2^30`.
* `byte` is `unsigned char`: storing an `int` keeps its value modulo 256.
* The storage `g_recvBuf` is the list of the bytes of the allocated block.  An
  access outside the block is undefined behaviour in C; an operation that
  performs one yields `none`.
* The file-scope variables of each C file become the fields of a state record
  that every operation receives and returns.
-/

namespace OpenBK

/-! ## drv_uart.c: the receive ring buffer -/

/-- The file-scope variables `g_recvBuf`, `g_recvBufSize`, `g_recvBufIn` and
`g_recvBufOut` of drv_uart.c. -/
structure RingBuf where
  g_recvBuf : List Int
  g_recvBufSize : Int
  g_recvBufIn : Int
  g_recvBufOut : Int
deriving DecidableEq, Repr

/-- A read `buf[i]` of the allocated block; `none` when `i` lies outside it. -/
def readByte (buf : List Int) (i : Int) : Option Int :=
  if 0 ≤ i then buf[i.toNat]? else none

/-- The function `UART_InitReceiveRingBuffer(size)`: the old block is freed, a block
of `size` bytes is allocated and zero-filled, both indices are reset. -/
def UART_InitReceiveRingBuffer (size : Int) (_old : RingBuf) : RingBuf :=
  { g_recvBuf := List.replicate size.toNat 0
    g_recvBufSize := size
    g_recvBufIn := 0
    g_recvBufOut := 0 }

/-- The function `UART_GetDataSize()`. -/
def UART_GetDataSize (s : RingBuf) : Int :=
  if s.g_recvBufIn ≥ s.g_recvBufOut then
    s.g_recvBufIn - s.g_recvBufOut
  else
    s.g_recvBufIn + s.g_recvBufSize - s.g_recvBufOut

/-- The index `realIndex` that `UART_GetNextByte(index)` reads: `g_recvBufOut + index`,
reduced by the capacity only when it is strictly greater than the capacity. -/
def UART_GetNextByte_realIndex (s : RingBuf) (index : Int) : Int :=
  let realIndex := s.g_recvBufOut + index
  if realIndex > s.g_recvBufSize then realIndex - s.g_recvBufSize else realIndex

/-- The function `UART_GetNextByte(index)`: returns `g_recvBuf[realIndex]`.  It assigns
no file-scope variable, so the embedding returns the byte only. -/
def UART_GetNextByte (s : RingBuf) (index : Int) : Option Int :=
  readByte s.g_recvBuf (UART_GetNextByte_realIndex s index)

/-- The function `UART_ConsumeBytes(idx)`. -/
def UART_ConsumeBytes (s : RingBuf) (idx : Int) : RingBuf :=
  let out := s.g_recvBufOut + idx
  { s with g_recvBufOut := if out > s.g_recvBufSize then out - s.g_recvBufSize else out }

/-- The function `UART_AppendByteToCircularBuffer(rc)`.  The store `g_recvBuf[g_recvBufIn++] = rc`
yields `none` when `g_recvBufIn` lies outside the block. -/
def UART_AppendByteToCircularBuffer (s : RingBuf) (rc : Int) : Option RingBuf :=
  if UART_GetDataSize s < s.g_recvBufSize - 1 then
    if 0 ≤ s.g_recvBufIn ∧ s.g_recvBufIn.toNat < s.g_recvBuf.length then
      let in1 := s.g_recvBufIn + 1
      some { s with
        g_recvBuf := s.g_recvBuf.set s.g_recvBufIn.toNat (rc % 256)
        g_recvBufIn := if in1 ≥ s.g_recvBufSize then 0 else in1 }
    else
      none
  else
    some s

/-- The ring-buffer states that `UART_InitReceiveRingBuffer(C)` followed by calls of
`UART_AppendByteToCircularBuffer` and of `UART_ConsumeBytes(n)` with
`0 ≤ n ≤ UART_GetDataSize()` can produce. -/
inductive Reachable (C : Int) : RingBuf → Prop
  | init (old : RingBuf) : Reachable C (UART_InitReceiveRingBuffer C old)
  | append {s s1 : RingBuf} (rc : Int) :
      Reachable C s → UART_AppendByteToCircularBuffer s rc = some s1 → Reachable C s1
  | consume {s : RingBuf} (n : Int) :
      Reachable C s → 0 ≤ n → n ≤ UART_GetDataSize s → Reachable C (UART_ConsumeBytes s n)

/-- What every reachable state satisfies: the capacity is `C`, the block has `C`
bytes, `in` lies in `[0, C)` and `out` in `[0, C]`. -/
structure RingInv (C : Int) (s : RingBuf) : Prop where
  size_eq : s.g_recvBufSize = C
  len_eq : (s.g_recvBuf.length : Int) = C
  in_nonneg : 0 ≤ s.g_recvBufIn
  in_lt : s.g_recvBufIn < C
  out_nonneg : 0 ≤ s.g_recvBufOut
  out_le : s.g_recvBufOut ≤ C

/-- An arbitrary earlier state, used as the argument of the first initialisation. -/
def ringBlank : RingBuf :=
  { g_recvBuf := [], g_recvBufSize := 0, g_recvBufIn := 0, g_recvBufOut := 0 }

/-- The state of the overflow scenario: `UART_InitReceiveRingBuffer(4)` followed by
the appends of 1, 2 and 3. -/
def ringFull4 : RingBuf :=
  { g_recvBuf := [1, 2, 3, 0], g_recvBufSize := 4, g_recvBufIn := 3, g_recvBufOut := 0 }

/-! ## drv_main.c: the driver registry

The callbacks of a descriptor and the logging functions belong to other
modules.  A call through a function pointer is recorded as an event that names
the descriptor's table index; the callbacks are taken not to call back into the
registry (the caller contract of the specification), and `addLogAdv` calls,
which touch no registry variable, are left out. -/

/-- A function pointer: `none` is the null pointer, `some f` points to the function
named `f`. -/
abbrev FnPtr := Option String

/-- The type `driver_t`, one entry of the table `g_drivers`. -/
structure driver_t where
  name : String
  initFunc : FnPtr
  onEverySecond : FnPtr
  appendInformationToHTTPIndexPage : FnPtr
  runQuickTick : FnPtr
  stopFunc : FnPtr
  onChannelChanged : FnPtr
  bLoaded : Bool
deriving DecidableEq, Repr

/-- The externally visible actions of the registry: a call through a function
pointer of the descriptor at table index `i`, a request `xSemaphoreTake(g_mutex, del)`
with its outcome, and `xSemaphoreGive(g_mutex)`. -/
inductive Event where
  | initFunc (i : Nat)
  | onEverySecond (i : Nat)
  | appendInformationToHTTPIndexPage (i : Nat)
  | runQuickTick (i : Nat)
  | stopFunc (i : Nat)
  | onChannelChanged (i : Nat) (ch : Int) (val : Int)
  | semaphoreTake (del : Int) (taken : Bool)
  | semaphoreGive
deriving DecidableEq, Repr

/-- The file-scope variables `g_drivers` and `g_mutex` of drv_main.c, and the events
so far.  `g_mutex = none` is the handle 0 (mutex not created yet); `some held`
is a created mutex, `held` telling whether some context holds it. -/
structure Registry where
  g_drivers : List driver_t
  g_mutex : Option Bool
  trace : List Event
deriving DecidableEq, Repr

/-- Modelled from the spec: `stricmp` is defined outside the files under src/.  The
specification describes the name lookup as a case-insensitive comparison: the
result is 0 exactly when the two strings are equal once upper-case ASCII
letters are replaced by lower-case ones. -/
def stricmp (a b : String) : Int :=
  if a.data.map Char.toLower = b.data.map Char.toLower then 0 else 1

/-- The test `*name == '*'` of `DRV_StopDriver`: the first character of the string is
an asterisk. -/
def firstCharIsStar (name : String) : Bool :=
  name.data.head? = some '*'

/-- Modelled from the spec: `xSemaphoreCreateMutex` belongs to the RTOS, outside src/.
The specification has the lock "created lazily on first use": the new mutex is
held by no context. -/
def xSemaphoreCreateMutex : Bool := false

/-- Modelled from the spec: `xSemaphoreTake` belongs to the RTOS, outside src/.  Given
whether some context holds the mutex, the take with wait bound `del` succeeds
exactly when none does ("contention" is the mutex not being acquired within the
bound); the result is `taken == pdTRUE` and whether the mutex is held
afterwards. -/
def xSemaphoreTake (held : Bool) (_del : Int) : Bool × Bool :=
  if held = true then (false, true) else (true, true)

/-- Modelled from the spec: `xSemaphoreGive` belongs to the RTOS, outside src/.  The
mutex is given back: it is no longer held. -/
def xSemaphoreGive (_held : Bool) : Bool := false

/-- The function `DRV_Mutex_Take(del)`: creates the mutex when the handle is 0, takes
it with wait bound `del`, and returns whether it was taken, with the new state. -/
def DRV_Mutex_Take (del : Int) (st : Registry) : Bool × Registry :=
  let mutex : Bool :=
    match st.g_mutex with
    | none => xSemaphoreCreateMutex
    | some m => m
  let r := xSemaphoreTake mutex del
  (r.1, { st with g_mutex := some r.2,
                  trace := st.trace ++ [Event.semaphoreTake del r.1] })

/-- The function `DRV_Mutex_Free()`. -/
def DRV_Mutex_Free (st : Registry) : Registry :=
  { st with g_mutex := st.g_mutex.map xSemaphoreGive,
            trace := st.trace ++ [Event.semaphoreGive] }

/-- The body of the `for` loop of `DRV_StopDriver(name)` at index `i`. -/
def DRV_StopDriver_body (name : String) (st : Registry) (i : Nat) : Registry :=
  match st.g_drivers[i]? with
  | none => st
  | some d =>
    if firstCharIsStar name = true ∨ stricmp d.name name = 0 then
      if d.bLoaded = true then
        { st with
          g_drivers := st.g_drivers.set i { d with bLoaded := false }
          trace := if d.stopFunc.isSome then st.trace ++ [Event.stopFunc i] else st.trace }
      else
        st
    else
      st

/-- The function `DRV_StopDriver(name)`. -/
def DRV_StopDriver (st : Registry) (name : String) : Registry :=
  let r := DRV_Mutex_Take 100 st
  if r.1 = false then
    r.2
  else
    DRV_Mutex_Free ((List.range r.2.g_drivers.length).foldl (DRV_StopDriver_body name) r.2)

/-- The first `for` loop of `DRV_StartDriver(name)` over the remaining indices; the
result is the state and the flag `bStarted`.  The loop ends at the first entry
whose name matches (`break`).  `initFunc` is called without a null test: the call
through a null pointer yields `none`. -/
def DRV_StartDriver_loop (name : String) : List Nat → Registry → Option (Registry × Bool)
  | [], st => some (st, false)
  | i :: rest, st =>
    match st.g_drivers[i]? with
    | none => DRV_StartDriver_loop name rest st
    | some d =>
      if stricmp d.name name = 0 then
        if d.bLoaded = true then
          some (st, true)
        else
          match d.initFunc with
          | none => none
          | some _ =>
            some ({ st with
                    g_drivers := st.g_drivers.set i { d with bLoaded := true }
                    trace := st.trace ++ [Event.initFunc i] }, true)
      else
        DRV_StartDriver_loop name rest st

/-- The function `DRV_StartDriver(name)`.  The branch `if (!bStarted)` only logs. -/
def DRV_StartDriver (st : Registry) (name : String) : Option Registry :=
  let r := DRV_Mutex_Take 100 st
  if r.1 = false then
    some r.2
  else
    (DRV_StartDriver_loop name (List.range r.2.g_drivers.length) r.2).map
      (fun p => DRV_Mutex_Free p.1)

/-- The body of the `for` loop of `DRV_ShutdownAllDrivers()` at index `i`. -/
def DRV_ShutdownAllDrivers_body (st : Registry) (i : Nat) : Registry :=
  match st.g_drivers[i]? with
  | none => st
  | some d => if d.bLoaded = true then DRV_StopDriver st d.name else st

/-- The function `DRV_ShutdownAllDrivers()`. -/
def DRV_ShutdownAllDrivers (st : Registry) : Registry :=
  (List.range st.g_drivers.length).foldl DRV_ShutdownAllDrivers_body st

/-- A call of one of the three lifecycle entry points. -/
inductive DrvCall where
  | start (name : String)
  | stop (name : String)
  | shutdownAll
deriving DecidableEq, Repr

/-- Performs one call. -/
def DRV_call (st : Registry) : DrvCall → Option Registry
  | .start name => DRV_StartDriver st name
  | .stop name => some (DRV_StopDriver st name)
  | .shutdownAll => some (DRV_ShutdownAllDrivers st)

/-- Performs a finite sequence of calls, first to last. -/
def DRV_run (st : Registry) : List DrvCall → Option Registry
  | [] => some st
  | c :: cs => (DRV_call st c).bind (fun st1 => DRV_run st1 cs)

/-- The process-start state of a table: every `bLoaded` is false (as in the
initialiser of `g_drivers`), the mutex handle is 0, nothing has happened. -/
def DRV_initial (table : List driver_t) : Registry :=
  { g_drivers := table.map (fun d => { d with bLoaded := false })
    g_mutex := none
    trace := [] }

/-- The `bLoaded` flag of the descriptor at index `i` (false outside the table). -/
def loadedAt (st : Registry) (i : Nat) : Bool :=
  match st.g_drivers[i]? with
  | some d => d.bLoaded
  | none => false

/-- Whether the descriptor at index `i` has a stop callback. -/
def hasStop (st : Registry) (i : Nat) : Bool :=
  match st.g_drivers[i]? with
  | some d => d.stopFunc.isSome
  | none => false

/-- No two descriptors have names that are equal under `stricmp`. -/
def namesUnique (table : List driver_t) : Prop :=
  table.Pairwise (fun a b => stricmp a.name b.name ≠ 0)

/-- A caller-supplied name that is the wildcard `"*"` or does not begin with an
asterisk. -/
def nameOk (name : String) : Prop :=
  name = "*" ∨ name.data.head? ≠ some '*'

/-- A start or stop call whose name satisfies `nameOk`. -/
def DrvCall.startStopOk : DrvCall → Prop
  | .start name => nameOk name
  | .stop name => nameOk name
  | .shutdownAll => False

/-- Whether a call targets the descriptor named `dname`: a start whose name equals
`dname` case-insensitively, or a stop whose name does or is `"*"`. -/
def DrvCall.targets (dname : String) : DrvCall → Bool
  | .start name => stricmp dname name = 0
  | .stop name => stricmp dname name = 0 || name = "*"
  | .shutdownAll => false

/-- Whether the call is a start. -/
def DrvCall.isStart : DrvCall → Bool
  | .start _ => true
  | _ => false

/-- Whether some call of the sequence targets `dname` and the last such call is a
start. -/
def lastTargetIsStart (dname : String) (cs : List DrvCall) : Bool :=
  match (cs.filter (DrvCall.targets dname)).getLast? with
  | some c => c.isStart
  | none => false

/-- The number of calls of the run of `cs` from `st` across which the descriptor at
index `i` goes from unloaded to loaded.  Within one call a flag moves at most
once, so comparing the states before and after each call counts every
transition. -/
def transitionsUp (i : Nat) : Registry → List DrvCall → Nat
  | _, [] => 0
  | st, c :: cs =>
    match DRV_call st c with
    | none => 0
    | some st1 =>
      (if loadedAt st i = false ∧ loadedAt st1 i = true then 1 else 0) + transitionsUp i st1 cs

/-- The number of calls of the run of `cs` from `st` across which the descriptor at
index `i` goes from loaded to unloaded. -/
def transitionsDown (i : Nat) : Registry → List DrvCall → Nat
  | _, [] => 0
  | st, c :: cs =>
    match DRV_call st c with
    | none => 0
    | some st1 =>
      (if loadedAt st i = true ∧ loadedAt st1 i = false then 1 else 0) +
        transitionsDown i st1 cs

/-- The table with every `bLoaded` flag cleared: the part of `g_drivers` that no
operation changes. -/
def staticTable (st : Registry) : List driver_t :=
  st.g_drivers.map (fun d => { d with bLoaded := false })

/-- The effect, on the descriptor at index `i`, of a step that can only unload: the
table is otherwise the same, the flag does not rise, no `initFunc` call is added,
and one `stopFunc` call is added exactly when the flag falls and the descriptor has
a stop callback. -/
structure StopStep (i : Nat) (st st1 : Registry) : Prop where
  table : staticTable st1 = staticTable st
  mono : loadedAt st1 i = true → loadedAt st i = true
  inits : st1.trace.count (Event.initFunc i) = st.trace.count (Event.initFunc i)
  stops : st1.trace.count (Event.stopFunc i) = st.trace.count (Event.stopFunc i) +
    (if hasStop st i = true ∧ loadedAt st i = true ∧ loadedAt st1 i = false then 1 else 0)

/-- The effect of one lifecycle call on the descriptor at index `i`: one `initFunc`
call is added exactly when the flag rises, one `stopFunc` call exactly when it
falls and the descriptor has a stop callback. -/
structure CallStep (i : Nat) (st st1 : Registry) : Prop where
  table : staticTable st1 = staticTable st
  inits : st1.trace.count (Event.initFunc i) = st.trace.count (Event.initFunc i) +
    (if loadedAt st i = false ∧ loadedAt st1 i = true then 1 else 0)
  stops : st1.trace.count (Event.stopFunc i) = st.trace.count (Event.stopFunc i) +
    (if hasStop st i = true ∧ loadedAt st i = true ∧ loadedAt st1 i = false then 1 else 0)

/-- The name of the descriptor at index `i`, if the table has one. -/
def nameAt (st : Registry) (i : Nat) : Option String :=
  (st.g_drivers[i]?).map driver_t.name

/-- The test of the loop of `DRV_StopDriver(name)` on a descriptor named `dname`. -/
def stopMatches (name dname : String) : Bool :=
  firstCharIsStar name || decide (stricmp dname name = 0)

/-- The test of the loop of `DRV_StartDriver(name)` on a descriptor named `dname`. -/
def startMatches (name dname : String) : Bool :=
  decide (stricmp dname name = 0)

/-- The mutex is not held by any context (or not created yet), so that the next
`DRV_Mutex_Take` succeeds. -/
def lockFree (st : Registry) : Prop :=
  st.g_mutex ≠ some true

/-- The flag of a descriptor named `dname` after the calls `cs`, each targeting call
overwriting it: a start sets it, a stop clears it. -/
def netEffect (dname : String) (b : Bool) : List DrvCall → Bool
  | [] => b
  | c :: cs => netEffect dname (if c.targets dname = true then c.isStart else b) cs

instance (table : List driver_t) : Decidable (namesUnique table) :=
  inferInstanceAs (Decidable (List.Pairwise _ table))

instance (name : String) : Decidable (nameOk name) :=
  inferInstanceAs (Decidable (_ ∨ _))

instance (c : DrvCall) : Decidable c.startStopOk :=
  match c with
  | .start name => inferInstanceAs (Decidable (nameOk name))
  | .stop name => inferInstanceAs (Decidable (nameOk name))
  | .shutdownAll => inferInstanceAs (Decidable False)

instance (st : Registry) : Decidable (lockFree st) :=
  inferInstanceAs (Decidable (_ ≠ _))

/-- A two-entry table for the examples: `A` has an init and a stop callback, `B` an
init callback only. -/
def tableAB : List driver_t :=
  [ { name := "A", initFunc := some "A_Init", onEverySecond := none,
      appendInformationToHTTPIndexPage := none, runQuickTick := none,
      stopFunc := some "A_Stop", onChannelChanged := none, bLoaded := false },
    { name := "B", initFunc := some "B_Init", onEverySecond := none,
      appendInformationToHTTPIndexPage := none, runQuickTick := none,
      stopFunc := none, onChannelChanged := none, bLoaded := false } ]

/-- A start/stop sequence for the examples; its last call targeting `A` is a start,
its last call targeting `B` is the wildcard stop. -/
def callsStartStop : List DrvCall :=
  [.start "a", .stop "A", .start "b", .start "B", .stop "*", .start "A"]

/-- A lifecycle sequence for the examples: `A` is loaded twice and unloaded twice. -/
def callsLifecycle : List DrvCall :=
  [.start "a", .start "A", .stop "*", .start "A", .shutdownAll]

/-! ### Lookup and tick dispatch -/

/-- Whether an event is a call through a function pointer of a descriptor, and not
a request on the mutex. -/
def Event.isCallback : Event → Bool
  | .semaphoreTake _ _ => false
  | .semaphoreGive => false
  | _ => true

/-- The calls through function pointers recorded in a trace, in order. -/
def callbacks (tr : List Event) : List Event :=
  tr.filter Event.isCallback

/-- The `for` loop of `DRV_IsRunning(name)` over the remaining indices: `return true` at
the first loaded entry whose name compares equal, `return false` after the loop. -/
def DRV_IsRunning_loop (name : String) (st : Registry) : List Nat → Bool
  | [] => false
  | i :: rest =>
    match st.g_drivers[i]? with
    | none => DRV_IsRunning_loop name st rest
    | some d =>
      if d.bLoaded = true then
        if stricmp name d.name = 0 then true else DRV_IsRunning_loop name st rest
      else
        DRV_IsRunning_loop name st rest

/-- The function `DRV_IsRunning(name)`.  It takes no lock and assigns no variable, so
the embedding returns the `bool` only. -/
def DRV_IsRunning (st : Registry) (name : String) : Bool :=
  DRV_IsRunning_loop name st (List.range st.g_drivers.length)

/-- The body of the `for` loop of `DRV_OnEverySecond()` at index `i`. -/
def DRV_OnEverySecond_body (st : Registry) (i : Nat) : Registry :=
  match st.g_drivers[i]? with
  | none => st
  | some d =>
    if d.bLoaded = true then
      if d.onEverySecond.isSome = true then
        { st with trace := st.trace ++ [Event.onEverySecond i] }
      else
        st
    else
      st

/-- The function `DRV_OnEverySecond()`. -/
def DRV_OnEverySecond (st : Registry) : Registry :=
  let r := DRV_Mutex_Take 100 st
  if r.1 = false then
    r.2
  else
    DRV_Mutex_Free ((List.range r.2.g_drivers.length).foldl DRV_OnEverySecond_body r.2)

/-- The body of the `for` loop of `DRV_RunQuickTick()` at index `i`. -/
def DRV_RunQuickTick_body (st : Registry) (i : Nat) : Registry :=
  match st.g_drivers[i]? with
  | none => st
  | some d =>
    if d.bLoaded = true then
      if d.runQuickTick.isSome = true then
        { st with trace := st.trace ++ [Event.runQuickTick i] }
      else
        st
    else
      st

/-- The function `DRV_RunQuickTick()`. -/
def DRV_RunQuickTick (st : Registry) : Registry :=
  let r := DRV_Mutex_Take 0 st
  if r.1 = false then
    r.2
  else
    DRV_Mutex_Free ((List.range r.2.g_drivers.length).foldl DRV_RunQuickTick_body r.2)

/-! ### Descriptions of the loops, used in the proofs -/

/-- A loop body that touches only the entry at its index: the entry `d` at index `k`
becomes `upd d` and the events `ev k d` are appended. -/
def entryStep (upd : driver_t → driver_t) (ev : Nat → driver_t → List Event)
    (st : Registry) (k : Nat) : Registry :=
  match st.g_drivers[k]? with
  | none => st
  | some d => { st with g_drivers := st.g_drivers.set k (upd d), trace := st.trace ++ ev k d }

/-- The events `ev k d` of the entry `d` at index `k` of a table (none outside it). -/
def entryEvents (ev : Nat → driver_t → List Event) (l : List driver_t) (k : Nat) :
    List Event :=
  match l[k]? with
  | some d => ev k d
  | none => []

/-- The events `f k` for the indices `k` of a list, in the order of the list. -/
def eventsOver (f : Nat → List Event) : List Nat → List Event
  | [] => []
  | k :: ks => f k ++ eventsOver f ks

/-- What `DRV_StopDriver(name)` makes of a descriptor: cleared when the name test
succeeds. -/
def stopUpd (name : String) (d : driver_t) : driver_t :=
  if stopMatches name d.name = true then { d with bLoaded := false } else d

/-- The call `DRV_StopDriver(name)` makes for the descriptor `d` at index `i`: its stop
callback, when the name test succeeds, it is loaded and the pointer is not
null. -/
def stopEv (name : String) (i : Nat) (d : driver_t) : List Event :=
  if stopMatches name d.name = true ∧ d.bLoaded = true ∧ d.stopFunc.isSome = true then
    [Event.stopFunc i]
  else
    []

/-- The descriptor `d` at index `i` is the first entry of the table, in table order,
whose name `stricmp` finds equal to `name`. -/
def IsFirstMatch (st : Registry) (name : String) (i : Nat) (d : driver_t) : Prop :=
  st.g_drivers[i]? = some d ∧ stricmp d.name name = 0 ∧
    ∀ j dj, j < i → st.g_drivers[j]? = some dj → stricmp dj.name name ≠ 0

/-- What the loop of `DRV_StartDriver` does at the entry `d` at index `i` whose name
matches: nothing when it is loaded, else the call of `initFunc` and the store
`bLoaded = true`; in both cases `bStarted = 1` and `break`. -/
def startFound (st : Registry) (i : Nat) (d : driver_t) : Option (Registry × Bool) :=
  if d.bLoaded = true then
    some (st, true)
  else
    match d.initFunc with
    | none => none
    | some _ =>
      some ({ st with
              g_drivers := st.g_drivers.set i { d with bLoaded := true }
              trace := st.trace ++ [Event.initFunc i] }, true)

/-- The table `A`, `B` with both descriptors loaded, the mutex created and free. -/
def registryABLoaded : Registry :=
  { g_drivers := tableAB.map (fun d => { d with bLoaded := true })
    g_mutex := some false
    trace := [] }

/-- Whether the descriptor at index `i` has an every-second callback. -/
def hasEverySecond (st : Registry) (i : Nat) : Bool :=
  match st.g_drivers[i]? with
  | some d => d.onEverySecond.isSome
  | none => false

/-- Whether the descriptor at index `i` has a quick-tick callback. -/
def hasQuickTick (st : Registry) (i : Nat) : Bool :=
  match st.g_drivers[i]? with
  | some d => d.runQuickTick.isSome
  | none => false

/-- The table `A`, `B`, `C`, all with an every-second callback, `A` and `C` loaded, `B`
not loaded; the mutex is free. -/
def registryTicks : Registry :=
  { g_drivers :=
      [ { name := "A", initFunc := some "A_Init", onEverySecond := some "A_Sec",
          appendInformationToHTTPIndexPage := none, runQuickTick := some "A_Quick",
          stopFunc := none, onChannelChanged := none, bLoaded := true },
        { name := "B", initFunc := some "B_Init", onEverySecond := some "B_Sec",
          appendInformationToHTTPIndexPage := none, runQuickTick := some "B_Quick",
          stopFunc := none, onChannelChanged := none, bLoaded := false },
        { name := "C", initFunc := some "C_Init", onEverySecond := some "C_Sec",
          appendInformationToHTTPIndexPage := none, runQuickTick := none,
          stopFunc := none, onChannelChanged := none, bLoaded := true } ]
    g_mutex := none
    trace := [] }

/-- A descriptor named `name` with an init callback only. -/
def plainDriver (name : String) (loaded : Bool) : driver_t :=
  { name := name, initFunc := some (name ++ "_Init"), onEverySecond := none,
    appendInformationToHTTPIndexPage := none, runQuickTick := none,
    stopFunc := none, onChannelChanged := none, bLoaded := loaded }

/-- A table with two names that `stricmp` finds equal, `"A"` before `"a"`, neither
loaded; the mutex is free. -/
def registryDup : Registry :=
  { g_drivers := [plainDriver "A" false, plainDriver "a" false], g_mutex := none, trace := [] }

/-- The same table with the second descriptor, `"a"`, loaded. -/
def registryDupLoaded : Registry :=
  { g_drivers := [plainDriver "A" false, plainDriver "a" true], g_mutex := none, trace := [] }

/-- A table whose only descriptor, `"N"`, has no init callback and is not loaded. -/
def registryNoInit : Registry :=
  { g_drivers := [{ plainDriver "N" false with initFunc := none }], g_mutex := none,
    trace := [] }

/-- The descriptor with its `bLoaded` flag cleared. -/
def unloaded (d : driver_t) : driver_t :=
  { d with bLoaded := false }

/-- The state of the loop of `DRV_ShutdownAllDrivers()`, started in `st`, when the
entries below index `m` have been stopped: the mutex is free, those entries are
unloaded and the others are as in `st`, and the callbacks invoked so far are the
stop callbacks of the entries below `m` that were loaded and have one, in table
order. -/
structure ShutdownInv (st : Registry) (m : Nat) (s : Registry) : Prop where
  free : lockFree s
  len : s.g_drivers.length = st.g_drivers.length
  entries : ∀ j, s.g_drivers[j]? =
    if j < m then (st.g_drivers[j]?).map unloaded else st.g_drivers[j]?
  calls : callbacks s.trace =
    callbacks st.trace ++ eventsOver (entryEvents (stopEv "*") st.g_drivers) (List.range m)

/-! ### Channel-changed dispatch -/

/-- The body of the `for` loop of `DRV_OnChannelChanged(channel, iVal)` at index `i`. -/
def DRV_OnChannelChanged_body (channel iVal : Int) (st : Registry) (i : Nat) : Registry :=
  match st.g_drivers[i]? with
  | none => st
  | some d =>
    if d.bLoaded = true then
      if d.onChannelChanged.isSome = true then
        { st with trace := st.trace ++ [Event.onChannelChanged i channel iVal] }
      else
        st
    else
      st

/-- The function `DRV_OnChannelChanged(channel, iVal)`; the calls of `DRV_Mutex_Take` and
`DRV_Mutex_Free` are commented out in the source. -/
def DRV_OnChannelChanged (st : Registry) (channel iVal : Int) : Registry :=
  (List.range st.g_drivers.length).foldl (DRV_OnChannelChanged_body channel iVal) st

/-- Whether the descriptor at index `i` has a channel-changed callback. -/
def hasChannelChanged (st : Registry) (i : Nat) : Bool :=
  match st.g_drivers[i]? with
  | some d => d.onChannelChanged.isSome
  | none => false

/-! ### The status page -/

/-- One piece of output on the HTTP page of a request: a text appended by
`hprintf255`, or whatever the info callback of the descriptor at index `i`
appended. -/
inductive Chunk where
  | text (s : String)
  | info (i : Nat)
deriving DecidableEq, Repr

/-- The type `http_request_t`, reduced to the output appended to the page so far. -/
abbrev http_request_t := List Chunk

/-- The text that a `printf` format produces from its integer arguments, for the
conversions that drv_main.c uses: `%i` prints the next argument in decimal, `%%`
prints a percent sign, every other character is copied.  The flag tells that
the previous character was an unfinished `%`.  A `%` followed by anything else, or
`%i` without an argument left, has no defined output: `none`. -/
def formatGo : Bool → List Char → List Int → Option (List Char)
  | false, [], _ => some []
  | true, [], _ => none
  | false, c :: rest, args =>
    if c = '%' then formatGo true rest args
    else (formatGo false rest args).map (fun t => c :: t)
  | true, c :: rest, args =>
    if c = '%' then (formatGo false rest args).map (fun t => '%' :: t)
    else if c = 'i' then
      match args with
      | a :: args1 => (formatGo false rest args1).map (fun t => (toString a).data ++ t)
      | [] => none
    else none

/-- Modelled from the spec: `hprintf255` is defined outside src/.  The specification
has the status fragment appended to the page; the call sites pass a `printf`
format and its arguments (`"<h5>%i drivers active", c_active`), so the call appends
the formatted text.  The limit of 255 characters per call that the name suggests
is not modelled. -/
def hprintf255 (request : http_request_t) (fmt : String) (args : List Int) :
    Option http_request_t :=
  (formatGo false fmt.data args).map (fun t => request ++ [Chunk.text (String.mk t)])

/-- The variables of the first loop of `DRV_AppendInformationToHTTPIndexPage`. -/
structure InfoLoop where
  st : Registry
  request : http_request_t
  c_active : Int
deriving DecidableEq, Repr

/-- The body of the first `for` loop of `DRV_AppendInformationToHTTPIndexPage` at index
`i`: count the loaded descriptor and call its info callback when it has one. -/
def DRV_AppendInformation_count (a : InfoLoop) (i : Nat) : InfoLoop :=
  match a.st.g_drivers[i]? with
  | none => a
  | some d =>
    if d.bLoaded = true then
      if d.appendInformationToHTTPIndexPage.isSome = true then
        { st := { a.st with
                  trace := a.st.trace ++ [Event.appendInformationToHTTPIndexPage i] }
          request := a.request ++ [Chunk.info i]
          c_active := a.c_active + 1 }
      else
        { a with c_active := a.c_active + 1 }
    else
      a

/-- The body of the second `for` loop of `DRV_AppendInformationToHTTPIndexPage` at index
`i`, on the page and the counter `j` of names printed so far: a separator when
`j != 0`, then `hprintf255(request, g_drivers[i].name)`, the name being the format. -/
def DRV_AppendInformation_names (table : List driver_t)
    (acc : Option (http_request_t × Int)) (i : Nat) : Option (http_request_t × Int) :=
  match acc with
  | none => none
  | some (request, j) =>
    match table[i]? with
    | none => some (request, j)
    | some d =>
      if d.bLoaded = true then
        match (if j ≠ 0 then hprintf255 request "," [] else some request) with
        | none => none
        | some request1 =>
          match hprintf255 request1 d.name [] with
          | none => none
          | some request2 => some (request2, j + 1)
      else
        some (request, j)

/-- The part of `DRV_AppendInformationToHTTPIndexPage` after `DRV_Mutex_Free()`: the summary,
printed from the table, the count `c_active` and `g_numDrivers`. -/
def DRV_AppendInformation_summary (table : List driver_t) (request : http_request_t)
    (c_active : Int) : Option http_request_t :=
  match hprintf255 request "<h5>%i drivers active" [c_active] with
  | none => none
  | some request1 =>
    match
      (if c_active > 0 then
        match hprintf255 request1 " (" [] with
        | none => none
        | some request2 =>
          match (List.range table.length).foldl (DRV_AppendInformation_names table)
              (some (request2, 0)) with
          | none => none
          | some (request3, _) => hprintf255 request3 ")" []
      else some request1) with
    | none => none
    | some request4 => hprintf255 request4 ", total %i</h5>" [(table.length : Int)]

/-- The function `DRV_AppendInformationToHTTPIndexPage(request)`: the new registry state
and the new page. -/
def DRV_AppendInformationToHTTPIndexPage (st : Registry) (request : http_request_t) :
    Option (Registry × http_request_t) :=
  let r := DRV_Mutex_Take 100 st
  if r.1 = false then
    some (r.2, request)
  else
    let a := (List.range r.2.g_drivers.length).foldl DRV_AppendInformation_count
      { st := r.2, request := request, c_active := 0 }
    let st1 := DRV_Mutex_Free a.st
    (DRV_AppendInformation_summary st1.g_drivers a.request a.c_active).map
      (fun request1 => (st1, request1))

/-! ### The commands `startDriver` and `stopDriver` -/

/-- The values of `commandResult_t` that drv_main.c returns. -/
inductive commandResult_t where
  | CMD_RES_OK
  | CMD_RES_NOT_ENOUGH_ARGUMENTS
deriving DecidableEq, Repr

/-- Modelled from the spec: the tokenizer is defined outside src/.  After
`Tokenizer_TokenizeString(args, 0)` the arguments are a list of strings, taken here
as given; `Tokenizer_CheckArgsCountAndPrintWarning(cmd, n)` is true when fewer than
`n` arguments are present ("missing required argument"). -/
def Tokenizer_CheckArgsCountAndPrintWarning (tokens : List String) (n : Nat) : Bool :=
  decide (tokens.length < n)

/-- Modelled from the spec: `Tokenizer_GetArg(i)` is defined outside src/; it is the
argument at index `i` of the tokenized list. -/
def Tokenizer_GetArg (tokens : List String) (i : Nat) : String :=
  tokens.getD i ""

/-- The command handler `DRV_Start`, on the tokenized arguments. -/
def DRV_Start (st : Registry) (tokens : List String) : Option (commandResult_t × Registry) :=
  if Tokenizer_CheckArgsCountAndPrintWarning tokens 1 = true then
    some (commandResult_t.CMD_RES_NOT_ENOUGH_ARGUMENTS, st)
  else
    (DRV_StartDriver st (Tokenizer_GetArg tokens 0)).map
      (fun st1 => (commandResult_t.CMD_RES_OK, st1))

/-- The command handler `DRV_Stop`, on the tokenized arguments. -/
def DRV_Stop (st : Registry) (tokens : List String) : Option (commandResult_t × Registry) :=
  if Tokenizer_CheckArgsCountAndPrintWarning tokens 1 = true then
    some (commandResult_t.CMD_RES_NOT_ENOUGH_ARGUMENTS, st)
  else
    some (commandResult_t.CMD_RES_OK, DRV_StopDriver st (Tokenizer_GetArg tokens 0))

/-! ### The table `g_drivers` -/

/-- The initialiser of `g_drivers` with every `#if` / `#ifdef` block present, row by
row; a function pointer is recorded by the name of the function. -/
def g_drivers : List driver_t :=
  [
    { name := "TuyaMCU", initFunc := some "TuyaMCU_Init", onEverySecond := some "TuyaMCU_RunFrame",
      appendInformationToHTTPIndexPage := none,
      runQuickTick := none, stopFunc := none,
      onChannelChanged := none, bLoaded := false },
    { name := "tmSensor", initFunc := some "TuyaMCU_Sensor_Init", onEverySecond := some "TuyaMCU_Sensor_RunFrame",
      appendInformationToHTTPIndexPage := none,
      runQuickTick := none, stopFunc := none,
      onChannelChanged := none, bLoaded := false },
    { name := "NTP", initFunc := some "NTP_Init", onEverySecond := some "NTP_OnEverySecond",
      appendInformationToHTTPIndexPage := some "NTP_AppendInformationToHTTPIndexPage",
      runQuickTick := none, stopFunc := none,
      onChannelChanged := none, bLoaded := false },
    { name := "HTTPButtons", initFunc := some "DRV_InitHTTPButtons", onEverySecond := none,
      appendInformationToHTTPIndexPage := none,
      runQuickTick := none, stopFunc := none,
      onChannelChanged := none, bLoaded := false },
    { name := "TESTPOWER", initFunc := some "Test_Power_Init", onEverySecond := some "Test_Power_RunFrame",
      appendInformationToHTTPIndexPage := some "BL09XX_AppendInformationToHTTPIndexPage",
      runQuickTick := none, stopFunc := none,
      onChannelChanged := none, bLoaded := false },
    { name := "TESTLED", initFunc := some "Test_LED_Driver_Init", onEverySecond := some "Test_LED_Driver_RunFrame",
      appendInformationToHTTPIndexPage := none,
      runQuickTick := none, stopFunc := none,
      onChannelChanged := some "Test_LED_Driver_OnChannelChanged", bLoaded := false },
    { name := "I2C", initFunc := some "DRV_I2C_Init", onEverySecond := some "DRV_I2C_EverySecond",
      appendInformationToHTTPIndexPage := none,
      runQuickTick := none, stopFunc := none,
      onChannelChanged := none, bLoaded := false },
    { name := "BL0942", initFunc := some "BL0942_UART_Init", onEverySecond := some "BL0942_UART_RunFrame",
      appendInformationToHTTPIndexPage := some "BL09XX_AppendInformationToHTTPIndexPage",
      runQuickTick := none, stopFunc := none,
      onChannelChanged := none, bLoaded := false },
    { name := "BL0942SPI", initFunc := some "BL0942_SPI_Init", onEverySecond := some "BL0942_SPI_RunFrame",
      appendInformationToHTTPIndexPage := some "BL09XX_AppendInformationToHTTPIndexPage",
      runQuickTick := none, stopFunc := none,
      onChannelChanged := none, bLoaded := false },
    { name := "BL0937", initFunc := some "BL0937_Init", onEverySecond := some "BL0937_RunFrame",
      appendInformationToHTTPIndexPage := some "BL09XX_AppendInformationToHTTPIndexPage",
      runQuickTick := none, stopFunc := none,
      onChannelChanged := none, bLoaded := false },
    { name := "CSE7766", initFunc := some "CSE7766_Init", onEverySecond := some "CSE7766_RunFrame",
      appendInformationToHTTPIndexPage := some "BL09XX_AppendInformationToHTTPIndexPage",
      runQuickTick := none, stopFunc := none,
      onChannelChanged := none, bLoaded := false },
    { name := "SM16703P", initFunc := some "SM16703P_Init", onEverySecond := none,
      appendInformationToHTTPIndexPage := none,
      runQuickTick := none, stopFunc := none,
      onChannelChanged := none, bLoaded := false },
    { name := "IR", initFunc := some "DRV_IR_Init", onEverySecond := none,
      appendInformationToHTTPIndexPage := none,
      runQuickTick := some "DRV_IR_RunFrame", stopFunc := none,
      onChannelChanged := none, bLoaded := false },
    { name := "DDP", initFunc := some "DRV_DDP_Init", onEverySecond := none,
      appendInformationToHTTPIndexPage := some "DRV_DDP_AppendInformationToHTTPIndexPage",
      runQuickTick := some "DRV_DDP_RunFrame", stopFunc := some "DRV_DDP_Shutdown",
      onChannelChanged := none, bLoaded := false },
    { name := "SSDP", initFunc := some "DRV_SSDP_Init", onEverySecond := some "DRV_SSDP_RunEverySecond",
      appendInformationToHTTPIndexPage := none,
      runQuickTick := some "DRV_SSDP_RunQuickTick", stopFunc := some "DRV_SSDP_Shutdown",
      onChannelChanged := none, bLoaded := false },
    { name := "Wemo", initFunc := some "WEMO_Init", onEverySecond := none,
      appendInformationToHTTPIndexPage := some "WEMO_AppendInformationToHTTPIndexPage",
      runQuickTick := none, stopFunc := none,
      onChannelChanged := none, bLoaded := false },
    { name := "DGR", initFunc := some "DRV_DGR_Init", onEverySecond := some "DRV_DGR_RunEverySecond",
      appendInformationToHTTPIndexPage := some "DRV_DGR_AppendInformationToHTTPIndexPage",
      runQuickTick := some "DRV_DGR_RunQuickTick", stopFunc := some "DRV_DGR_Shutdown",
      onChannelChanged := some "DRV_DGR_OnChannelChanged", bLoaded := false },
    { name := "PWMToggler", initFunc := some "DRV_InitPWMToggler", onEverySecond := none,
      appendInformationToHTTPIndexPage := some "DRV_Toggler_AppendInformationToHTTPIndexPage",
      runQuickTick := none, stopFunc := none,
      onChannelChanged := none, bLoaded := false },
    { name := "DoorSensor", initFunc := some "DoorDeepSleep_Init", onEverySecond := some "DoorDeepSleep_OnEverySecond",
      appendInformationToHTTPIndexPage := some "DoorDeepSleep_AppendInformationToHTTPIndexPage",
      runQuickTick := none, stopFunc := none,
      onChannelChanged := some "DoorDeepSleep_OnChannelChanged", bLoaded := false },
    { name := "MAX72XX_Clock", initFunc := some "DRV_MAX72XX_Clock_Init", onEverySecond := some "DRV_MAX72XX_Clock_OnEverySecond",
      appendInformationToHTTPIndexPage := none,
      runQuickTick := some "DRV_MAX72XX_Clock_RunFrame", stopFunc := none,
      onChannelChanged := none, bLoaded := false },
    { name := "ADCButton", initFunc := some "DRV_ADCButton_Init", onEverySecond := none,
      appendInformationToHTTPIndexPage := none,
      runQuickTick := some "DRV_ADCButton_RunFrame", stopFunc := none,
      onChannelChanged := none, bLoaded := false },
    { name := "SM2135", initFunc := some "SM2135_Init", onEverySecond := none,
      appendInformationToHTTPIndexPage := none,
      runQuickTick := none, stopFunc := none,
      onChannelChanged := none, bLoaded := false },
    { name := "BP5758D", initFunc := some "BP5758D_Init", onEverySecond := none,
      appendInformationToHTTPIndexPage := none,
      runQuickTick := none, stopFunc := none,
      onChannelChanged := none, bLoaded := false },
    { name := "BP1658CJ", initFunc := some "BP1658CJ_Init", onEverySecond := none,
      appendInformationToHTTPIndexPage := none,
      runQuickTick := none, stopFunc := none,
      onChannelChanged := none, bLoaded := false },
    { name := "SM2235", initFunc := some "SM2235_Init", onEverySecond := none,
      appendInformationToHTTPIndexPage := none,
      runQuickTick := none, stopFunc := none,
      onChannelChanged := none, bLoaded := false },
    { name := "CHT8305", initFunc := some "CHT8305_Init", onEverySecond := some "CHT8305_OnEverySecond",
      appendInformationToHTTPIndexPage := some "CHT8305_AppendInformationToHTTPIndexPage",
      runQuickTick := none, stopFunc := none,
      onChannelChanged := none, bLoaded := false },
    { name := "KP18068", initFunc := some "KP18068_Init", onEverySecond := none,
      appendInformationToHTTPIndexPage := none,
      runQuickTick := none, stopFunc := none,
      onChannelChanged := none, bLoaded := false },
    { name := "MAX72XX", initFunc := some "DRV_MAX72XX_Init", onEverySecond := none,
      appendInformationToHTTPIndexPage := none,
      runQuickTick := none, stopFunc := none,
      onChannelChanged := none, bLoaded := false },
    { name := "TM1637", initFunc := some "TM1637_Init", onEverySecond := none,
      appendInformationToHTTPIndexPage := none,
      runQuickTick := some "TMGN_RunQuickTick", stopFunc := none,
      onChannelChanged := none, bLoaded := false },
    { name := "GN6932", initFunc := some "GN6932_Init", onEverySecond := none,
      appendInformationToHTTPIndexPage := none,
      runQuickTick := some "TMGN_RunQuickTick", stopFunc := none,
      onChannelChanged := none, bLoaded := false },
    { name := "TM1638", initFunc := some "TM1638_Init", onEverySecond := none,
      appendInformationToHTTPIndexPage := none,
      runQuickTick := some "TMGN_RunQuickTick", stopFunc := none,
      onChannelChanged := none, bLoaded := false },
    { name := "SHT3X", initFunc := some "SHT3X_Init", onEverySecond := some "SHT3X_OnEverySecond",
      appendInformationToHTTPIndexPage := some "SHT3X_AppendInformationToHTTPIndexPage",
      runQuickTick := none, stopFunc := some "SHT3X_StopDriver",
      onChannelChanged := none, bLoaded := false },
    { name := "SGP", initFunc := some "SGP_Init", onEverySecond := some "SGP_OnEverySecond",
      appendInformationToHTTPIndexPage := some "SGP_AppendInformationToHTTPIndexPage",
      runQuickTick := none, stopFunc := some "SGP_StopDriver",
      onChannelChanged := none, bLoaded := false },
    { name := "ShiftRegister", initFunc := some "Shift_Init", onEverySecond := some "Shift_OnEverySecond",
      appendInformationToHTTPIndexPage := none,
      runQuickTick := none, stopFunc := none,
      onChannelChanged := some "Shift_OnChannelChanged", bLoaded := false },
    { name := "Battery", initFunc := some "Batt_Init", onEverySecond := some "Batt_OnEverySecond",
      appendInformationToHTTPIndexPage := some "Batt_AppendInformationToHTTPIndexPage",
      runQuickTick := none, stopFunc := some "Batt_StopDriver",
      onChannelChanged := none, bLoaded := false },
    { name := "Bridge", initFunc := some "Bridge_driver_Init", onEverySecond := none,
      appendInformationToHTTPIndexPage := none,
      runQuickTick := some "Bridge_driver_QuickFrame", stopFunc := some "Bridge_driver_DeInit",
      onChannelChanged := some "Bridge_driver_OnChannelChanged", bLoaded := false } ]

/-- The state in which an operation leaves the registry when its request on the
mutex, with wait bound `del`, fails: nothing but the record of the request. -/
def afterFailedTake (st : Registry) (del : Int) : Registry :=
  { st with g_mutex := some true, trace := st.trace ++ [Event.semaphoreTake del false] }

/-- The table `A`, `B` with both descriptors loaded and the mutex held by another
context. -/
def registryABHeld : Registry :=
  { registryABLoaded with g_mutex := some true }

/-! ### drv_uart.c: the debug drain -/

/-- What takes `UART_DebugTool_Run` outside defined behaviour: a read outside the ring
buffer block, or a store outside the local array `tmp`. -/
inductive Fault where
  | readOutsideRing (index : Int)
  | writeOutsideTmp (index : Nat)
deriving DecidableEq, Repr

/-- A store `tmp[idx] = c` into the local array; a fault when `idx` lies outside it. -/
def tmpStore (tmp : List Char) (idx : Nat) (c : Char) : Except Fault (List Char) :=
  if idx < tmp.length then Except.ok (tmp.set idx c)
  else Except.error (Fault.writeOutsideTmp idx)

/-- The upper-case hexadecimal digit of a value from 0 to 15. -/
def hexDigit (n : Int) : Char :=
  "0123456789ABCDEF".data.getD n.toNat '?'

/-- The call `sprintf(p, "%02X", b)` for a byte `b`, with `p` the position `idx` in `tmp`:
two hexadecimal digits and the terminating NUL are stored. -/
def sprintf_02X (tmp : List Char) (idx : Nat) (b : Int) : Except Fault (List Char) :=
  match tmpStore tmp idx (hexDigit (b / 16)) with
  | Except.error f => Except.error f
  | Except.ok t1 =>
    match tmpStore t1 (idx + 1) (hexDigit (b % 16)) with
    | Except.error f => Except.error f
    | Except.ok t2 => tmpStore t2 (idx + 2) (Char.ofNat 0)

/-- The variables of the loop of `UART_DebugTool_Run`: the array `tmp`, the position of
`p` in it, and the ring buffer. -/
structure DebugLoop where
  tmp : List Char
  p : Nat
  ring : RingBuf
deriving DecidableEq, Repr

/-- The `for` loop of `UART_DebugTool_Run` over the remaining values of `i`. -/
def UART_DebugTool_Run_loop : List Nat → DebugLoop → Except Fault DebugLoop
  | [], a => Except.ok a
  | i :: rest, a =>
    if UART_GetDataSize a.ring = 0 then
      Except.ok a
    else
      match UART_GetNextByte a.ring 0 with
      | none => Except.error (Fault.readOutsideRing (UART_GetNextByte_realIndex a.ring 0))
      | some b =>
        match (if i ≠ 0 then
            match tmpStore a.tmp a.p ' ' with
            | Except.error f => Except.error f
            | Except.ok t => Except.ok (t, a.p + 1)
          else Except.ok (a.tmp, a.p)) with
        | Except.error f => Except.error f
        | Except.ok (t, idx) =>
          match sprintf_02X t idx b with
          | Except.error f => Except.error f
          | Except.ok t2 =>
            UART_DebugTool_Run_loop rest
              { tmp := t2, p := idx + 2, ring := UART_ConsumeBytes a.ring 1 }

/-- The function `UART_DebugTool_Run()`, given the contents of the uninitialised array
`tmp` (`sizeof(tmp)` is its length, 128 in the source): the loop over
`i < sizeof(tmp) - 4`, then `*p = 0`.  The result is the array and the ring buffer;
the logging call is left out. -/
def UART_DebugTool_Run (tmp : List Char) (ring : RingBuf) :
    Except Fault (List Char × RingBuf) :=
  match UART_DebugTool_Run_loop (List.range (tmp.length - 4))
      { tmp := tmp, p := 0, ring := ring } with
  | Except.error f => Except.error f
  | Except.ok a =>
    match tmpStore a.tmp a.p (Char.ofNat 0) with
    | Except.error f => Except.error f
    | Except.ok t => Except.ok (t, a.ring)

/-- The fault of a run, if any. -/
def faultOf {α : Type} : Except Fault α → Option Fault
  | Except.error f => some f
  | Except.ok _ => none

/-- The ring buffer of capacity 512 (as set by `uartInit`) after `k` zero bytes were
received and none consumed. -/
def ringPending (k : Nat) : RingBuf :=
  { g_recvBuf := List.replicate 512 0, g_recvBufSize := 512, g_recvBufIn := k,
    g_recvBufOut := 0 }

/-! ### The text of the status fragment -/

/-- The characters that one piece of page output shows; what an info callback wrote
is not part of the model. -/
def Chunk.chars : Chunk → List Char
  | Chunk.text s => s.data
  | Chunk.info _ => []

/-- The characters of a page, output by output. -/
def pageText (request : http_request_t) : List Char :=
  (request.map Chunk.chars).flatten

/-- The names of the loaded descriptors of a table, in table order. -/
def loadedNames (table : List driver_t) : List String :=
  (table.filter (fun d => d.bLoaded)).map (fun d => d.name)

/-- The status fragment in the words of the specification: the count of loaded
descriptors, the comma-joined names in parentheses when the count is positive,
and the total, between the `h5` tags. -/
def statusFragment (table : List driver_t) : List Char :=
  "<h5>".data ++ (toString (loadedNames table).length).data ++ " drivers active".data ++
    (if (loadedNames table).length > 0 then
      " (".data ++ (",".intercalate (loadedNames table)).data ++ ")".data
    else []) ++
    ", total ".data ++ (toString table.length).data ++ "</h5>".data

/-- The name of the descriptor at index `i` when it is loaded. -/
def loadedName (table : List driver_t) (i : Nat) : Option String :=
  (table[i]?).bind (fun d => if d.bLoaded = true then some d.name else none)

/-- The outputs of the second loop for the names `ns`, `j` names being printed
already. -/
def nameChunks : Int → List String → List Chunk
  | _, [] => []
  | j, n :: ns =>
    (if j ≠ 0 then [Chunk.text ","] else []) ++ [Chunk.text n] ++ nameChunks (j + 1) ns

/-- A table of five descriptors of which `X` and `Y`, in this order, are loaded; the
mutex is free. -/
def registryFive : Registry :=
  { g_drivers := [plainDriver "P" false, plainDriver "X" true, plainDriver "Q" false,
      plainDriver "Y" true, plainDriver "R" false],
    g_mutex := none, trace := [] }

/-- A table whose only descriptor is loaded and has the name `A%%B`; the mutex is
free. -/
def registryPercent : Registry :=
  { g_drivers := [plainDriver "A%%B" true], g_mutex := none, trace := [] }

/-- A table whose only descriptor is loaded and has the name `100%`; the mutex is
free. -/
def registryLonePercent : Registry :=
  { g_drivers := [plainDriver "100%" true], g_mutex := none, trace := [] }

/-! ### The states of the program -/

/-- A state of the program: its table holds the rows of `g_drivers` that the build
options select, in the order of the source (a sublist of the 36 rows), with any
values of the `bLoaded` flags, the only field that the code writes. -/
def buildState (st : Registry) : Prop :=
  List.Sublist (staticTable st) g_drivers

instance (st : Registry) : Decidable (buildState st) := by
  unfold buildState
  infer_instance

/-- A state of the build with the rows `TuyaMCU`, `tmSensor`, `NTP`, `I2C` and `Bridge`:
`NTP` and `Bridge` are loaded, the mutex is free. -/
def registryBuild5 : Registry :=
  { g_drivers :=
      (g_drivers.filter (fun d => d.name ∈ ["TuyaMCU", "tmSensor", "NTP", "I2C", "Bridge"])).map
        (fun d => { d with bLoaded := decide (d.name ∈ ["NTP", "Bridge"]) })
    g_mutex := some false
    trace := [] }

/-! ### Helper lemmas on the ring buffer -/

theorem ringInv_init (C : Int) (hC : 1 ≤ C) (old : RingBuf) :
    RingInv C (UART_InitReceiveRingBuffer C old) := by
  refine ⟨rfl, ?_, ?_, ?_, ?_, ?_⟩ <;> simp [UART_InitReceiveRingBuffer] <;> omega

theorem ringInv_consume {C : Int} {s : RingBuf} (h : RingInv C s) (n : Int)
    (h0 : 0 ≤ n) (hn : n ≤ UART_GetDataSize s) : RingInv C (UART_ConsumeBytes s n) := by
  obtain ⟨h1, h2, h3, h4, h5, h6⟩ := h
  unfold UART_GetDataSize at hn
  refine ⟨h1, h2, h3, h4, ?_, ?_⟩
  · simp only [UART_ConsumeBytes]
    split_ifs at hn ⊢ <;> omega
  · simp only [UART_ConsumeBytes]
    split_ifs at hn ⊢ <;> omega

theorem ringInv_append {C : Int} {s s1 : RingBuf} (h : RingInv C s) (rc : Int)
    (hs : UART_AppendByteToCircularBuffer s rc = some s1) : RingInv C s1 := by
  obtain ⟨h1, h2, h3, h4, h5, h6⟩ := h
  unfold UART_AppendByteToCircularBuffer at hs
  by_cases ha : UART_GetDataSize s < s.g_recvBufSize - 1
  · by_cases hb : 0 ≤ s.g_recvBufIn ∧ s.g_recvBufIn.toNat < s.g_recvBuf.length
    · rw [if_pos ha, if_pos hb] at hs
      simp only [Option.some.injEq] at hs
      subst hs
      refine ⟨h1, ?_, ?_, ?_, h5, h6⟩
      · simpa using h2
      · dsimp only
        split_ifs <;> omega
      · dsimp only
        split_ifs <;> omega
    · rw [if_pos ha, if_neg hb] at hs
      exact absurd hs (by simp)
  · rw [if_neg ha] at hs
    simp only [Option.some.injEq] at hs
    subst hs
    exact ⟨h1, h2, h3, h4, h5, h6⟩

theorem reachable_inv {C : Int} (hC : 1 ≤ C) {s : RingBuf} (h : Reachable C s) :
    RingInv C s := by
  induction h with
  | init old => exact ringInv_init C hC old
  | append rc _ hs ih => exact ringInv_append ih rc hs
  | consume n _ h0 hn ih => exact ringInv_consume ih n h0 hn

theorem dataSize_bounds {C : Int} {s : RingBuf} (h : RingInv C s) :
    0 ≤ UART_GetDataSize s ∧ UART_GetDataSize s ≤ C - 1 := by
  obtain ⟨h1, _, h3, h4, h5, h6⟩ := h
  unfold UART_GetDataSize
  split_ifs <;> omega

/-- In a reachable state every intermediate value of the four operations lies
between 0 and twice the capacity. -/
theorem ring_values_bounded {C : Int} (hC : 1 ≤ C) {s : RingBuf} (h : Reachable C s)
    (n : Int) (h0 : 0 ≤ n) (hn : n ≤ UART_GetDataSize s) :
    0 ≤ s.g_recvBufIn + s.g_recvBufSize ∧ s.g_recvBufIn + s.g_recvBufSize < 2 * C ∧
      0 ≤ s.g_recvBufOut + n ∧ s.g_recvBufOut + n < 2 * C ∧
      s.g_recvBufIn + 1 ≤ C := by
  obtain ⟨h1, _, h3, h4, h5, h6⟩ := reachable_inv hC h
  unfold UART_GetDataSize at hn
  split_ifs at hn <;> omega

/-! ## Ring buffer: the claims -/

/-- C1 (FIFO order), evaluated on the code: with capacity 2, the calls
append 1, consume 1, append 2, consume 1 reach an empty state whose `out` index
equals the capacity; after appending the byte 3 there, one byte is pending, but
`UART_GetNextByte(0)` reads index 2, outside the two-byte block, instead of
index 0 where 3 was stored. -/
theorem C1_fifo_reads_outside_block :
    Reachable 2 ⟨[1, 2], 2, 0, 2⟩ ∧ UART_GetDataSize ⟨[1, 2], 2, 0, 2⟩ = 0 ∧
      UART_AppendByteToCircularBuffer ⟨[1, 2], 2, 0, 2⟩ 3 = some ⟨[3, 2], 2, 1, 2⟩ ∧
      UART_GetDataSize ⟨[3, 2], 2, 1, 2⟩ = 1 ∧
      readByte [3, 2] 0 = some 3 ∧
      UART_GetNextByte_realIndex ⟨[3, 2], 2, 1, 2⟩ 0 = 2 ∧
      UART_GetNextByte ⟨[3, 2], 2, 1, 2⟩ 0 = none := by
  have h0 : Reachable 2 (UART_InitReceiveRingBuffer 2 ringBlank) := Reachable.init ringBlank
  have h1 : Reachable 2 ⟨[1, 0], 2, 1, 0⟩ := Reachable.append 1 h0 (by decide)
  have h2 : Reachable 2 (UART_ConsumeBytes ⟨[1, 0], 2, 1, 0⟩ 1) :=
    Reachable.consume 1 h1 (by decide) (by decide)
  have h3 : Reachable 2 ⟨[1, 2], 2, 0, 1⟩ := Reachable.append 2 h2 (by decide)
  have h4 : Reachable 2 (UART_ConsumeBytes ⟨[1, 2], 2, 0, 1⟩ 1) :=
    Reachable.consume 1 h3 (by decide) (by decide)
  have e : UART_ConsumeBytes ⟨[1, 2], 2, 0, 1⟩ 1 = ⟨[1, 2], 2, 0, 2⟩ := by decide
  rw [e] at h4
  exact ⟨h4, by decide, by decide, by decide, by decide, by decide, by decide⟩

/-- C2 (PeekAt), evaluated on the code: with capacity 3, the calls append 1,
append 2, consume 2, append 3, append 4 reach a state with two pending bytes,
`out = 2`; the offset 1 is below the data size and `(out + 1) mod 3 = 0`, where
the byte 4 is stored, but `UART_GetNextByte(1)` reads index 3, outside the
three-byte block. -/
theorem C2_peek_reads_index_capacity :
    Reachable 3 ⟨[4, 2, 3], 3, 1, 2⟩ ∧ UART_GetDataSize ⟨[4, 2, 3], 3, 1, 2⟩ = 2 ∧
      ((2 : Int) + 1) % 3 = 0 ∧ readByte [4, 2, 3] 0 = some 4 ∧
      UART_GetNextByte_realIndex ⟨[4, 2, 3], 3, 1, 2⟩ 1 = 3 ∧
      UART_GetNextByte ⟨[4, 2, 3], 3, 1, 2⟩ 1 = none := by
  have h0 : Reachable 3 (UART_InitReceiveRingBuffer 3 ringBlank) := Reachable.init ringBlank
  have h1 : Reachable 3 ⟨[1, 0, 0], 3, 1, 0⟩ := Reachable.append 1 h0 (by decide)
  have h2 : Reachable 3 ⟨[1, 2, 0], 3, 2, 0⟩ := Reachable.append 2 h1 (by decide)
  have h3 : Reachable 3 (UART_ConsumeBytes ⟨[1, 2, 0], 3, 2, 0⟩ 2) :=
    Reachable.consume 2 h2 (by decide) (by decide)
  have h4 : Reachable 3 ⟨[1, 2, 3], 3, 0, 2⟩ := Reachable.append 3 h3 (by decide)
  have h5 : Reachable 3 ⟨[4, 2, 3], 3, 1, 2⟩ := Reachable.append 4 h4 (by decide)
  exact ⟨h5, by decide, by decide, by decide, by decide, by decide⟩

/-- C3 (index range), evaluated on the code: with capacity 2, after append 1,
consume 1, append 2 the `out` index is 1 and one byte is pending;
`UART_ConsumeBytes(1)` then leaves `out = 2`, which is the capacity itself and
not `(1 + 1) mod 2 = 0`. -/
theorem C3_out_reaches_capacity :
    Reachable 2 ⟨[1, 2], 2, 0, 1⟩ ∧ UART_GetDataSize ⟨[1, 2], 2, 0, 1⟩ = 1 ∧
      Reachable 2 (UART_ConsumeBytes ⟨[1, 2], 2, 0, 1⟩ 1) ∧
      (UART_ConsumeBytes ⟨[1, 2], 2, 0, 1⟩ 1).g_recvBufOut = 2 ∧
      ((1 : Int) + 1) % 2 = 0 := by
  have h0 : Reachable 2 (UART_InitReceiveRingBuffer 2 ringBlank) := Reachable.init ringBlank
  have h1 : Reachable 2 ⟨[1, 0], 2, 1, 0⟩ := Reachable.append 1 h0 (by decide)
  have h2 : Reachable 2 (UART_ConsumeBytes ⟨[1, 0], 2, 1, 0⟩ 1) :=
    Reachable.consume 1 h1 (by decide) (by decide)
  have h3 : Reachable 2 ⟨[1, 2], 2, 0, 1⟩ := Reachable.append 2 h2 (by decide)
  exact ⟨h3, by decide, Reachable.consume 1 h3 (by decide) (by decide),
    by decide, by decide⟩

/-- C4 (occupancy bound): for every capacity `C ≥ 1`, in every state reached from
`UART_InitReceiveRingBuffer(C)` by appends and by consumes of at most the data
size, `UART_GetDataSize()` is at most `C - 1` (and not negative). -/
theorem C4_occupancy_bound (C : Int) (hC : 1 ≤ C) (s : RingBuf) (h : Reachable C s) :
    0 ≤ UART_GetDataSize s ∧ UART_GetDataSize s ≤ C - 1 :=
  dataSize_bounds (reachable_inv hC h)

theorem ringFull4_reachable : Reachable 4 ringFull4 := by
  have h0 : Reachable 4 (UART_InitReceiveRingBuffer 4 ringBlank) := Reachable.init ringBlank
  have h1 : Reachable 4 ⟨[1, 0, 0, 0], 4, 1, 0⟩ := Reachable.append 1 h0 (by decide)
  have h2 : Reachable 4 ⟨[1, 2, 0, 0], 4, 2, 0⟩ := Reachable.append 2 h1 (by decide)
  exact Reachable.append 3 h2 (by decide)

/-- Witness of C4 on the overflow scenario: three bytes pending in a buffer of
capacity 4. -/
theorem C4_occupancy_bound_witness :
    (1 : Int) ≤ 4 ∧ Reachable 4 ringFull4 ∧ UART_GetDataSize ringFull4 = 3 ∧
      (0 ≤ UART_GetDataSize ringFull4 ∧ UART_GetDataSize ringFull4 ≤ 4 - 1) :=
  ⟨by decide, ringFull4_reachable, by decide,
    C4_occupancy_bound 4 (by decide) ringFull4 ringFull4_reachable⟩

/-- C5 (append on a full buffer): in every state with
`UART_GetDataSize() ≥ capacity - 1`, `UART_AppendByteToCircularBuffer(b)` returns the
state unchanged for every `b`: both indices and every stored byte are as before,
hence so are the data size and every `UART_GetNextByte` result. -/
theorem C5_append_full_is_noop (s : RingBuf) (b : Int)
    (hfull : UART_GetDataSize s ≥ s.g_recvBufSize - 1) :
    UART_AppendByteToCircularBuffer s b = some s := by
  unfold UART_AppendByteToCircularBuffer
  rw [if_neg (by omega)]

/-- Witness of C5, the overflow scenario of the specification: after `Init(4)` and
the appends of 1, 2, 3 the data size is 3; appending 4 changes nothing, the data
size stays 3 and `UART_GetNextByte(0)` is still 1. -/
theorem C5_append_full_is_noop_witness :
    UART_GetDataSize ringFull4 ≥ ringFull4.g_recvBufSize - 1 ∧
      UART_GetDataSize ringFull4 = 3 ∧ UART_GetNextByte ringFull4 0 = some 1 ∧
      UART_AppendByteToCircularBuffer ringFull4 4 = some ringFull4 :=
  ⟨by decide, by decide, by decide, C5_append_full_is_noop ringFull4 4 (by decide)⟩

/-- C6 (append on a non-full buffer): in every reachable state with
`UART_GetDataSize() < capacity - 1` and for every value `rc`,
`UART_AppendByteToCircularBuffer(rc)` succeeds, the store index `in` lies inside the
block, the new storage holds `rc mod 256` at index `in` and the old byte at every
other index, `in` becomes `(in + 1) mod capacity`, `out` and the capacity are
unchanged, and the data size grows by exactly 1. -/
theorem C6_append_nonfull (C : Int) (hC : 1 ≤ C) (s : RingBuf) (h : Reachable C s)
    (rc : Int) (hroom : UART_GetDataSize s < s.g_recvBufSize - 1) :
    ∃ s1 : RingBuf, UART_AppendByteToCircularBuffer s rc = some s1 ∧
      0 ≤ s.g_recvBufIn ∧ s.g_recvBufIn < s.g_recvBufSize ∧
      readByte s1.g_recvBuf s.g_recvBufIn = some (rc % 256) ∧
      (∀ j : Int, j ≠ s.g_recvBufIn → readByte s1.g_recvBuf j = readByte s.g_recvBuf j) ∧
      s1.g_recvBuf.length = s.g_recvBuf.length ∧
      s1.g_recvBufIn = (s.g_recvBufIn + 1) % s.g_recvBufSize ∧
      s1.g_recvBufOut = s.g_recvBufOut ∧
      s1.g_recvBufSize = s.g_recvBufSize ∧
      UART_GetDataSize s1 = UART_GetDataSize s + 1 := by
  obtain ⟨h1, h2, h3, h4, h5, h6⟩ := reachable_inv hC h
  have hb : 0 ≤ s.g_recvBufIn ∧ s.g_recvBufIn.toNat < s.g_recvBuf.length := by
    constructor <;> omega
  refine ⟨{ s with
      g_recvBuf := s.g_recvBuf.set s.g_recvBufIn.toNat (rc % 256)
      g_recvBufIn := if s.g_recvBufIn + 1 ≥ s.g_recvBufSize then 0 else s.g_recvBufIn + 1 },
    by unfold UART_AppendByteToCircularBuffer; rw [if_pos hroom, if_pos hb],
    h3, by omega, ?_, ?_, ?_, ?_, rfl, rfl, ?_⟩
  · simp only [readByte, if_pos h3]
    rw [List.getElem?_set_self hb.2]
  · intro j hj
    unfold readByte
    by_cases hj0 : 0 ≤ j
    · rw [if_pos hj0, if_pos hj0, List.getElem?_set_ne (by omega)]
    · rw [if_neg hj0, if_neg hj0]
  · simp
  · dsimp only
    split_ifs with hw
    · have : s.g_recvBufIn + 1 = s.g_recvBufSize := by omega
      rw [this, Int.emod_self]
    · rw [Int.emod_eq_of_lt (by omega) (by omega)]
  · unfold UART_GetDataSize at hroom ⊢
    dsimp only
    split_ifs at hroom ⊢ <;> omega

/-- Witness of C6: appending 0x1FF to the empty buffer of capacity 4. -/
theorem C6_append_nonfull_witness :
    (1 : Int) ≤ 4 ∧
      UART_GetDataSize (UART_InitReceiveRingBuffer 4 ringBlank) <
        (UART_InitReceiveRingBuffer 4 ringBlank).g_recvBufSize - 1 ∧
      UART_AppendByteToCircularBuffer (UART_InitReceiveRingBuffer 4 ringBlank) 511 =
        some ⟨[255, 0, 0, 0], 4, 1, 0⟩ ∧
      ∃ s1 : RingBuf,
        UART_AppendByteToCircularBuffer (UART_InitReceiveRingBuffer 4 ringBlank) 511 = some s1 ∧
        UART_GetDataSize s1 = UART_GetDataSize (UART_InitReceiveRingBuffer 4 ringBlank) + 1 := by
  refine ⟨by decide, by decide, by decide, ?_⟩
  obtain ⟨s1, hs, _, _, _, _, _, _, _, _, hd⟩ :=
    C6_append_nonfull 4 (by decide) _ (Reachable.init ringBlank) 511 (by decide)
  exact ⟨s1, hs, hd⟩

/-- C7 (init resets): for every earlier state and every capacity `C ≥ 1`, after
`UART_InitReceiveRingBuffer(C)` the capacity is `C`, `in = out = 0`, the block has
`C` bytes, every one of them is 0, and `UART_GetDataSize()` is 0. -/
theorem C7_init_resets (old : RingBuf) (C : Int) (hC : 1 ≤ C) :
    (UART_InitReceiveRingBuffer C old).g_recvBufSize = C ∧
      (UART_InitReceiveRingBuffer C old).g_recvBufIn = 0 ∧
      (UART_InitReceiveRingBuffer C old).g_recvBufOut = 0 ∧
      ((UART_InitReceiveRingBuffer C old).g_recvBuf.length : Int) = C ∧
      (∀ j : Int, 0 ≤ j → j < C →
        readByte (UART_InitReceiveRingBuffer C old).g_recvBuf j = some 0) ∧
      UART_GetDataSize (UART_InitReceiveRingBuffer C old) = 0 := by
  refine ⟨rfl, rfl, rfl, ?_, ?_, ?_⟩
  · simp [UART_InitReceiveRingBuffer]; omega
  · intro j h0 h1
    have hlt : j.toNat < C.toNat := by omega
    simp [UART_InitReceiveRingBuffer, readByte, h0, List.getElem?_replicate, hlt]
  · simp [UART_InitReceiveRingBuffer, UART_GetDataSize]

/-- Witness of C7: re-initialising the non-empty overflow state with capacity 2. -/
theorem C7_init_resets_witness :
    (1 : Int) ≤ 2 ∧ UART_InitReceiveRingBuffer 2 ringFull4 = ⟨[0, 0], 2, 0, 0⟩ ∧
      UART_GetDataSize (UART_InitReceiveRingBuffer 2 ringFull4) = 0 :=
  ⟨by decide, by decide, (C7_init_resets ringFull4 2 (by decide)).2.2.2.2.2⟩

/-- C8 (data-size formula): for every capacity `C ≥ 1` and every reachable state,
`UART_GetDataSize()` equals `(in - out + capacity) mod capacity`; the function
assigns no variable, its embedding only returns the number. -/
theorem C8_dataSize_formula (C : Int) (hC : 1 ≤ C) (s : RingBuf) (h : Reachable C s) :
    UART_GetDataSize s =
      (s.g_recvBufIn - s.g_recvBufOut + s.g_recvBufSize) % s.g_recvBufSize := by
  obtain ⟨h1, _, h3, h4, h5, h6⟩ := reachable_inv hC h
  unfold UART_GetDataSize
  split_ifs with hge
  · rw [Int.add_emod_self, Int.emod_eq_of_lt (by omega) (by omega)]
  · rw [Int.emod_eq_of_lt (by omega) (by omega)]
    omega

/-- Witness of C8 on a wrapped state of capacity 3 (`in = 1`, `out = 2`). -/
theorem C8_dataSize_formula_witness :
    (1 : Int) ≤ 3 ∧ UART_GetDataSize ⟨[4, 2, 3], 3, 1, 2⟩ = 2 ∧
      UART_GetDataSize ⟨[4, 2, 3], 3, 1, 2⟩ = (1 - 2 + 3) % 3 := by
  have h0 : Reachable 3 (UART_InitReceiveRingBuffer 3 ringBlank) := Reachable.init ringBlank
  have h1 : Reachable 3 ⟨[1, 0, 0], 3, 1, 0⟩ := Reachable.append 1 h0 (by decide)
  have h2 : Reachable 3 ⟨[1, 2, 0], 3, 2, 0⟩ := Reachable.append 2 h1 (by decide)
  have h3 : Reachable 3 (UART_ConsumeBytes ⟨[1, 2, 0], 3, 2, 0⟩ 2) :=
    Reachable.consume 2 h2 (by decide) (by decide)
  have h4 : Reachable 3 ⟨[1, 2, 3], 3, 0, 2⟩ := Reachable.append 3 h3 (by decide)
  have h5 : Reachable 3 ⟨[4, 2, 3], 3, 1, 2⟩ := Reachable.append 4 h4 (by decide)
  exact ⟨by decide, by decide, C8_dataSize_formula 3 (by decide) _ h5⟩

/-! ## Driver registry: helper lemmas -/

theorem map_set_static (l : List driver_t) (k : Nat) (d : driver_t) (b : Bool)
    (h : l[k]? = some d) :
    (l.set k { d with bLoaded := b }).map (fun d => { d with bLoaded := false }) =
      l.map (fun d => { d with bLoaded := false }) := by
  apply List.ext_getElem?
  intro j
  simp only [List.getElem?_map, List.getElem?_set]
  by_cases hkj : k = j
  · subst hkj
    have hlt : k < l.length := by
      rcases Nat.lt_or_ge k l.length with h1 | h1
      · exact h1
      · rw [List.getElem?_eq_none h1] at h
        exact absurd h (by simp)
    simp [hlt, h]
  · simp [hkj]

theorem getElem?_static {st st1 : Registry} (h : staticTable st1 = staticTable st) (j : Nat) :
    (st1.g_drivers[j]?).map (fun d => { d with bLoaded := false }) =
      (st.g_drivers[j]?).map (fun d : driver_t => { d with bLoaded := false }) := by
  have := congrArg (fun l => l[j]?) h
  simpa [staticTable] using this

theorem hasStop_static {st st1 : Registry} (h : staticTable st1 = staticTable st) (j : Nat) :
    hasStop st1 j = hasStop st j := by
  have hj := getElem?_static h j
  unfold hasStop
  cases h1 : st1.g_drivers[j]? <;> cases h0 : st.g_drivers[j]? <;>
    simp [h1, h0] at hj ⊢
  rw [hj.2.2.2.2.2.1]

theorem length_static {st st1 : Registry} (h : staticTable st1 = staticTable st) :
    st1.g_drivers.length = st.g_drivers.length := by
  have := congrArg List.length h
  simpa [staticTable] using this

theorem StopStep.rfl (i : Nat) (st : Registry) : StopStep i st st :=
  ⟨by simp, fun h => h, by simp, by
    cases hasStop st i <;> cases loadedAt st i <;> simp⟩

theorem StopStep.trans {i : Nat} {st st1 st2 : Registry} (h1 : StopStep i st st1)
    (h2 : StopStep i st1 st2) : StopStep i st st2 := by
  refine ⟨h2.table.trans h1.table, fun h => h1.mono (h2.mono h), h2.inits.trans h1.inits, ?_⟩
  have hs := hasStop_static h1.table i
  have m1 := h1.mono
  have m2 := h2.mono
  have e1 := h1.stops
  have e2 := h2.stops
  rw [hs] at e2
  rw [e2, e1]
  cases hS : hasStop st i <;> cases hl0 : loadedAt st i <;> cases hl1 : loadedAt st1 i <;>
    cases hl2 : loadedAt st2 i <;> simp_all

theorem lt_length_of_getElem? {l : List driver_t} {k : Nat} {d : driver_t}
    (h : l[k]? = some d) : k < l.length := by
  rcases Nat.lt_or_ge k l.length with h1 | h1
  · exact h1
  · rw [List.getElem?_eq_none h1] at h
    exact absurd h (by simp)

theorem loadedAt_set_ne (st : Registry) (k i : Nat) (d1 : driver_t) (tr : List Event)
    (h : k ≠ i) :
    loadedAt { st with g_drivers := st.g_drivers.set k d1, trace := tr } i = loadedAt st i := by
  simp [loadedAt, List.getElem?_set_ne h]

theorem stopBody_step (name : String) (i : Nat) (st : Registry) (k : Nat) :
    StopStep i st (DRV_StopDriver_body name st k) := by
  unfold DRV_StopDriver_body
  cases hk : st.g_drivers[k]? with
  | none => exact StopStep.rfl i st
  | some d =>
    dsimp only
    by_cases ht : firstCharIsStar name = true ∨ stricmp d.name name = 0
    · by_cases hl : d.bLoaded = true
      · rw [if_pos ht, if_pos hl]
        have hlen := lt_length_of_getElem? hk
        by_cases hki : k = i
        · subst hki
          refine ⟨map_set_static _ _ _ _ hk, ?_, ?_, ?_⟩
          · simp [loadedAt, hlen]
          · dsimp only
            split_ifs <;> simp
          · have h1 : loadedAt st k = true := by simp [loadedAt, hk, hl]
            have h2 : hasStop st k = d.stopFunc.isSome := by simp [hasStop, hk]
            simp only [loadedAt, List.getElem?_set_self hlen, h2]
            simp only [loadedAt] at h1
            rw [h1]
            cases d.stopFunc <;> simp
        · refine ⟨map_set_static _ _ _ _ hk, ?_, ?_, ?_⟩
          · simp [loadedAt, List.getElem?_set_ne hki]
          · dsimp only
            split_ifs <;> simp
          · have h1 : ∀ l : List Event,
                List.count (Event.stopFunc i) (l ++ [Event.stopFunc k]) =
                  List.count (Event.stopFunc i) l := by
              intro l
              simp [List.count_singleton, hki]
            have hc : ¬(hasStop st i = true ∧ loadedAt st i = true ∧ loadedAt st i = false) := by
              rintro ⟨_, b2, b3⟩
              rw [b2] at b3
              exact absurd b3 (by simp)
            rw [loadedAt_set_ne st k i _ _ hki, if_neg hc]
            dsimp only
            split_ifs
            · rw [h1]; rfl
            · rfl
      · rw [if_pos ht, if_neg hl]
        exact StopStep.rfl i st
    · rw [if_neg ht]
      exact StopStep.rfl i st

theorem stopStep_of_same_table (i : Nat) (st st1 : Registry)
    (hd : st1.g_drivers = st.g_drivers)
    (hi : st1.trace.count (Event.initFunc i) = st.trace.count (Event.initFunc i))
    (hs : st1.trace.count (Event.stopFunc i) = st.trace.count (Event.stopFunc i)) :
    StopStep i st st1 := by
  have hl : loadedAt st1 i = loadedAt st i := by simp [loadedAt, hd]
  refine ⟨by simp [staticTable, hd], fun h => hl ▸ h, hi, ?_⟩
  rw [hs, hl]
  cases hS : hasStop st i <;> cases hl0 : loadedAt st i <;> simp

theorem mutexTake_step (i : Nat) (del : Int) (st : Registry) :
    StopStep i st (DRV_Mutex_Take del st).2 := by
  apply stopStep_of_same_table <;> simp [DRV_Mutex_Take]

theorem mutexFree_step (i : Nat) (st : Registry) : StopStep i st (DRV_Mutex_Free st) := by
  apply stopStep_of_same_table <;> simp [DRV_Mutex_Free]

theorem foldl_stopStep (i : Nat) (f : Registry → Nat → Registry)
    (hf : ∀ st k, StopStep i st (f st k)) (ks : List Nat) (st : Registry) :
    StopStep i st (ks.foldl f st) := by
  induction ks generalizing st with
  | nil => exact StopStep.rfl i st
  | cons k ks ih => exact (hf st k).trans (ih (f st k))

theorem stopDriver_step (i : Nat) (st : Registry) (name : String) :
    StopStep i st (DRV_StopDriver st name) := by
  unfold DRV_StopDriver
  dsimp only
  split_ifs
  · exact mutexTake_step i 100 st
  · exact ((mutexTake_step i 100 st).trans
      (foldl_stopStep i _ (stopBody_step name i) _ _)).trans (mutexFree_step i _)

theorem shutdownBody_step (i : Nat) (st : Registry) (k : Nat) :
    StopStep i st (DRV_ShutdownAllDrivers_body st k) := by
  unfold DRV_ShutdownAllDrivers_body
  cases st.g_drivers[k]? with
  | none => exact StopStep.rfl i st
  | some d =>
    dsimp only
    split_ifs
    · exact stopDriver_step i st d.name
    · exact StopStep.rfl i st

theorem shutdown_step (i : Nat) (st : Registry) :
    StopStep i st (DRV_ShutdownAllDrivers st) :=
  foldl_stopStep i _ (shutdownBody_step i) _ _

theorem StopStep.callStep {i : Nat} {st st1 : Registry} (h : StopStep i st st1) :
    CallStep i st st1 := by
  refine ⟨h.table, ?_, h.stops⟩
  rw [h.inits]
  have m := h.mono
  cases hl0 : loadedAt st i <;> cases hl1 : loadedAt st1 i <;> simp_all

theorem CallStep.trans_stop {i : Nat} {st st1 st2 : Registry} (h1 : StopStep i st st1)
    (h2 : CallStep i st1 st2) (hl : loadedAt st1 i = loadedAt st i) : CallStep i st st2 := by
  refine ⟨h2.table.trans h1.table, ?_, ?_⟩
  · rw [h2.inits, h1.inits, hl]
  · rw [h2.stops, h1.stops, hasStop_static h1.table, hl]
    cases hS : hasStop st i <;> cases hl0 : loadedAt st i <;> simp

theorem CallStep.then_stop {i : Nat} {st st1 st2 : Registry} (h1 : CallStep i st st1)
    (h2 : StopStep i st1 st2) (hl : loadedAt st2 i = loadedAt st1 i) : CallStep i st st2 := by
  refine ⟨h2.table.trans h1.table, ?_, ?_⟩
  · rw [h2.inits, h1.inits, hl]
  · rw [h2.stops, h1.stops, hasStop_static h1.table, hl]
    cases hS : hasStop st i <;> cases hl0 : loadedAt st i <;> cases hl1 : loadedAt st1 i <;> simp

theorem loadedAt_mutexTake (i : Nat) (del : Int) (st : Registry) :
    loadedAt (DRV_Mutex_Take del st).2 i = loadedAt st i := rfl

theorem loadedAt_mutexFree (i : Nat) (st : Registry) :
    loadedAt (DRV_Mutex_Free st) i = loadedAt st i := rfl

theorem startLoop_step (name : String) (i : Nat) (ks : List Nat) (st r : Registry) (b : Bool)
    (h : DRV_StartDriver_loop name ks st = some (r, b)) : CallStep i st r := by
  induction ks with
  | nil =>
    simp only [DRV_StartDriver_loop, Option.some.injEq, Prod.mk.injEq] at h
    rw [← h.1]
    exact (StopStep.rfl i st).callStep
  | cons k ks ih =>
    unfold DRV_StartDriver_loop at h
    cases hk : st.g_drivers[k]? with
    | none =>
      rw [hk] at h
      exact ih h
    | some d =>
      rw [hk] at h
      dsimp only at h
      by_cases hm : stricmp d.name name = 0
      · rw [if_pos hm] at h
        by_cases hl : d.bLoaded = true
        · rw [if_pos hl] at h
          simp only [Option.some.injEq, Prod.mk.injEq] at h
          rw [← h.1]
          exact (StopStep.rfl i st).callStep
        · rw [if_neg hl] at h
          cases hf : d.initFunc with
          | none =>
            rw [hf] at h
            exact absurd h (by simp)
          | some fn =>
            rw [hf] at h
            simp only [Option.some.injEq, Prod.mk.injEq] at h
            rw [← hf] at h
            rw [← h.1]
            have hlen := lt_length_of_getElem? hk
            have hl0 : d.bLoaded = false := by simpa using hl
            by_cases hki : k = i
            · subst hki
              have h0 : loadedAt st k = false := by simp [loadedAt, hk, hl0]
              refine ⟨map_set_static _ _ _ _ hk, ?_, ?_⟩
              · simp [loadedAt, hlen, hk, hl0]
              · simp [loadedAt, hlen, hk, hl0]
            · refine ⟨map_set_static _ _ _ _ hk, ?_, ?_⟩
              · rw [loadedAt_set_ne st k i _ _ hki]
                have hc : ¬(loadedAt st i = false ∧ loadedAt st i = true) := by
                  rintro ⟨b2, b3⟩
                  rw [b2] at b3
                  exact absurd b3 (by simp)
                rw [if_neg hc]
                simp [List.count_singleton, hki]
              · rw [loadedAt_set_ne st k i _ _ hki]
                have hc : ¬(hasStop st i = true ∧ loadedAt st i = true ∧
                    loadedAt st i = false) := by
                  rintro ⟨_, b2, b3⟩
                  rw [b2] at b3
                  exact absurd b3 (by simp)
                rw [if_neg hc]
                simp
      · rw [if_neg hm] at h
        exact ih h

theorem startDriver_step (i : Nat) (st st1 : Registry) (name : String)
    (h : DRV_StartDriver st name = some st1) : CallStep i st st1 := by
  unfold DRV_StartDriver at h
  dsimp only at h
  split_ifs at h
  · simp only [Option.some.injEq] at h
    rw [← h]
    exact (mutexTake_step i 100 st).callStep
  · rw [Option.map_eq_some'] at h
    obtain ⟨⟨r, b⟩, hr, hfree⟩ := h
    rw [← hfree]
    exact ((startLoop_step name i _ _ r b hr).trans_stop (mutexTake_step i 100 st)
      (loadedAt_mutexTake i 100 st)).then_stop (mutexFree_step i r) (loadedAt_mutexFree i r)

theorem call_step (i : Nat) (st st1 : Registry) (c : DrvCall) (h : DRV_call st c = some st1) :
    CallStep i st st1 := by
  cases c with
  | start name => exact startDriver_step i st st1 name h
  | stop name =>
    simp only [DRV_call, Option.some.injEq] at h
    rw [← h]
    exact (stopDriver_step i st name).callStep
  | shutdownAll =>
    simp only [DRV_call, Option.some.injEq] at h
    rw [← h]
    exact (shutdown_step i st).callStep

theorem allInit_static {st st1 : Registry} (h : staticTable st1 = staticTable st)
    (hinit : ∀ d ∈ st.g_drivers, d.initFunc.isSome = true) :
    ∀ d ∈ st1.g_drivers, d.initFunc.isSome = true := by
  intro d hd
  have h1 : ({ d with bLoaded := false } : driver_t) ∈ staticTable st1 :=
    List.mem_map.mpr ⟨d, hd, rfl⟩
  rw [h] at h1
  obtain ⟨d0, hd0, he⟩ := List.mem_map.mp h1
  have := congrArg driver_t.initFunc he
  dsimp only at this
  rw [← this]
  exact hinit d0 hd0

theorem startLoop_total (name : String) (ks : List Nat) (st : Registry)
    (hinit : ∀ d ∈ st.g_drivers, d.initFunc.isSome = true) :
    ∃ r b, DRV_StartDriver_loop name ks st = some (r, b) := by
  induction ks with
  | nil => exact ⟨st, false, rfl⟩
  | cons k ks ih =>
    unfold DRV_StartDriver_loop
    cases hk : st.g_drivers[k]? with
    | none => exact ih
    | some d =>
      dsimp only
      by_cases hm : stricmp d.name name = 0
      · rw [if_pos hm]
        by_cases hl : d.bLoaded = true
        · rw [if_pos hl]
          exact ⟨_, _, rfl⟩
        · rw [if_neg hl]
          have hd : d ∈ st.g_drivers := List.getElem?_mem hk
          have hi := hinit d hd
          cases hf : d.initFunc with
          | none => rw [hf] at hi; exact absurd hi (by simp)
          | some fn => exact ⟨_, _, rfl⟩
      · rw [if_neg hm]
        exact ih

theorem call_total (st : Registry) (c : DrvCall)
    (hinit : ∀ d ∈ st.g_drivers, d.initFunc.isSome = true) :
    ∃ st1, DRV_call st c = some st1 := by
  cases c with
  | start name =>
    simp only [DRV_call, DRV_StartDriver]
    split_ifs
    · exact ⟨_, rfl⟩
    · have hd : (DRV_Mutex_Take 100 st).2.g_drivers = st.g_drivers := rfl
      obtain ⟨r, b, hr⟩ := startLoop_total name
        (List.range (DRV_Mutex_Take 100 st).2.g_drivers.length) (DRV_Mutex_Take 100 st).2
        (by rw [hd]; exact hinit)
      exact ⟨DRV_Mutex_Free r, by rw [hr]; rfl⟩
  | stop name => exact ⟨_, rfl⟩
  | shutdownAll => exact ⟨_, rfl⟩

theorem run_total (cs : List DrvCall) (st : Registry)
    (hinit : ∀ d ∈ st.g_drivers, d.initFunc.isSome = true) :
    ∃ st1, DRV_run st cs = some st1 := by
  induction cs generalizing st with
  | nil => exact ⟨st, rfl⟩
  | cons c cs ih =>
    obtain ⟨st1, h1⟩ := call_total st c hinit
    obtain ⟨st2, h2⟩ := ih st1
      (allInit_static (call_step 0 st st1 c h1).table hinit)
    exact ⟨st2, by simp [DRV_run, h1, h2]⟩

theorem transitionsUp_le (i : Nat) (cs : List DrvCall) (st : Registry) :
    transitionsUp i st cs ≤ transitionsDown i st cs + (if loadedAt st i = true then 0 else 1) := by
  induction cs generalizing st with
  | nil => simp [transitionsUp]
  | cons c cs ih =>
    unfold transitionsUp transitionsDown
    cases hc : DRV_call st c with
    | none => simp
    | some st1 =>
      dsimp only
      have := ih st1
      cases hl0 : loadedAt st i <;> cases hl1 : loadedAt st1 i <;> simp_all <;> omega

theorem run_counts (i : Nat) (cs : List DrvCall) (st st2 : Registry)
    (h : DRV_run st cs = some st2) :
    st2.trace.count (Event.initFunc i) =
        st.trace.count (Event.initFunc i) + transitionsUp i st cs ∧
      st2.trace.count (Event.stopFunc i) =
        st.trace.count (Event.stopFunc i) +
          (if hasStop st i = true then transitionsDown i st cs else 0) := by
  induction cs generalizing st with
  | nil =>
    simp only [DRV_run, Option.some.injEq] at h
    subst h
    simp [transitionsUp, transitionsDown]
  | cons c cs ih =>
    unfold DRV_run at h
    cases hc : DRV_call st c with
    | none => rw [hc] at h; exact absurd h (by simp)
    | some st1 =>
      rw [hc] at h
      simp only [Option.some_bind] at h
      obtain ⟨e1, e2⟩ := ih st1 h
      have hs := call_step i st st1 c hc
      unfold transitionsUp transitionsDown
      rw [hc]
      dsimp only
      rw [e1, e2, hs.inits, hs.stops, hasStop_static hs.table]
      constructor
      · omega
      · cases hS : hasStop st i <;> simp
        omega

/-! ### The flags after a stop and after a start -/

theorem nameAt_static {st st1 : Registry} (h : staticTable st1 = staticTable st) (j : Nat) :
    nameAt st1 j = nameAt st j := by
  have hj := getElem?_static h j
  unfold nameAt
  cases h1 : st1.g_drivers[j]? <;> cases h0 : st.g_drivers[j]? <;>
    simp [h1, h0] at hj ⊢
  exact hj.1

theorem stopBody_mutex (name : String) (st : Registry) (k : Nat) :
    (DRV_StopDriver_body name st k).g_mutex = st.g_mutex := by
  unfold DRV_StopDriver_body
  cases st.g_drivers[k]? with
  | none => rfl
  | some d => dsimp only; split_ifs <;> rfl

theorem stopBody_flag (name dname : String) (st : Registry) (k i : Nat)
    (hn : nameAt st i = some dname) :
    loadedAt (DRV_StopDriver_body name st k) i =
      (loadedAt st i && !(decide (k = i) && stopMatches name dname)) := by
  unfold DRV_StopDriver_body
  by_cases hki : k = i
  · subst hki
    cases hk : st.g_drivers[k]? with
    | none => simp [nameAt, hk] at hn
    | some d =>
      have hname : d.name = dname := by simpa [nameAt, hk] using hn
      have hlen := lt_length_of_getElem? hk
      dsimp only
      by_cases ht : firstCharIsStar name = true ∨ stricmp d.name name = 0
      · have hm : stopMatches name dname = true := by
          rw [← hname]
          simpa [stopMatches] using ht
        by_cases hl : d.bLoaded = true
        · rw [if_pos ht, if_pos hl]
          simp [loadedAt, hlen, hm]
        · rw [if_pos ht, if_neg hl]
          have hl0 : d.bLoaded = false := by simpa using hl
          simp [loadedAt, hk, hl0]
      · have hm : stopMatches name dname = false := by
          rw [← hname]
          simpa [stopMatches] using ht
        rw [if_neg ht]
        simp [hm]
  · have hd : decide (k = i) = false := by simpa using hki
    rw [hd]
    simp only [Bool.false_and, Bool.not_false, Bool.and_true]
    cases hk : st.g_drivers[k]? with
    | none => rfl
    | some d =>
      dsimp only
      split_ifs
      · exact loadedAt_set_ne st k i _ _ hki
      · exact loadedAt_set_ne st k i _ _ hki
      · rfl
      · rfl

theorem stopLoop_flag (name dname : String) (i : Nat) (ks : List Nat) (st : Registry)
    (hn : nameAt st i = some dname) :
    loadedAt (ks.foldl (DRV_StopDriver_body name) st) i =
      (loadedAt st i && !(decide (i ∈ ks) && stopMatches name dname)) := by
  induction ks generalizing st with
  | nil => simp
  | cons k ks ih =>
    rw [List.foldl_cons, ih _ (by rw [nameAt_static (stopBody_step name i st k).table, hn]),
      stopBody_flag name dname st k i hn]
    by_cases hki : k = i
    · subst hki
      cases loadedAt st k <;> cases stopMatches name dname <;> simp
    · have h1 : decide (k = i) = false := by simpa using hki
      have h2 : (i ∈ k :: ks) = (i ∈ ks) := by
        simp [List.mem_cons, Ne.symm hki]
      simp only [h1, h2, Bool.false_and, Bool.not_false, Bool.and_true]

theorem stopLoop_mutex (name : String) (ks : List Nat) (st : Registry) :
    (ks.foldl (DRV_StopDriver_body name) st).g_mutex = st.g_mutex := by
  induction ks generalizing st with
  | nil => rfl
  | cons k ks ih => rw [List.foldl_cons, ih, stopBody_mutex]

theorem mutexTake_free (del : Int) (st : Registry) (h : lockFree st) :
    (DRV_Mutex_Take del st).1 = true ∧
      (DRV_Mutex_Take del st).2.g_drivers = st.g_drivers ∧
      (DRV_Mutex_Take del st).2.g_mutex = some true := by
  unfold lockFree at h
  unfold DRV_Mutex_Take xSemaphoreTake xSemaphoreCreateMutex
  cases hm : st.g_mutex with
  | none => simp
  | some m =>
    cases m with
    | false => simp
    | true => exact absurd hm h

theorem stopDriver_flag (name dname : String) (i : Nat) (st : Registry) (hfree : lockFree st)
    (hn : nameAt st i = some dname) :
    loadedAt (DRV_StopDriver st name) i = (loadedAt st i && !stopMatches name dname) ∧
      lockFree (DRV_StopDriver st name) := by
  obtain ⟨t1, t2, t3⟩ := mutexTake_free 100 st hfree
  have hlen : i < st.g_drivers.length := by
    unfold nameAt at hn
    cases hi : st.g_drivers[i]? with
    | none => simp [hi] at hn
    | some d => exact lt_length_of_getElem? hi
  unfold DRV_StopDriver
  dsimp only
  rw [if_neg (by simp [t1])]
  constructor
  · rw [loadedAt_mutexFree, stopLoop_flag name dname i _ _
      (by rw [nameAt_static (mutexTake_step i 100 st).table, hn]), loadedAt_mutexTake, t2]
    have : decide (i ∈ List.range st.g_drivers.length) = true := by
      simpa [List.mem_range] using hlen
    rw [this, Bool.true_and]
  · simp [lockFree, DRV_Mutex_Free, stopLoop_mutex, t3, xSemaphoreGive]

theorem stricmp_eq_zero_iff (a b : String) :
    stricmp a b = 0 ↔ a.data.map Char.toLower = b.data.map Char.toLower := by
  unfold stricmp
  split_ifs with h <;> simp [h]

theorem namesUnique_index {l : List driver_t} (hu : namesUnique l) {i k : Nat}
    {a b : driver_t} (hi : l[i]? = some a) (hk : l[k]? = some b)
    (hab : stricmp a.name b.name = 0) : i = k := by
  obtain ⟨hi1, hi2⟩ := List.getElem?_eq_some_iff.mp hi
  obtain ⟨hk1, hk2⟩ := List.getElem?_eq_some_iff.mp hk
  have hp := List.pairwise_iff_getElem.mp hu
  rcases Nat.lt_trichotomy i k with h | h | h
  · have := hp i k hi1 hk1 h
    rw [hi2, hk2] at this
    exact absurd hab this
  · exact h
  · have := hp k i hk1 hi1 h
    rw [hi2, hk2] at this
    have hba : stricmp b.name a.name = 0 :=
      (stricmp_eq_zero_iff _ _).mpr ((stricmp_eq_zero_iff _ _).mp hab).symm
    exact absurd hba this

theorem startMatches_unique {st : Registry} (hu : namesUnique st.g_drivers) (name : String)
    {i k : Nat} {a b : String} (hi : nameAt st i = some a) (hk : nameAt st k = some b)
    (ha : startMatches name a = true) (hb : startMatches name b = true) : i = k := by
  unfold nameAt at hi hk
  cases hdi : st.g_drivers[i]? with
  | none => simp [hdi] at hi
  | some di =>
    cases hdk : st.g_drivers[k]? with
    | none => simp [hdk] at hk
    | some dk =>
      have e1 : di.name = a := by simpa [hdi] using hi
      have e2 : dk.name = b := by simpa [hdk] using hk
      apply namesUnique_index hu hdi hdk
      rw [e1, e2]
      simp only [startMatches, decide_eq_true_eq] at ha hb
      exact (stricmp_eq_zero_iff _ _).mpr
        (((stricmp_eq_zero_iff _ _).mp ha).trans ((stricmp_eq_zero_iff _ _).mp hb).symm)

theorem startLoop_cases (name : String) (ks : List Nat) (st r : Registry) (b : Bool)
    (h : DRV_StartDriver_loop name ks st = some (r, b)) :
    r.g_mutex = st.g_mutex ∧
      ((r = st ∧ ∀ k ∈ ks, ∀ dn, nameAt st k = some dn → startMatches name dn = false) ∨
        ∃ k dn, nameAt st k = some dn ∧ startMatches name dn = true ∧
          loadedAt r k = true ∧ ∀ i, i ≠ k → loadedAt r i = loadedAt st i) := by
  induction ks with
  | nil =>
    simp only [DRV_StartDriver_loop, Option.some.injEq, Prod.mk.injEq] at h
    rw [← h.1]
    exact ⟨rfl, Or.inl ⟨rfl, by simp⟩⟩
  | cons k ks ih =>
    unfold DRV_StartDriver_loop at h
    cases hk : st.g_drivers[k]? with
    | none =>
      rw [hk] at h
      obtain ⟨m, hm⟩ := ih h
      refine ⟨m, ?_⟩
      rcases hm with ⟨e, hno⟩ | hyes
      · left
        refine ⟨e, ?_⟩
        intro k1 hk1 dn hdn
        rcases List.mem_cons.mp hk1 with rfl | hin
        · simp [nameAt, hk] at hdn
        · exact hno k1 hin dn hdn
      · exact Or.inr hyes
    | some d =>
      rw [hk] at h
      dsimp only at h
      have hnk : nameAt st k = some d.name := by simp [nameAt, hk]
      by_cases hm : stricmp d.name name = 0
      · have hsm : startMatches name d.name = true := by simpa [startMatches] using hm
        rw [if_pos hm] at h
        by_cases hl : d.bLoaded = true
        · rw [if_pos hl] at h
          simp only [Option.some.injEq, Prod.mk.injEq] at h
          rw [← h.1]
          exact ⟨rfl, Or.inr ⟨k, d.name, hnk, hsm, by simp [loadedAt, hk, hl], fun _ _ => rfl⟩⟩
        · rw [if_neg hl] at h
          cases hf : d.initFunc with
          | none =>
            rw [hf] at h
            exact absurd h (by simp)
          | some fn =>
            rw [hf] at h
            simp only [Option.some.injEq, Prod.mk.injEq] at h
            rw [← h.1]
            have hlen := lt_length_of_getElem? hk
            refine ⟨rfl, Or.inr ⟨k, d.name, hnk, hsm, by simp [loadedAt, hlen], ?_⟩⟩
            intro i hik
            exact loadedAt_set_ne st k i _ _ (Ne.symm hik)
      · have hsm : startMatches name d.name = false := by simpa [startMatches] using hm
        rw [if_neg hm] at h
        obtain ⟨m, hm1⟩ := ih h
        refine ⟨m, ?_⟩
        rcases hm1 with ⟨e, hno⟩ | hyes
        · left
          refine ⟨e, ?_⟩
          intro k1 hk1 dn hdn
          rcases List.mem_cons.mp hk1 with rfl | hin
          · rw [hnk] at hdn
            simp only [Option.some.injEq] at hdn
            rw [← hdn]
            exact hsm
          · exact hno k1 hin dn hdn
        · exact Or.inr hyes

theorem startDriver_flag (name dname : String) (i : Nat) (st st1 : Registry)
    (hu : namesUnique st.g_drivers) (hfree : lockFree st)
    (hn : nameAt st i = some dname) (h : DRV_StartDriver st name = some st1) :
    loadedAt st1 i = (loadedAt st i || startMatches name dname) ∧ lockFree st1 := by
  obtain ⟨t1, t2, t3⟩ := mutexTake_free 100 st hfree
  have hlen : i < st.g_drivers.length := by
    unfold nameAt at hn
    cases hi : st.g_drivers[i]? with
    | none => simp [hi] at hn
    | some d => exact lt_length_of_getElem? hi
  have hnames : ∀ j, nameAt (DRV_Mutex_Take 100 st).2 j = nameAt st j := by
    intro j
    simp [nameAt, t2]
  unfold DRV_StartDriver at h
  dsimp only at h
  rw [if_neg (by simp [t1]), Option.map_eq_some'] at h
  obtain ⟨⟨r, b⟩, hr, hfree1⟩ := h
  obtain ⟨hmx, hcase⟩ := startLoop_cases name _ _ r b hr
  rw [← hfree1]
  refine ⟨?_, by simp [lockFree, DRV_Mutex_Free, hmx, t3, xSemaphoreGive]⟩
  rw [loadedAt_mutexFree]
  rcases hcase with ⟨e, hno⟩ | ⟨k, dn, hk1, hk2, hk3, hk4⟩
  · have := hno i (by rw [t2]; exact List.mem_range.mpr hlen) dname (by rw [hnames, hn])
    rw [e, this, loadedAt_mutexTake, Bool.or_false]
  · rw [hnames] at hk1
    by_cases hik : i = k
    · subst hik
      rw [hn] at hk1
      simp only [Option.some.injEq] at hk1
      rw [hk3, hk1, hk2, Bool.or_true]
    · have hsm : startMatches name dname = false := by
        cases hs : startMatches name dname with
        | false => rfl
        | true => exact absurd (startMatches_unique hu name hn hk1 hs hk2) hik
      rw [hk4 i hik, loadedAt_mutexTake, hsm, Bool.or_false]

/-! ### Sequences of start and stop calls -/

theorem namesUnique_static {st st1 : Registry} (h : staticTable st1 = staticTable st)
    (hu : namesUnique st.g_drivers) : namesUnique st1.g_drivers := by
  have key : ∀ s : Registry, namesUnique (staticTable s) ↔ namesUnique s.g_drivers := by
    intro s
    unfold namesUnique staticTable
    rw [List.pairwise_map]
  rw [← key st1, h, key st]
  exact hu

theorem firstCharIsStar_of_nameOk (name : String) (h : nameOk name) :
    firstCharIsStar name = decide (name = "*") := by
  rcases h with h | h
  · subst h
    decide
  · have h1 : firstCharIsStar name = false := by
      simpa [firstCharIsStar] using h
    have h2 : name ≠ "*" := by
      intro e
      subst e
      exact h (by decide)
    rw [h1]
    simp [h2]

theorem call_flag (c : DrvCall) (dname : String) (i : Nat) (st st1 : Registry)
    (hc : c.startStopOk) (hu : namesUnique st.g_drivers) (hfree : lockFree st)
    (hn : nameAt st i = some dname) (h : DRV_call st c = some st1) :
    loadedAt st1 i = (if c.targets dname = true then c.isStart else loadedAt st i) ∧
      lockFree st1 := by
  cases c with
  | start name =>
    obtain ⟨e, f⟩ := startDriver_flag name dname i st st1 hu hfree hn h
    refine ⟨?_, f⟩
    rw [e]
    simp only [DrvCall.targets, DrvCall.isStart, startMatches]
    cases loadedAt st i <;> cases decide (stricmp dname name = 0) <;> simp
  | stop name =>
    simp only [DRV_call, Option.some.injEq] at h
    obtain ⟨e, f⟩ := stopDriver_flag name dname i st hfree hn
    rw [← h]
    refine ⟨?_, f⟩
    rw [e]
    simp only [DrvCall.targets, DrvCall.isStart, stopMatches,
      firstCharIsStar_of_nameOk name hc]
    cases loadedAt st i <;> cases decide (stricmp dname name = 0) <;>
      cases decide (name = "*") <;> simp
  | shutdownAll => exact absurd hc (by simp [DrvCall.startStopOk])

theorem run_flags (cs : List DrvCall) (st : Registry)
    (hcs : ∀ c ∈ cs, c.startStopOk) (hu : namesUnique st.g_drivers)
    (hinit : ∀ d ∈ st.g_drivers, d.initFunc.isSome = true) (hfree : lockFree st) :
    ∃ st1, DRV_run st cs = some st1 ∧ staticTable st1 = staticTable st ∧
      ∀ i dname, nameAt st i = some dname →
        loadedAt st1 i = netEffect dname (loadedAt st i) cs := by
  induction cs generalizing st with
  | nil => exact ⟨st, rfl, rfl, fun _ _ _ => rfl⟩
  | cons c cs ih =>
    obtain ⟨st1, h1⟩ := call_total st c hinit
    have htab := (call_step 0 st st1 c h1).table
    have hc := hcs c (List.mem_cons_self c cs)
    have hfree1 : lockFree st1 := by
      cases c with
      | start name =>
        unfold DRV_call DRV_StartDriver at h1
        obtain ⟨t1, t2, t3⟩ := mutexTake_free 100 st hfree
        dsimp only at h1
        rw [if_neg (by simp [t1]), Option.map_eq_some'] at h1
        obtain ⟨⟨r, b⟩, hr, hfree1⟩ := h1
        rw [← hfree1]
        simp [lockFree, DRV_Mutex_Free, (startLoop_cases name _ _ r b hr).1, t3, xSemaphoreGive]
      | stop name =>
        simp only [DRV_call, Option.some.injEq] at h1
        obtain ⟨t1, t2, t3⟩ := mutexTake_free 100 st hfree
        rw [← h1]
        unfold DRV_StopDriver
        dsimp only
        rw [if_neg (by simp [t1])]
        simp [lockFree, DRV_Mutex_Free, stopLoop_mutex, t3, xSemaphoreGive]
      | shutdownAll => exact absurd hc (by simp [DrvCall.startStopOk])
    obtain ⟨st2, h2, htab2, hfl⟩ := ih st1 (fun c1 hc1 => hcs c1 (List.mem_cons_of_mem c hc1))
      (namesUnique_static htab hu) (allInit_static htab hinit) hfree1
    refine ⟨st2, by simp [DRV_run, h1, h2], htab2.trans htab, ?_⟩
    intro i dname hn
    rw [hfl i dname (by rw [nameAt_static htab, hn]),
      (call_flag c dname i st st1 hc hu hfree hn h1).1]
    rfl

theorem netEffect_eq (dname : String) (cs : List DrvCall) (b : Bool) :
    netEffect dname b cs =
      match (cs.filter (DrvCall.targets dname)).getLast? with
      | some c => c.isStart
      | none => b := by
  induction cs generalizing b with
  | nil => rfl
  | cons c cs ih =>
    unfold netEffect
    rw [ih]
    by_cases ht : c.targets dname = true
    · rw [if_pos ht, List.filter_cons_of_pos ht, List.getLast?_cons]
      cases (List.filter (DrvCall.targets dname) cs).getLast? <;> rfl
    · rw [if_neg ht, List.filter_cons_of_neg ht]

theorem lastTargetIsStart_twice (dname : String) (cs : List DrvCall) (c : DrvCall) :
    lastTargetIsStart dname (cs ++ [c, c]) = lastTargetIsStart dname (cs ++ [c]) := by
  unfold lastTargetIsStart
  by_cases ht : c.targets dname = true
  · simp [List.filter_append, List.filter_cons_of_pos, ht]
  · simp [List.filter_append, List.filter_cons_of_neg, ht]

theorem loadedAt_unloaded (st : Registry) (hun : ∀ d ∈ st.g_drivers, d.bLoaded = false)
    (i : Nat) : loadedAt st i = false := by
  unfold loadedAt
  cases h : st.g_drivers[i]? with
  | none => rfl
  | some d => exact hun d (List.getElem?_mem h)

theorem loadedAt_of_nameAt_none (st : Registry) (i : Nat) (h : nameAt st i = none) :
    loadedAt st i = false := by
  unfold nameAt at h
  unfold loadedAt
  cases hd : st.g_drivers[i]? with
  | none => rfl
  | some d => simp [hd] at h

/-! ## Driver registry: the claims -/

/-- C9 (net effect of start/stop sequences): take a table whose names are unique
under `stricmp` and whose descriptors all have an init callback, every descriptor
unloaded, the mutex free, and a finite sequence of `DRV_StartDriver(name)` /
`DRV_StopDriver(name)` calls whose names are `"*"` or do not begin with `'*'`.  The
run completes; afterwards the descriptor at each index has its name unchanged and
is loaded iff the last call of the sequence that targets it is a start.  One
more call `c` or the same call twice in a row leave the same flags. -/
theorem C9_net_effect_of_start_stop (st : Registry) (cs : List DrvCall)
    (hu : namesUnique st.g_drivers)
    (hinit : ∀ d ∈ st.g_drivers, d.initFunc.isSome = true)
    (hun : ∀ d ∈ st.g_drivers, d.bLoaded = false)
    (hfree : lockFree st)
    (hcs : ∀ c ∈ cs, c.startStopOk) :
    (∃ st1, DRV_run st cs = some st1 ∧
      ∀ i d, st.g_drivers[i]? = some d →
        nameAt st1 i = some d.name ∧
        (loadedAt st1 i = true ↔ lastTargetIsStart d.name cs = true)) ∧
    (∀ c : DrvCall, c.startStopOk →
      ∃ st2 st3, DRV_run st (cs ++ [c]) = some st2 ∧ DRV_run st (cs ++ [c, c]) = some st3 ∧
        ∀ i, loadedAt st3 i = loadedAt st2 i) := by
  have main : ∀ cs1 : List DrvCall, (∀ c ∈ cs1, c.startStopOk) →
      ∃ st1, DRV_run st cs1 = some st1 ∧ staticTable st1 = staticTable st ∧
        ∀ i dname, nameAt st i = some dname →
          loadedAt st1 i = lastTargetIsStart dname cs1 := by
    intro cs1 h1
    obtain ⟨st1, r1, t1, f1⟩ := run_flags cs1 st h1 hu hinit hfree
    refine ⟨st1, r1, t1, ?_⟩
    intro i dname hn
    rw [f1 i dname hn, netEffect_eq, loadedAt_unloaded st hun i]
    rfl
  constructor
  · obtain ⟨st1, r1, t1, f1⟩ := main cs hcs
    refine ⟨st1, r1, ?_⟩
    intro i d hd
    have hn : nameAt st i = some d.name := by simp [nameAt, hd]
    exact ⟨by rw [nameAt_static t1, hn], by rw [f1 i d.name hn]⟩
  · intro c hc
    obtain ⟨st2, r2, t2, f2⟩ := main (cs ++ [c]) (by
      intro c1 h1
      rcases List.mem_append.mp h1 with h | h
      · exact hcs c1 h
      · rw [List.mem_singleton.mp h]; exact hc)
    obtain ⟨st3, r3, t3, f3⟩ := main (cs ++ [c, c]) (by
      intro c1 h1
      rcases List.mem_append.mp h1 with h | h
      · exact hcs c1 h
      · simp only [List.mem_cons, List.mem_singleton, List.not_mem_nil, or_false, or_self] at h
        rw [h]; exact hc)
    refine ⟨st2, st3, r2, r3, ?_⟩
    intro i
    cases hn : nameAt st i with
    | none =>
      rw [loadedAt_of_nameAt_none st3 i (by rw [nameAt_static t3, hn]),
        loadedAt_of_nameAt_none st2 i (by rw [nameAt_static t2, hn])]
    | some dname =>
      rw [f3 i dname hn, f2 i dname hn, lastTargetIsStart_twice]

/-- Witness of C9: on the table `A`, `B` the sequence start "a", stop "A",
start "b", start "B", stop "*", start "A" leaves `A` loaded and `B` unloaded. -/
theorem C9_net_effect_of_start_stop_witness :
    (namesUnique (DRV_initial tableAB).g_drivers ∧ lockFree (DRV_initial tableAB) ∧
      (∀ c ∈ callsStartStop, c.startStopOk)) ∧
    lastTargetIsStart "A" callsStartStop = true ∧
    lastTargetIsStart "B" callsStartStop = false ∧
    ∃ st1, DRV_run (DRV_initial tableAB) callsStartStop = some st1 ∧
      loadedAt st1 0 = true ∧ loadedAt st1 1 = false := by
  refine ⟨⟨by decide, by decide, by decide⟩, by decide, by decide, ?_⟩
  obtain ⟨⟨st1, r1, f1⟩, _⟩ := C9_net_effect_of_start_stop (DRV_initial tableAB) callsStartStop
    (by decide) (by decide) (by decide) (by decide) (by decide)
  refine ⟨st1, r1, ?_, ?_⟩
  · exact (f1 0 _ rfl).2.mpr (by decide)
  · cases h : loadedAt st1 1 with
    | false => rfl
    | true => exact absurd ((f1 1 _ rfl).2.mp h) (by decide)

/-- C10 (two-state machine per descriptor): along every finite sequence of
`DRV_StartDriver` / `DRV_StopDriver` / `DRV_ShutdownAllDrivers` calls, from any state
(the all-unloaded initial state included), the `initFunc` of the descriptor at
index `i` is called once for each of its Unloaded→Loaded transitions and at no
other time, and its `stopFunc`, when it has one, once for each of its
Loaded→Unloaded transitions and at no other time.  Hence over a stretch of
calls in which the descriptor is never stopped, `initFunc` is called at most
once.  When every descriptor has an init callback the sequence runs to its
end. -/
theorem C10_two_state_machine (st : Registry) (cs : List DrvCall) (i : Nat) :
    (∀ st1, DRV_run st cs = some st1 →
      st1.trace.count (Event.initFunc i) =
        st.trace.count (Event.initFunc i) + transitionsUp i st cs ∧
      st1.trace.count (Event.stopFunc i) =
        st.trace.count (Event.stopFunc i) +
          (if hasStop st i = true then transitionsDown i st cs else 0) ∧
      (transitionsDown i st cs = 0 →
        st1.trace.count (Event.initFunc i) ≤ st.trace.count (Event.initFunc i) + 1)) ∧
    ((∀ d ∈ st.g_drivers, d.initFunc.isSome = true) → ∃ st1, DRV_run st cs = some st1) := by
  refine ⟨?_, run_total cs st⟩
  intro st1 h
  obtain ⟨e1, e2⟩ := run_counts i cs st st1 h
  refine ⟨e1, e2, ?_⟩
  intro hd
  have := transitionsUp_le i cs st
  rw [e1]
  split_ifs at this <;> omega

/-- Witness of C10: on the table `A`, `B`, the sequence start "a", start "A",
stop "*", start "A", shutdown-all runs to its end; `A` is loaded twice and
unloaded twice, its init and its stop callback are each called twice. -/
theorem C10_two_state_machine_witness :
    (∀ d ∈ (DRV_initial tableAB).g_drivers, d.initFunc.isSome = true) ∧
    transitionsUp 0 (DRV_initial tableAB) callsLifecycle = 2 ∧
    transitionsDown 0 (DRV_initial tableAB) callsLifecycle = 2 ∧
    ∃ st1, DRV_run (DRV_initial tableAB) callsLifecycle = some st1 ∧
      st1.trace.count (Event.initFunc 0) = 2 ∧ st1.trace.count (Event.stopFunc 0) = 2 := by
  refine ⟨by decide, by decide, by decide, ?_⟩
  obtain ⟨st1, r1⟩ :=
    (C10_two_state_machine (DRV_initial tableAB) callsLifecycle 0).2 (by decide)
  obtain ⟨e1, e2, _⟩ :=
    (C10_two_state_machine (DRV_initial tableAB) callsLifecycle 0).1 st1 r1
  refine ⟨st1, r1, ?_, ?_⟩
  · rw [e1]; decide
  · rw [e2]; decide

/-! ## Loops over the table: what they leave behind -/

theorem set_same (l : List driver_t) (k : Nat) (d : driver_t) (h : l[k]? = some d) :
    l.set k d = l := by
  apply List.ext_getElem?
  intro j
  rw [List.getElem?_set]
  by_cases hkj : k = j
  · subst hkj
    rw [if_pos rfl, if_pos (lt_length_of_getElem? h), h]
  · rw [if_neg hkj]

theorem entryStep_getElem? (upd : driver_t → driver_t) (ev : Nat → driver_t → List Event)
    (st : Registry) (k j : Nat) :
    (entryStep upd ev st k).g_drivers[j]? =
      if j = k then (st.g_drivers[j]?).map upd else st.g_drivers[j]? := by
  unfold entryStep
  cases hk : st.g_drivers[k]? with
  | none =>
    by_cases hjk : j = k
    · subst hjk
      simp [hk]
    · simp [hjk]
  | some d =>
    dsimp only
    rw [List.getElem?_set]
    by_cases hjk : j = k
    · subst hjk
      simp [hk, lt_length_of_getElem? hk]
    · rw [if_neg (Ne.symm hjk), if_neg hjk]

theorem entryStep_trace (upd : driver_t → driver_t) (ev : Nat → driver_t → List Event)
    (st : Registry) (k : Nat) :
    (entryStep upd ev st k).trace = st.trace ++ entryEvents ev st.g_drivers k ∧
      (entryStep upd ev st k).g_mutex = st.g_mutex := by
  unfold entryStep entryEvents
  cases hk : st.g_drivers[k]? with
  | none => simp
  | some d => simp

theorem eventsOver_cons (f : Nat → List Event) (k : Nat) (ks : List Nat) :
    eventsOver f (k :: ks) = f k ++ eventsOver f ks := rfl

theorem eventsOver_congr (f g : Nat → List Event) (ks : List Nat)
    (h : ∀ k ∈ ks, f k = g k) : eventsOver f ks = eventsOver g ks := by
  induction ks with
  | nil => rfl
  | cons k ks ih =>
    rw [eventsOver_cons, eventsOver_cons, h k (List.mem_cons_self k ks),
      ih (fun j hj => h j (List.mem_cons_of_mem k hj))]

theorem eventsOver_append (f : Nat → List Event) (ks ms : List Nat) :
    eventsOver f (ks ++ ms) = eventsOver f ks ++ eventsOver f ms := by
  induction ks with
  | nil => rfl
  | cons k ks ih => simp [eventsOver, ih]

theorem entryStep_fold (upd : driver_t → driver_t) (ev : Nat → driver_t → List Event)
    (ks : List Nat) (hnd : ks.Nodup) (st : Registry) :
    (ks.foldl (entryStep upd ev) st).g_mutex = st.g_mutex ∧
      (ks.foldl (entryStep upd ev) st).trace =
        st.trace ++ eventsOver (entryEvents ev st.g_drivers) ks ∧
      ∀ j, (ks.foldl (entryStep upd ev) st).g_drivers[j]? =
        if j ∈ ks then (st.g_drivers[j]?).map upd else st.g_drivers[j]? := by
  induction ks generalizing st with
  | nil => simp [eventsOver]
  | cons k ks ih =>
    obtain ⟨hk, hks⟩ := List.nodup_cons.mp hnd
    obtain ⟨m, t, g⟩ := ih hks (entryStep upd ev st k)
    obtain ⟨t1, m1⟩ := entryStep_trace upd ev st k
    rw [List.foldl_cons]
    refine ⟨m.trans m1, ?_, ?_⟩
    · rw [t, t1, List.append_assoc, eventsOver_cons]
      congr 2
      apply eventsOver_congr
      intro j hj
      have hjk : j ≠ k := fun e => hk (e ▸ hj)
      unfold entryEvents
      rw [entryStep_getElem?, if_neg hjk]
    · intro j
      rw [g j, entryStep_getElem?]
      by_cases hjk : j = k
      · subst hjk
        simp [hk]
      · simp [hjk]

theorem entryStep_fold_range (upd : driver_t → driver_t) (ev : Nat → driver_t → List Event)
    (st : Registry) :
    ((List.range st.g_drivers.length).foldl (entryStep upd ev) st).g_mutex = st.g_mutex ∧
      ((List.range st.g_drivers.length).foldl (entryStep upd ev) st).trace =
        st.trace ++ eventsOver (entryEvents ev st.g_drivers) (List.range st.g_drivers.length) ∧
      ((List.range st.g_drivers.length).foldl (entryStep upd ev) st).g_drivers =
        st.g_drivers.map upd := by
  obtain ⟨m, t, g⟩ := entryStep_fold upd ev _ (List.nodup_range st.g_drivers.length) st
  refine ⟨m, t, ?_⟩
  apply List.ext_getElem?
  intro j
  rw [g j, List.getElem?_map]
  by_cases hj : j < st.g_drivers.length
  · rw [if_pos (List.mem_range.mpr hj)]
  · rw [if_neg (fun h => hj (List.mem_range.mp h)), List.getElem?_eq_none (by omega)]
    rfl

theorem mutexTake_eq_free (del : Int) (st : Registry) (h : lockFree st) :
    DRV_Mutex_Take del st =
      (true, { st with g_mutex := some true,
                       trace := st.trace ++ [Event.semaphoreTake del true] }) := by
  unfold lockFree at h
  unfold DRV_Mutex_Take xSemaphoreTake xSemaphoreCreateMutex
  cases hm : st.g_mutex with
  | none => simp
  | some m =>
    cases m with
    | false => simp
    | true => exact absurd hm h

theorem mutexTake_eq_held (del : Int) (st : Registry) (h : ¬lockFree st) :
    DRV_Mutex_Take del st =
      (false, { st with g_mutex := some true,
                        trace := st.trace ++ [Event.semaphoreTake del false] }) := by
  unfold lockFree at h
  have hm : st.g_mutex = some true := by
    by_contra hne
    exact h hne
  unfold DRV_Mutex_Take xSemaphoreTake
  rw [hm]
  simp

theorem callbacks_append (a b : List Event) : callbacks (a ++ b) = callbacks a ++ callbacks b := by
  simp [callbacks]

theorem callbacks_eventsOver (f : Nat → List Event) (ks : List Nat)
    (h : ∀ k, ∀ e ∈ f k, e.isCallback = true) :
    callbacks (eventsOver f ks) = eventsOver f ks := by
  induction ks with
  | nil => rfl
  | cons k ks ih =>
    rw [eventsOver_cons, callbacks_append, ih]
    congr 1
    unfold callbacks
    exact List.filter_eq_self.mpr (h k)

theorem stopUpd_unloaded (name : String) (d : driver_t) (h : d.bLoaded = false) :
    stopUpd name d = d := by
  unfold stopUpd
  split_ifs
  · cases d
    simp_all
  · rfl

theorem stopBody_eq (name : String) :
    DRV_StopDriver_body name = entryStep (stopUpd name) (stopEv name) := by
  funext st k
  unfold DRV_StopDriver_body entryStep
  cases hk : st.g_drivers[k]? with
  | none => rfl
  | some d =>
    dsimp only
    by_cases ht : firstCharIsStar name = true ∨ stricmp d.name name = 0
    · have hm : stopMatches name d.name = true := by simpa [stopMatches] using ht
      by_cases hl : d.bLoaded = true
      · rw [if_pos ht, if_pos hl]
        have hu : stopUpd name d = { d with bLoaded := false } := by simp [stopUpd, hm]
        rw [hu]
        by_cases hs : d.stopFunc.isSome = true
        · simp [stopEv, hm, hl, hs]
        · simp [stopEv, hs]
      · rw [if_pos ht, if_neg hl]
        have hl0 : d.bLoaded = false := by simpa using hl
        rw [stopUpd_unloaded name d hl0, set_same _ _ _ hk]
        simp [stopEv, hl0]
    · have hm : stopMatches name d.name = false := by simpa [stopMatches] using ht
      rw [if_neg ht]
      have hu : stopUpd name d = d := by simp [stopUpd, hm]
      rw [hu, set_same _ _ _ hk]
      simp [stopEv, hm]

theorem stopDriver_spec (st : Registry) (name : String) (hfree : lockFree st) :
    (DRV_StopDriver st name).g_drivers = st.g_drivers.map (stopUpd name) ∧
      (DRV_StopDriver st name).g_mutex = some false ∧
      callbacks (DRV_StopDriver st name).trace =
        callbacks st.trace ++
          eventsOver (entryEvents (stopEv name) st.g_drivers) (List.range st.g_drivers.length) := by
  unfold DRV_StopDriver
  rw [mutexTake_eq_free 100 st hfree, stopBody_eq]
  dsimp only
  rw [if_neg (by simp)]
  obtain ⟨m, t, g⟩ := entryStep_fold_range (stopUpd name) (stopEv name)
    { st with g_mutex := some true, trace := st.trace ++ [Event.semaphoreTake 100 true] }
  refine ⟨g, ?_, ?_⟩
  · simp only [DRV_Mutex_Free, m]
    rfl
  · simp only [DRV_Mutex_Free, t, callbacks_append]
    rw [callbacks_eventsOver]
    · simp [callbacks, Event.isCallback]
    · intro k e he
      unfold entryEvents at he
      cases hk : st.g_drivers[k]? with
      | none => simp [hk] at he
      | some d =>
        simp only [hk, stopEv] at he
        split_ifs at he
        · simp only [List.mem_singleton] at he
          rw [he]
          rfl
        · simp at he

theorem stopDriver_held (st : Registry) (name : String) (hheld : ¬lockFree st) :
    (DRV_StopDriver st name).g_drivers = st.g_drivers ∧
      (DRV_StopDriver st name).g_mutex = some true ∧
      callbacks (DRV_StopDriver st name).trace = callbacks st.trace := by
  unfold DRV_StopDriver
  rw [mutexTake_eq_held 100 st hheld]
  simp [callbacks, Event.isCallback]

theorem eventsOver_filter (f : Nat → List Event) (p : Nat → Bool) (e : Nat → Event)
    (ks : List Nat) (h : ∀ k ∈ ks, f k = if p k = true then [e k] else []) :
    eventsOver f ks = (ks.filter p).map e := by
  induction ks with
  | nil => rfl
  | cons k ks ih =>
    rw [eventsOver_cons, h k (List.mem_cons_self k ks),
      ih (fun j hj => h j (List.mem_cons_of_mem k hj))]
    by_cases hp : p k = true
    · rw [if_pos hp, List.filter_cons_of_pos hp]
      rfl
    · rw [if_neg hp, List.filter_cons_of_neg hp]
      rfl

theorem eventsOver_nil (f : Nat → List Event) (ks : List Nat) (h : ∀ k ∈ ks, f k = []) :
    eventsOver f ks = [] := by
  induction ks with
  | nil => rfl
  | cons k ks ih =>
    rw [eventsOver_cons, h k (List.mem_cons_self k ks),
      ih (fun j hj => h j (List.mem_cons_of_mem k hj))]
    rfl

theorem eventsOver_single (f : Nat → List Event) (i : Nat) (ks : List Nat) (hnd : ks.Nodup)
    (hi : i ∈ ks) (h : ∀ j ∈ ks, j ≠ i → f j = []) : eventsOver f ks = f i := by
  induction ks with
  | nil => exact absurd hi (by simp)
  | cons k ks ih =>
    obtain ⟨hk, hks⟩ := List.nodup_cons.mp hnd
    rw [eventsOver_cons]
    by_cases hki : k = i
    · subst hki
      rw [eventsOver_nil f ks (fun j hj => h j (List.mem_cons_of_mem k hj)
        (fun e => hk (e ▸ hj))), List.append_nil]
    · have hi1 : i ∈ ks := by
        rcases List.mem_cons.mp hi with e | e
        · exact absurd e.symm hki
        · exact e
      rw [h k (List.mem_cons_self k ks) hki, ih hks hi1
        (fun j hj => h j (List.mem_cons_of_mem k hj))]
      rfl

theorem stopMatches_star (dname : String) : stopMatches "*" dname = true := by
  unfold stopMatches
  have : firstCharIsStar "*" = true := by decide
  rw [this]
  rfl

theorem stopEvents_star (st : Registry) :
    eventsOver (entryEvents (stopEv "*") st.g_drivers) (List.range st.g_drivers.length) =
      ((List.range st.g_drivers.length).filter
        (fun i => loadedAt st i && hasStop st i)).map Event.stopFunc := by
  apply eventsOver_filter
  intro k _
  unfold entryEvents loadedAt hasStop
  cases hk : st.g_drivers[k]? with
  | none => simp
  | some d =>
    simp only [stopEv, stopMatches_star, true_and, Bool.and_eq_true]

/-! ## Driver registry: stopping -/

/-- C14 (wildcard stop): for every table and every loaded-state, with the mutex
free, `DRV_StopDriver("*")` leaves the table with every `bLoaded` cleared and nothing
else changed, and the callbacks it invokes are exactly the stop callbacks of the
descriptors that were loaded and have one, each once, in table order. -/
theorem C14_wildcard_stop (st : Registry) (hfree : lockFree st) :
    (DRV_StopDriver st "*").g_drivers =
        st.g_drivers.map (fun d => { d with bLoaded := false }) ∧
      (∀ d ∈ (DRV_StopDriver st "*").g_drivers, d.bLoaded = false) ∧
      callbacks (DRV_StopDriver st "*").trace =
        callbacks st.trace ++
          ((List.range st.g_drivers.length).filter
            (fun i => loadedAt st i && hasStop st i)).map Event.stopFunc := by
  obtain ⟨g, _, t⟩ := stopDriver_spec st "*" hfree
  have hg : (DRV_StopDriver st "*").g_drivers =
      st.g_drivers.map (fun d => { d with bLoaded := false }) := by
    rw [g]
    apply List.map_congr_left
    intro d _
    simp [stopUpd, stopMatches_star]
  refine ⟨hg, ?_, ?_⟩
  · intro d hd
    rw [hg] at hd
    obtain ⟨d0, _, e⟩ := List.mem_map.mp hd
    rw [← e]
  · rw [t, stopEvents_star]

/-- Witness of C14: with `A` and `B` loaded, `DRV_StopDriver("*")` unloads both and
calls the stop callback of `A` only (`B` has none). -/
theorem C14_wildcard_stop_witness :
    lockFree registryABLoaded ∧
      loadedAt (DRV_StopDriver registryABLoaded "*") 0 = false ∧
      loadedAt (DRV_StopDriver registryABLoaded "*") 1 = false ∧
      callbacks (DRV_StopDriver registryABLoaded "*").trace = [Event.stopFunc 0] ∧
      (∀ d ∈ (DRV_StopDriver registryABLoaded "*").g_drivers, d.bLoaded = false) :=
  ⟨by decide, by decide, by decide, by decide,
    (C14_wildcard_stop registryABLoaded (by decide)).2.1⟩

theorem stopMatches_of_noStar (name dname : String) (hstar : firstCharIsStar name = false) :
    stopMatches name dname = decide (stricmp dname name = 0) := by
  unfold stopMatches
  rw [hstar, Bool.false_or]

theorem stricmp_trans_left {a b name : String} (ha : stricmp a name = 0)
    (hb : stricmp b name = 0) : stricmp a b = 0 :=
  (stricmp_eq_zero_iff _ _).mpr
    (((stricmp_eq_zero_iff _ _).mp ha).trans ((stricmp_eq_zero_iff _ _).mp hb).symm)

/-- C15 (exact-name stop): for a table with names unique under `stricmp`, the mutex
free, a name not beginning with `'*'` and the descriptor `d` at index `i` whose
name it equals: `DRV_StopDriver(name)` leaves the table as it was except that `d` is
unloaded, and the only callback it may invoke is the stop callback of `d`, once,
when `d` was loaded and has one.  When `d` was not loaded the table is unchanged
and no callback is invoked. -/
theorem C15_exact_name_stop (st : Registry) (name : String) (i : Nat) (d : driver_t)
    (hu : namesUnique st.g_drivers) (hfree : lockFree st)
    (hstar : firstCharIsStar name = false)
    (hd : st.g_drivers[i]? = some d) (hm : stricmp d.name name = 0) :
    (DRV_StopDriver st name).g_drivers = st.g_drivers.set i { d with bLoaded := false } ∧
      callbacks (DRV_StopDriver st name).trace =
        callbacks st.trace ++
          (if d.bLoaded = true ∧ d.stopFunc.isSome = true then [Event.stopFunc i] else []) ∧
      (d.bLoaded = false →
        (DRV_StopDriver st name).g_drivers = st.g_drivers ∧
          callbacks (DRV_StopDriver st name).trace = callbacks st.trace) := by
  obtain ⟨g, _, t⟩ := stopDriver_spec st name hfree
  have hother : ∀ j dj, j ≠ i → st.g_drivers[j]? = some dj →
      stopMatches name dj.name = false := by
    intro j dj hji hdj
    rw [stopMatches_of_noStar name dj.name hstar]
    simp only [decide_eq_false_iff_not]
    intro hmj
    exact hji (namesUnique_index hu hdj hd (stricmp_trans_left hmj hm))
  have hself : stopMatches name d.name = true := by
    rw [stopMatches_of_noStar name d.name hstar]
    simpa using hm
  have hg : (DRV_StopDriver st name).g_drivers =
      st.g_drivers.set i { d with bLoaded := false } := by
    rw [g]
    apply List.ext_getElem?
    intro j
    rw [List.getElem?_map, List.getElem?_set]
    by_cases hij : i = j
    · subst hij
      rw [if_pos rfl, if_pos (lt_length_of_getElem? hd), hd]
      simp [stopUpd, hself]
    · rw [if_neg hij]
      cases hdj : st.g_drivers[j]? with
      | none => rfl
      | some dj =>
        simp [stopUpd, hother j dj (Ne.symm hij) hdj]
  have ht : callbacks (DRV_StopDriver st name).trace =
      callbacks st.trace ++
        (if d.bLoaded = true ∧ d.stopFunc.isSome = true then [Event.stopFunc i] else []) := by
    rw [t, eventsOver_single _ i _ (List.nodup_range _)
      (List.mem_range.mpr (lt_length_of_getElem? hd))]
    · simp [entryEvents, hd, stopEv, hself]
    · intro j _ hji
      unfold entryEvents
      cases hdj : st.g_drivers[j]? with
      | none => rfl
      | some dj => simp [stopEv, hother j dj hji hdj]
  refine ⟨hg, ht, ?_⟩
  intro hl
  constructor
  · rw [hg]
    have : ({ d with bLoaded := false } : driver_t) = d := by
      cases d
      simp_all
    rw [this, set_same _ _ _ hd]
  · rw [ht]
    simp [hl]

/-- Witness of C15: with `A` and `B` loaded, `DRV_StopDriver("a")` unloads `A`, calls its
stop callback once and leaves `B` loaded. -/
theorem C15_exact_name_stop_witness :
    (namesUnique registryABLoaded.g_drivers ∧ lockFree registryABLoaded ∧
      firstCharIsStar "a" = false) ∧
      loadedAt (DRV_StopDriver registryABLoaded "a") 0 = false ∧
      loadedAt (DRV_StopDriver registryABLoaded "a") 1 = true ∧
      callbacks (DRV_StopDriver registryABLoaded "a").trace =
        callbacks registryABLoaded.trace ++
          (if (true = true) ∧ (some "A_Stop" : FnPtr).isSome = true then [Event.stopFunc 0]
            else []) :=
  ⟨⟨by decide, by decide, by decide⟩, by decide, by decide,
    (C15_exact_name_stop registryABLoaded "a" 0 _ (by decide) (by decide) (by decide) rfl
      (by decide)).2.1⟩

/-- C16 as stated fails: with `A` loaded, the name `"*x"` is not the string `"*"` and
equals no descriptor's name, yet `DRV_StopDriver("*x")` unloads `A` and `B` and calls
the stop callback of `A`. -/
theorem C16_star_prefix_counterexample :
    ("*x" ≠ "*" ∧ ∀ d ∈ registryABLoaded.g_drivers, stricmp d.name "*x" ≠ 0) ∧
      loadedAt registryABLoaded 0 = true ∧
      loadedAt (DRV_StopDriver registryABLoaded "*x") 0 = false ∧
      loadedAt (DRV_StopDriver registryABLoaded "*x") 1 = false ∧
      callbacks (DRV_StopDriver registryABLoaded "*x").trace = [Event.stopFunc 0] :=
  ⟨⟨by decide, by decide⟩, by decide, by decide, by decide, by decide⟩

/-- C16, amended: for every table, loaded-state and lock state, a name that does not
begin with `'*'` and equals no descriptor's name makes `DRV_StopDriver(name)` invoke
no callback and leave the table unchanged; every name that begins with `'*'`
acts as the wildcard, `DRV_StopDriver(name)` being `DRV_StopDriver("*")`. -/
theorem C16_stop_unknown_name (st : Registry) (name : String) :
    (firstCharIsStar name = false → (∀ d ∈ st.g_drivers, stricmp d.name name ≠ 0) →
      (DRV_StopDriver st name).g_drivers = st.g_drivers ∧
        callbacks (DRV_StopDriver st name).trace = callbacks st.trace) ∧
    (firstCharIsStar name = true → DRV_StopDriver st name = DRV_StopDriver st "*") := by
  constructor
  · intro hstar hno
    by_cases hfree : lockFree st
    · obtain ⟨g, _, t⟩ := stopDriver_spec st name hfree
      have hnm : ∀ d ∈ st.g_drivers, stopMatches name d.name = false := by
        intro d hd
        rw [stopMatches_of_noStar name d.name hstar]
        simpa using hno d hd
      constructor
      · rw [g]
        conv => rhs; rw [← List.map_id st.g_drivers]
        apply List.map_congr_left
        intro d hd
        simp [stopUpd, hnm d hd]
      · rw [t, eventsOver_nil, List.append_nil]
        intro k _
        unfold entryEvents
        cases hk : st.g_drivers[k]? with
        | none => rfl
        | some d => simp [stopEv, hnm d (List.getElem?_mem hk)]
    · obtain ⟨g, _, t⟩ := stopDriver_held st name hfree
      exact ⟨g, t⟩
  · intro hstar
    have hb : DRV_StopDriver_body name = DRV_StopDriver_body "*" := by
      funext s k
      unfold DRV_StopDriver_body
      have h1 : firstCharIsStar "*" = true := by decide
      simp [hstar, h1]
    unfold DRV_StopDriver
    rw [hb]

/-- Witness of C16 amended: `"C"` is unknown and stops nothing; `"*x"` stops like
`"*"`. -/
theorem C16_stop_unknown_name_witness :
    (firstCharIsStar "C" = false ∧ ∀ d ∈ registryABLoaded.g_drivers, stricmp d.name "C" ≠ 0) ∧
      ((DRV_StopDriver registryABLoaded "C").g_drivers = registryABLoaded.g_drivers ∧
        callbacks (DRV_StopDriver registryABLoaded "C").trace =
          callbacks registryABLoaded.trace) ∧
      firstCharIsStar "*x" = true ∧
      DRV_StopDriver registryABLoaded "*x" = DRV_StopDriver registryABLoaded "*" :=
  ⟨⟨by decide, by decide⟩,
    (C16_stop_unknown_name registryABLoaded "C").1 (by decide) (by decide),
    by decide, (C16_stop_unknown_name registryABLoaded "*x").2 (by decide)⟩

/-! ## Driver registry: tick dispatch -/

theorem range_split (n i : Nat) (h : i < n) :
    List.range n = List.range i ++ i :: List.range' (i + 1) (n - i - 1) := by
  have e : n = (n - i - 1 + 1) + i := by omega
  conv => lhs; rw [e]
  rw [List.range_eq_range', List.range_eq_range', ← List.range'_append_1 0 i (n - i - 1 + 1),
    List.range'_succ]
  simp

theorem range'_split (a m j : Nat) (h1 : a ≤ j) (h2 : j < a + m) :
    List.range' a m = List.range' a (j - a) ++ j :: List.range' (j + 1) (a + m - j - 1) := by
  have e : m = (a + m - j - 1 + 1) + (j - a) := by omega
  conv => lhs; rw [e]
  rw [← List.range'_append_1 a (j - a) (a + m - j - 1 + 1), List.range'_succ]
  have : a + (j - a) = j := by omega
  rw [this]

theorem filter_range_order (p : Nat → Bool) (n i j : Nat) (hij : i < j) (hj : j < n)
    (hpi : p i = true) (hpj : p j = true) :
    ∃ a b c, (List.range n).filter p = a ++ i :: (b ++ j :: c) := by
  refine ⟨(List.range i).filter p, (List.range' (i + 1) (j - (i + 1))).filter p,
    (List.range' (j + 1) (n - j - 1)).filter p, ?_⟩
  rw [range_split n i (by omega), range'_split (i + 1) (n - i - 1) j (by omega) (by omega)]
  have : i + 1 + (n - i - 1) - j - 1 = n - j - 1 := by omega
  rw [this]
  simp [List.filter_append, List.filter_cons, hpi, hpj]

theorem tickLoop_spec (body : Registry → Nat → Registry) (has : driver_t → Bool)
    (e : Nat → Event)
    (hbody : body = entryStep id
      (fun i d => if d.bLoaded = true ∧ has d = true then [e i] else []))
    (st : Registry) :
    ((List.range st.g_drivers.length).foldl body st).g_drivers = st.g_drivers ∧
      ((List.range st.g_drivers.length).foldl body st).g_mutex = st.g_mutex ∧
      ((List.range st.g_drivers.length).foldl body st).trace =
        st.trace ++ ((List.range st.g_drivers.length).filter (fun i =>
          match st.g_drivers[i]? with
          | some d => d.bLoaded && has d
          | none => false)).map e := by
  obtain ⟨m, t, g⟩ := entryStep_fold_range id
    (fun i d => if d.bLoaded = true ∧ has d = true then [e i] else []) st
  rw [hbody]
  refine ⟨by rw [g, List.map_id], m, ?_⟩
  rw [t]
  congr 1
  apply eventsOver_filter
  intro k _
  unfold entryEvents
  cases hk : st.g_drivers[k]? with
  | none => simp
  | some d => simp only [Bool.and_eq_true]

theorem everySecondBody_eq :
    DRV_OnEverySecond_body = entryStep id
      (fun i d => if d.bLoaded = true ∧ d.onEverySecond.isSome = true
        then [Event.onEverySecond i] else []) := by
  funext st k
  unfold DRV_OnEverySecond_body entryStep
  cases hk : st.g_drivers[k]? with
  | none => rfl
  | some d =>
    dsimp only [id]
    rw [set_same _ _ _ hk]
    by_cases hl : d.bLoaded = true <;> by_cases hs : d.onEverySecond.isSome = true <;>
      simp [hl, hs]

theorem quickTickBody_eq :
    DRV_RunQuickTick_body = entryStep id
      (fun i d => if d.bLoaded = true ∧ d.runQuickTick.isSome = true
        then [Event.runQuickTick i] else []) := by
  funext st k
  unfold DRV_RunQuickTick_body entryStep
  cases hk : st.g_drivers[k]? with
  | none => rfl
  | some d =>
    dsimp only [id]
    rw [set_same _ _ _ hk]
    by_cases hl : d.bLoaded = true <;> by_cases hs : d.runQuickTick.isSome = true <;>
      simp [hl, hs]

theorem callbacks_map (e : Nat → Event) (he : ∀ i, (e i).isCallback = true) (ks : List Nat) :
    callbacks (ks.map e) = ks.map e := by
  unfold callbacks
  apply List.filter_eq_self.mpr
  intro x hx
  obtain ⟨i, _, rfl⟩ := List.mem_map.mp hx
  exact he i

theorem onEverySecond_spec (st : Registry) (hfree : lockFree st) :
    (DRV_OnEverySecond st).g_drivers = st.g_drivers ∧
      callbacks (DRV_OnEverySecond st).trace =
        callbacks st.trace ++
          ((List.range st.g_drivers.length).filter
            (fun i => loadedAt st i && hasEverySecond st i)).map Event.onEverySecond := by
  unfold DRV_OnEverySecond
  rw [mutexTake_eq_free 100 st hfree]
  dsimp only
  rw [if_neg (by simp)]
  obtain ⟨g, _, t⟩ := tickLoop_spec DRV_OnEverySecond_body (fun d => d.onEverySecond.isSome)
    Event.onEverySecond everySecondBody_eq
    { st with g_mutex := some true, trace := st.trace ++ [Event.semaphoreTake 100 true] }
  refine ⟨g, ?_⟩
  simp only [DRV_Mutex_Free, t, callbacks_append]
  rw [callbacks_map Event.onEverySecond (fun _ => rfl)]
  have hp : (fun i => match st.g_drivers[i]? with
      | some d => d.bLoaded && d.onEverySecond.isSome
      | none => false) = (fun i => loadedAt st i && hasEverySecond st i) := by
    funext i
    unfold loadedAt hasEverySecond
    cases st.g_drivers[i]? <;> rfl
  rw [hp]
  simp [callbacks, Event.isCallback]

theorem runQuickTick_spec (st : Registry) (hfree : lockFree st) :
    (DRV_RunQuickTick st).g_drivers = st.g_drivers ∧
      callbacks (DRV_RunQuickTick st).trace =
        callbacks st.trace ++
          ((List.range st.g_drivers.length).filter
            (fun i => loadedAt st i && hasQuickTick st i)).map Event.runQuickTick := by
  unfold DRV_RunQuickTick
  rw [mutexTake_eq_free 0 st hfree]
  dsimp only
  rw [if_neg (by simp)]
  obtain ⟨g, _, t⟩ := tickLoop_spec DRV_RunQuickTick_body (fun d => d.runQuickTick.isSome)
    Event.runQuickTick quickTickBody_eq
    { st with g_mutex := some true, trace := st.trace ++ [Event.semaphoreTake 0 true] }
  refine ⟨g, ?_⟩
  simp only [DRV_Mutex_Free, t, callbacks_append]
  rw [callbacks_map Event.runQuickTick (fun _ => rfl)]
  have hp : (fun i => match st.g_drivers[i]? with
      | some d => d.bLoaded && d.runQuickTick.isSome
      | none => false) = (fun i => loadedAt st i && hasQuickTick st i) := by
    funext i
    unfold loadedAt hasQuickTick
    cases st.g_drivers[i]? <;> rfl
  rw [hp]
  simp [callbacks, Event.isCallback]

/-- C20 (tick dispatch order): for every table and loaded-state, with the mutex
free, `DRV_OnEverySecond` leaves the table unchanged and the callbacks it invokes
are exactly the `onEverySecond` callbacks of the descriptors that are loaded and
have one, each once, in table order; likewise `DRV_RunQuickTick` with
`runQuickTick`.  So when `i < j` are both loaded and have the callback, the call
for `i` comes before the call for `j`. -/
theorem C20_tick_dispatch_order (st : Registry) (hfree : lockFree st) :
    ((DRV_OnEverySecond st).g_drivers = st.g_drivers ∧
      callbacks (DRV_OnEverySecond st).trace =
        callbacks st.trace ++
          ((List.range st.g_drivers.length).filter
            (fun i => loadedAt st i && hasEverySecond st i)).map Event.onEverySecond) ∧
    ((DRV_RunQuickTick st).g_drivers = st.g_drivers ∧
      callbacks (DRV_RunQuickTick st).trace =
        callbacks st.trace ++
          ((List.range st.g_drivers.length).filter
            (fun i => loadedAt st i && hasQuickTick st i)).map Event.runQuickTick) ∧
    (∀ i j, i < j → j < st.g_drivers.length →
      (loadedAt st i && hasEverySecond st i) = true →
      (loadedAt st j && hasEverySecond st j) = true →
      ∃ a b c, callbacks (DRV_OnEverySecond st).trace =
        callbacks st.trace ++
          (a ++ Event.onEverySecond i :: (b ++ Event.onEverySecond j :: c))) ∧
    (∀ i j, i < j → j < st.g_drivers.length →
      (loadedAt st i && hasQuickTick st i) = true →
      (loadedAt st j && hasQuickTick st j) = true →
      ∃ a b c, callbacks (DRV_RunQuickTick st).trace =
        callbacks st.trace ++
          (a ++ Event.runQuickTick i :: (b ++ Event.runQuickTick j :: c))) := by
  refine ⟨onEverySecond_spec st hfree, runQuickTick_spec st hfree, ?_, ?_⟩
  · intro i j hij hj hi1 hj1
    obtain ⟨a, b, c, h⟩ := filter_range_order
      (fun i => loadedAt st i && hasEverySecond st i) _ i j hij hj hi1 hj1
    refine ⟨a.map Event.onEverySecond, b.map Event.onEverySecond,
      c.map Event.onEverySecond, ?_⟩
    rw [(onEverySecond_spec st hfree).2, h]
    simp
  · intro i j hij hj hi1 hj1
    obtain ⟨a, b, c, h⟩ := filter_range_order
      (fun i => loadedAt st i && hasQuickTick st i) _ i j hij hj hi1 hj1
    refine ⟨a.map Event.runQuickTick, b.map Event.runQuickTick,
      c.map Event.runQuickTick, ?_⟩
    rw [(runQuickTick_spec st hfree).2, h]
    simp

/-- Witness of C20: with `A` and `C` loaded and `B` not, the every-second pass calls
`A` then `C`; the quick-tick pass calls `A` only (`C` has no quick-tick callback). -/
theorem C20_tick_dispatch_order_witness :
    lockFree registryTicks ∧
      callbacks (DRV_OnEverySecond registryTicks).trace =
        [Event.onEverySecond 0, Event.onEverySecond 2] ∧
      callbacks (DRV_RunQuickTick registryTicks).trace = [Event.runQuickTick 0] ∧
      (DRV_OnEverySecond registryTicks).g_drivers = registryTicks.g_drivers :=
  ⟨by decide, by decide, by decide, (C20_tick_dispatch_order registryTicks (by decide)).1.1⟩

/-! ## Driver registry: starting -/

theorem startLoop_range' (name : String) (st : Registry) (m a : Nat)
    (hbelow : ∀ j dj, j < a → st.g_drivers[j]? = some dj → stricmp dj.name name ≠ 0) :
    ((∀ j dj, j < a + m → st.g_drivers[j]? = some dj → stricmp dj.name name ≠ 0) ∧
        DRV_StartDriver_loop name (List.range' a m) st = some (st, false)) ∨
      ∃ i d, IsFirstMatch st name i d ∧
        DRV_StartDriver_loop name (List.range' a m) st = startFound st i d := by
  induction m generalizing a with
  | zero => exact Or.inl ⟨by simpa using hbelow, rfl⟩
  | succ m ih =>
    rw [List.range'_succ]
    unfold DRV_StartDriver_loop
    have hstep : (∀ da, st.g_drivers[a]? = some da → stricmp da.name name ≠ 0) →
        ((∀ j dj, j < a + (m + 1) → st.g_drivers[j]? = some dj →
            stricmp dj.name name ≠ 0) ∧
          DRV_StartDriver_loop name (List.range' (a + 1) m) st = some (st, false)) ∨
        ∃ i d, IsFirstMatch st name i d ∧
          DRV_StartDriver_loop name (List.range' (a + 1) m) st = startFound st i d := by
      intro ha
      have hb1 : ∀ j dj, j < a + 1 → st.g_drivers[j]? = some dj →
          stricmp dj.name name ≠ 0 := by
        intro j dj hj hdj
        rcases Nat.lt_succ_iff_lt_or_eq.mp hj with h | h
        · exact hbelow j dj h hdj
        · subst h
          exact ha dj hdj
      rcases ih (a + 1) hb1 with ⟨h1, h2⟩ | h
      · left
        refine ⟨?_, h2⟩
        intro j dj hj hdj
        exact h1 j dj (by omega) hdj
      · exact Or.inr h
    cases hk : st.g_drivers[a]? with
    | none =>
      exact hstep (fun da hda => by rw [hk] at hda; exact absurd hda (by simp))
    | some d =>
      dsimp only
      by_cases hm : stricmp d.name name = 0
      · right
        refine ⟨a, d, ⟨hk, hm, hbelow⟩, ?_⟩
        rw [if_pos hm]
        rfl
      · rw [if_neg hm]
        exact hstep (fun da hda => by
          rw [hk] at hda
          simp only [Option.some.injEq] at hda
          rw [← hda]
          exact hm)

theorem startLoop_range (name : String) (st : Registry) :
    ((∀ d ∈ st.g_drivers, stricmp d.name name ≠ 0) ∧
        DRV_StartDriver_loop name (List.range st.g_drivers.length) st = some (st, false)) ∨
      ∃ i d, IsFirstMatch st name i d ∧
        DRV_StartDriver_loop name (List.range st.g_drivers.length) st = startFound st i d := by
  rw [List.range_eq_range']
  rcases startLoop_range' name st st.g_drivers.length 0 (fun j dj hj => absurd hj (by omega))
    with ⟨h1, h2⟩ | h
  · left
    refine ⟨?_, h2⟩
    intro d hd
    obtain ⟨j, hj⟩ := List.mem_iff_getElem?.mp hd
    exact h1 j d (by have := lt_length_of_getElem? hj; omega) hj
  · exact Or.inr h

theorem isFirstMatch_unique {st : Registry} {name : String} {i k : Nat} {d e : driver_t}
    (h1 : IsFirstMatch st name i d) (h2 : IsFirstMatch st name k e) : i = k ∧ d = e := by
  have hik : i = k := by
    rcases Nat.lt_trichotomy i k with h | h | h
    · exact absurd h1.2.1 (h2.2.2 i d h h1.1)
    · exact h
    · exact absurd h2.2.1 (h1.2.2 k e h h2.1)
  subst hik
  have := h1.1.symm.trans h2.1
  simp only [Option.some.injEq] at this
  exact ⟨rfl, this⟩

theorem isFirstMatch_of_unique {st : Registry} (hu : namesUnique st.g_drivers) {name : String}
    {i : Nat} {d : driver_t} (hd : st.g_drivers[i]? = some d)
    (hm : stricmp d.name name = 0) : IsFirstMatch st name i d := by
  refine ⟨hd, hm, ?_⟩
  intro j dj hj hdj hmj
  have := namesUnique_index hu hdj hd (stricmp_trans_left hmj hm)
  omega

theorem isFirstMatch_congr {st st1 : Registry} (h : st1.g_drivers = st.g_drivers)
    {name : String} {i : Nat} {d : driver_t} (hf : IsFirstMatch st name i d) :
    IsFirstMatch st1 name i d := by
  unfold IsFirstMatch at hf ⊢
  rw [h]
  exact hf

theorem startDriver_held (st : Registry) (name : String) (hheld : ¬lockFree st) :
    DRV_StartDriver st name =
      some { st with g_mutex := some true,
                     trace := st.trace ++ [Event.semaphoreTake 100 false] } := by
  unfold DRV_StartDriver
  rw [mutexTake_eq_held 100 st hheld]
  rfl

theorem startDriver_free (st : Registry) (name : String) (hfree : lockFree st) :
    ((∀ d ∈ st.g_drivers, stricmp d.name name ≠ 0) ∧
        DRV_StartDriver st name = some (DRV_Mutex_Free (DRV_Mutex_Take 100 st).2)) ∨
      ∃ i d, IsFirstMatch st name i d ∧
        DRV_StartDriver st name =
          (startFound (DRV_Mutex_Take 100 st).2 i d).map (fun p => DRV_Mutex_Free p.1) := by
  unfold DRV_StartDriver
  have ht := mutexTake_eq_free 100 st hfree
  have h1 : (DRV_Mutex_Take 100 st).1 = true := by rw [ht]
  have h2 : (DRV_Mutex_Take 100 st).2.g_drivers = st.g_drivers := by rw [ht]
  dsimp only
  rw [if_neg (by simp [h1])]
  rcases startLoop_range name (DRV_Mutex_Take 100 st).2 with ⟨hno, hl⟩ | ⟨i, d, hf, hl⟩
  · left
    rw [h2] at hno
    exact ⟨hno, by rw [hl]; rfl⟩
  · right
    exact ⟨i, d, isFirstMatch_congr h2.symm hf, by rw [hl]⟩

/-- Outside the tables of the program: on a table `"A"`, `"a"` with two names equal
under `stricmp` (neither loaded), `DRV_StartDriver("a")` stops at the first entry, calls
the init callback of `"A"` and loads it; on a table whose descriptor `"N"` has no
init callback, `DRV_StartDriver("N")` calls through the null pointer.  No build of
`g_drivers` has such rows. -/
theorem startDriver_outside_build :
    (lockFree registryDup ∧ registryDup.g_drivers[1]? = some (plainDriver "a" false) ∧
      stricmp (plainDriver "a" false).name "a" = 0) ∧
    (DRV_StartDriver registryDup "a").map
        (fun s => (loadedAt s 1, loadedAt s 0, callbacks s.trace)) =
      some (false, true, [Event.initFunc 0]) ∧
    (lockFree registryNoInit ∧
      (registryNoInit.g_drivers[0]?).map (fun d => (d.name, d.initFunc, d.bLoaded)) =
        some ("N", none, false)) ∧
    DRV_StartDriver registryNoInit "N" = none :=
  ⟨⟨by decide, by decide, by decide⟩, by decide, ⟨by decide, by decide⟩, by decide⟩

theorem startDriver_noop_of_held (st : Registry) (name : String) (hheld : ¬lockFree st) :
    ∃ st1, DRV_StartDriver st name = some st1 ∧ st1.g_drivers = st.g_drivers ∧
      callbacks st1.trace = callbacks st.trace ∧ ¬lockFree st1 := by
  refine ⟨_, startDriver_held st name hheld, rfl, ?_, ?_⟩
  · simp [callbacks, Event.isCallback]
  · simp [lockFree]

theorem startDriver_loaded (st : Registry) (name : String) (i : Nat) (d : driver_t)
    (hfirst : IsFirstMatch st name i d) (hl : d.bLoaded = true) :
    ∃ st1, DRV_StartDriver st name = some st1 ∧ st1.g_drivers = st.g_drivers ∧
      callbacks st1.trace = callbacks st.trace := by
  by_cases hfree : lockFree st
  · rcases startDriver_free st name hfree with ⟨hno, _⟩ | ⟨k, e, hf, hs⟩
    · exact absurd hfirst.2.1 (hno d (List.getElem?_mem hfirst.1))
    · obtain ⟨rfl, rfl⟩ := isFirstMatch_unique hfirst hf
      rw [hs, mutexTake_eq_free 100 st hfree]
      unfold startFound
      rw [if_pos hl]
      refine ⟨_, rfl, rfl, ?_⟩
      simp [DRV_Mutex_Free, callbacks, Event.isCallback]
  · obtain ⟨st1, h1, h2, h3, _⟩ := startDriver_noop_of_held st name hfree
    exact ⟨st1, h1, h2, h3⟩

theorem startDriver_unknown (st : Registry) (name : String)
    (hno : ∀ d ∈ st.g_drivers, stricmp d.name name ≠ 0) :
    ∃ st1, DRV_StartDriver st name = some st1 ∧ st1.g_drivers = st.g_drivers ∧
      callbacks st1.trace = callbacks st.trace := by
  by_cases hfree : lockFree st
  · rcases startDriver_free st name hfree with ⟨_, hs⟩ | ⟨k, e, hf, _⟩
    · refine ⟨_, hs, ?_, ?_⟩
      · rw [mutexTake_eq_free 100 st hfree]
        rfl
      · rw [mutexTake_eq_free 100 st hfree]
        simp [DRV_Mutex_Free, callbacks, Event.isCallback]
    · exact absurd hf.2.1 (hno e (List.getElem?_mem hf.1))
  · obtain ⟨st1, h1, h2, h3, _⟩ := startDriver_noop_of_held st name hfree
    exact ⟨st1, h1, h2, h3⟩

/-- C13 (start of an unknown driver): for every table, loaded-state and lock state,
when `name` equals no descriptor's name under `stricmp`, `DRV_StartDriver(name)`
returns, invokes no callback and leaves the table unchanged. -/
theorem C13_start_unknown (st : Registry) (name : String)
    (hno : ∀ d ∈ st.g_drivers, stricmp d.name name ≠ 0) :
    ∃ st1, DRV_StartDriver st name = some st1 ∧ st1.g_drivers = st.g_drivers ∧
      callbacks st1.trace = callbacks st.trace :=
  startDriver_unknown st name hno

/-- Witness of C13: `"C"` is not in the table `A`, `B`. -/
theorem C13_start_unknown_witness :
    (∀ d ∈ registryABLoaded.g_drivers, stricmp d.name "C" ≠ 0) ∧
      ∃ st1, DRV_StartDriver registryABLoaded "C" = some st1 ∧
        st1.g_drivers = registryABLoaded.g_drivers ∧
        callbacks st1.trace = callbacks registryABLoaded.trace :=
  ⟨by decide, C13_start_unknown registryABLoaded "C" (by decide)⟩

/-- Outside the tables of the program: on the table `"A"`, `"a"` with only the second
descriptor loaded, `DRV_StartDriver("a")` stops at the first entry, calls the init
callback of `"A"` and loads it. -/
theorem startDriver_duplicate_loaded :
    (registryDupLoaded.g_drivers[1]? = some (plainDriver "a" true) ∧
      stricmp (plainDriver "a" true).name "a" = 0 ∧ (plainDriver "a" true).bLoaded = true ∧
      loadedAt registryDupLoaded 0 = false) ∧
    (DRV_StartDriver registryDupLoaded "a").map (fun s => (loadedAt s 0, callbacks s.trace)) =
      some (true, [Event.initFunc 0]) :=
  ⟨⟨by decide, by decide, by decide, by decide⟩, by decide⟩

theorem startDriver_twice (st : Registry) (name : String) (st1 : Registry)
    (h1 : DRV_StartDriver st name = some st1) :
    ∃ st2, DRV_StartDriver st1 name = some st2 ∧ st2.g_drivers = st1.g_drivers ∧
      callbacks st2.trace = callbacks st1.trace := by
  by_cases hfree : lockFree st
  · rcases startDriver_free st name hfree with ⟨hno, hs⟩ | ⟨k, e, hf, hs⟩
    · rw [hs] at h1
      simp only [Option.some.injEq] at h1
      have hd : st1.g_drivers = st.g_drivers := by
        rw [← h1, mutexTake_eq_free 100 st hfree]
        rfl
      exact startDriver_unknown st1 name (by rw [hd]; exact hno)
    · rw [hs, mutexTake_eq_free 100 st hfree] at h1
      unfold startFound at h1
      by_cases hl : e.bLoaded = true
      · rw [if_pos hl] at h1
        simp only [Option.map_some', Option.some.injEq] at h1
        have hd : st1.g_drivers = st.g_drivers := by rw [← h1]; rfl
        exact startDriver_loaded st1 name k e (isFirstMatch_congr hd hf) hl
      · rw [if_neg hl] at h1
        cases hi : e.initFunc with
        | none => rw [hi] at h1; exact absurd h1 (by simp)
        | some fn =>
          rw [hi] at h1
          simp only [Option.map_some', Option.some.injEq] at h1
          have hd : st1.g_drivers = st.g_drivers.set k { e with bLoaded := true } := by
            rw [← h1, ← hi]
            rfl
          have hlen := lt_length_of_getElem? hf.1
          refine startDriver_loaded st1 name k { e with bLoaded := true } ⟨?_, hf.2.1, ?_⟩ rfl
          · rw [hd, List.getElem?_set_self hlen]
          · intro j dj hj hdj
            rw [hd, List.getElem?_set_ne (by omega)] at hdj
            exact hf.2.2 j dj hj hdj
  · obtain ⟨s1, e1, _, _, hheld⟩ := startDriver_noop_of_held st name hfree
    rw [e1] at h1
    simp only [Option.some.injEq] at h1
    rw [← h1]
    obtain ⟨s2, e2, e3, e4, _⟩ := startDriver_noop_of_held s1 name hheld
    exact ⟨s2, e2, e3, e4⟩

/-! ## Driver registry: lookup -/

theorem stricmp_symm {a b : String} (h : stricmp a b = 0) : stricmp b a = 0 :=
  (stricmp_eq_zero_iff _ _).mpr ((stricmp_eq_zero_iff _ _).mp h).symm

theorem isRunningLoop_iff (name : String) (st : Registry) (ks : List Nat) :
    DRV_IsRunning_loop name st ks = true ↔
      ∃ k ∈ ks, ∃ d, st.g_drivers[k]? = some d ∧ d.bLoaded = true ∧
        stricmp name d.name = 0 := by
  induction ks with
  | nil => simp [DRV_IsRunning_loop]
  | cons k ks ih =>
    unfold DRV_IsRunning_loop
    cases hk : st.g_drivers[k]? with
    | none =>
      dsimp only
      rw [ih]
      constructor
      · rintro ⟨j, hj, d, hd, h⟩
        exact ⟨j, List.mem_cons_of_mem k hj, d, hd, h⟩
      · rintro ⟨j, hj, d, hd, h⟩
        rcases List.mem_cons.mp hj with rfl | hj1
        · rw [hk] at hd
          exact absurd hd (by simp)
        · exact ⟨j, hj1, d, hd, h⟩
    | some dk =>
      dsimp only
      by_cases hl : dk.bLoaded = true
      · by_cases hm : stricmp name dk.name = 0
        · rw [if_pos hl, if_pos hm]
          exact ⟨fun _ => ⟨k, List.mem_cons_self k ks, dk, hk, hl, hm⟩, fun _ => rfl⟩
        · rw [if_pos hl, if_neg hm, ih]
          constructor
          · rintro ⟨j, hj, d, hd, h⟩
            exact ⟨j, List.mem_cons_of_mem k hj, d, hd, h⟩
          · rintro ⟨j, hj, d, hd, h⟩
            rcases List.mem_cons.mp hj with rfl | hj1
            · rw [hk] at hd
              simp only [Option.some.injEq] at hd
              rw [← hd] at h
              exact absurd h.2 hm
            · exact ⟨j, hj1, d, hd, h⟩
      · rw [if_neg hl, ih]
        constructor
        · rintro ⟨j, hj, d, hd, h⟩
          exact ⟨j, List.mem_cons_of_mem k hj, d, hd, h⟩
        · rintro ⟨j, hj, d, hd, h⟩
          rcases List.mem_cons.mp hj with rfl | hj1
          · rw [hk] at hd
            simp only [Option.some.injEq] at hd
            rw [← hd] at h
            exact absurd h.1 hl
          · exact ⟨j, hj1, d, hd, h⟩

theorem isRunning_iff (st : Registry) (name : String) :
    DRV_IsRunning st name = true ↔
      ∃ d ∈ st.g_drivers, stricmp d.name name = 0 ∧ d.bLoaded = true := by
  unfold DRV_IsRunning
  rw [isRunningLoop_iff]
  constructor
  · rintro ⟨k, _, d, hd, hl, hm⟩
    exact ⟨d, List.getElem?_mem hd, stricmp_symm hm, hl⟩
  · rintro ⟨d, hd, hm, hl⟩
    obtain ⟨k, hk⟩ := List.mem_iff_getElem?.mp hd
    exact ⟨k, List.mem_range.mpr (lt_length_of_getElem? hk), d, hk, hl, stricmp_symm hm⟩

/-- C18 (IsRunning): for every table, loaded-state and name, `DRV_IsRunning(name)` is
true iff some descriptor whose name equals `name` under `stricmp` is loaded; it is
false for a name that equals no descriptor's name.  The function assigns no
variable: its embedding only returns the `bool`. -/
theorem C18_isRunning (st : Registry) (name : String) :
    (DRV_IsRunning st name = true ↔
      ∃ d ∈ st.g_drivers, stricmp d.name name = 0 ∧ d.bLoaded = true) ∧
    ((∀ d ∈ st.g_drivers, stricmp d.name name ≠ 0) → DRV_IsRunning st name = false) := by
  refine ⟨isRunning_iff st name, ?_⟩
  intro hno
  cases h : DRV_IsRunning st name with
  | false => rfl
  | true =>
    obtain ⟨d, hd, hm, _⟩ := (isRunning_iff st name).mp h
    exact absurd hm (hno d hd)

/-- Witness of C18: with `A` and `B` loaded, `"b"` is running and `"C"` is not. -/
theorem C18_isRunning_witness :
    (∀ d ∈ registryABLoaded.g_drivers, stricmp d.name "C" ≠ 0) ∧
      DRV_IsRunning registryABLoaded "C" = false ∧
      DRV_IsRunning registryABLoaded "b" = true ∧
      DRV_IsRunning (DRV_initial tableAB) "b" = false :=
  ⟨by decide, (C18_isRunning registryABLoaded "C").2 (by decide), by decide, by decide⟩

theorem stopUpd_name (name : String) (d : driver_t) : (stopUpd name d).name = d.name := by
  unfold stopUpd
  split_ifs <;> rfl

theorem isRunning_after_start (st st1 : Registry) (name query : String)
    (hq : stricmp query name = 0) (hfree : lockFree st)
    (hex : ∃ d ∈ st.g_drivers, stricmp d.name name = 0)
    (h1 : DRV_StartDriver st name = some st1) : DRV_IsRunning st1 query = true := by
  rcases startDriver_free st name hfree with ⟨hno, _⟩ | ⟨k, e, hf, hs⟩
  · obtain ⟨d, hd, hm⟩ := hex
    exact absurd hm (hno d hd)
  · have hqe : stricmp e.name query = 0 := stricmp_trans_left hf.2.1 hq
    have hlen := lt_length_of_getElem? hf.1
    rw [hs, mutexTake_eq_free 100 st hfree] at h1
    unfold startFound at h1
    rw [isRunning_iff]
    by_cases hl : e.bLoaded = true
    · rw [if_pos hl] at h1
      simp only [Option.map_some', Option.some.injEq] at h1
      have hd : st1.g_drivers = st.g_drivers := by rw [← h1]; rfl
      exact ⟨e, by rw [hd]; exact List.getElem?_mem hf.1, hqe, hl⟩
    · rw [if_neg hl] at h1
      cases hi : e.initFunc with
      | none => rw [hi] at h1; exact absurd h1 (by simp)
      | some fn =>
        rw [hi] at h1
        simp only [Option.map_some', Option.some.injEq] at h1
        have hd : st1.g_drivers = st.g_drivers.set k { e with bLoaded := true } := by
          rw [← h1, ← hi]
          rfl
        refine ⟨{ e with bLoaded := true }, ?_, hqe, rfl⟩
        rw [hd]
        exact List.getElem?_mem (List.getElem?_set_self hlen)

theorem isRunning_after_stop (st : Registry) (name query : String)
    (hq : stricmp query name = 0) (hfree : lockFree st) :
    DRV_IsRunning (DRV_StopDriver st name) query = false := by
  cases h : DRV_IsRunning (DRV_StopDriver st name) query with
  | false => rfl
  | true =>
    obtain ⟨d1, hd1, hm, hl⟩ := (isRunning_iff _ _).mp h
    rw [(stopDriver_spec st name hfree).1] at hd1
    obtain ⟨d0, _, e⟩ := List.mem_map.mp hd1
    have hn : d0.name = d1.name := by rw [← e, stopUpd_name]
    have hm0 : stricmp d0.name name = 0 := by
      rw [hn]
      exact stricmp_trans_left hm (stricmp_symm hq)
    have hsm : stopMatches name d0.name = true := by
      simp [stopMatches, hm0]
    rw [← e] at hl
    simp [stopUpd, hsm] at hl

/-- C19 (IsRunning tracks start/stop): in the initial state of every table
`DRV_IsRunning(n)` is false for every `n`.  With the mutex free, for a name that
equals some descriptor's name and a query name that equals it under `stricmp`
(the same name, or one differing in letter case): `DRV_IsRunning(query)` is true in
the state right after `DRV_StartDriver(name)`, which returns when every descriptor
has an init callback, and false in the state right after `DRV_StopDriver(name)`. -/
theorem C19_isRunning_tracks (st : Registry) (name query : String)
    (hq : stricmp query name = 0) (hfree : lockFree st)
    (hex : ∃ d ∈ st.g_drivers, stricmp d.name name = 0) :
    (∀ (table : List driver_t) (n : String), DRV_IsRunning (DRV_initial table) n = false) ∧
    (∀ st1, DRV_StartDriver st name = some st1 → DRV_IsRunning st1 query = true) ∧
    ((∀ d ∈ st.g_drivers, d.initFunc.isSome = true) →
      ∃ st1, DRV_StartDriver st name = some st1 ∧ DRV_IsRunning st1 query = true) ∧
    DRV_IsRunning (DRV_StopDriver st name) query = false := by
  refine ⟨?_, fun st1 h1 => isRunning_after_start st st1 name query hq hfree hex h1, ?_,
    isRunning_after_stop st name query hq hfree⟩
  · intro table n
    cases h : DRV_IsRunning (DRV_initial table) n with
    | false => rfl
    | true =>
      obtain ⟨d, hd, _, hl⟩ := (isRunning_iff _ _).mp h
      obtain ⟨d0, _, e⟩ := List.mem_map.mp hd
      rw [← e] at hl
      exact absurd hl (by simp)
  · intro hinit
    obtain ⟨st1, h1⟩ := call_total st (DrvCall.start name) hinit
    exact ⟨st1, h1, isRunning_after_start st st1 name query hq hfree hex h1⟩

/-- Witness of C19: on the table `A`, `B`, after `DRV_StartDriver("a")` the query `"A"` is
running, and after `DRV_StopDriver("a")` from the loaded table it is not. -/
theorem C19_isRunning_tracks_witness :
    (stricmp "A" "a" = 0 ∧ lockFree (DRV_initial tableAB) ∧
      (∃ d ∈ (DRV_initial tableAB).g_drivers, stricmp d.name "a" = 0) ∧
      ∀ d ∈ (DRV_initial tableAB).g_drivers, d.initFunc.isSome = true) ∧
    (∃ st1, DRV_StartDriver (DRV_initial tableAB) "a" = some st1 ∧
      DRV_IsRunning st1 "A" = true) ∧
    DRV_IsRunning (DRV_StopDriver registryABLoaded "a") "A" = false :=
  ⟨⟨by decide, by decide, by decide, by decide⟩,
    (C19_isRunning_tracks (DRV_initial tableAB) "a" "A" (by decide) (by decide)
      (by decide)).2.2.1 (by decide),
    (C19_isRunning_tracks registryABLoaded "a" "A" (by decide) (by decide)
      (by decide)).2.2.2⟩

/-! ## Driver registry: shutting down -/

theorem unloaded_of_not_loaded (d : driver_t) (h : d.bLoaded = false) : unloaded d = d := by
  cases d
  simp_all [unloaded]

theorem stopUpd_of_matches (name : String) (d : driver_t)
    (h : stopMatches name d.name = true) : stopUpd name d = unloaded d := by
  simp [stopUpd, h, unloaded]

theorem stopUpd_of_not_matches (name : String) (d : driver_t)
    (h : stopMatches name d.name = false) : stopUpd name d = d := by
  simp [stopUpd, h]

theorem stopMatches_of_star (name dname : String) (h : firstCharIsStar name = true) :
    stopMatches name dname = true := by
  simp [stopMatches, h]

theorem shutdownInv_skip (st s : Registry) (k m : Nat) (h : ShutdownInv st m s)
    (hkm : k ≤ m) (d : driver_t) (hd : s.g_drivers[k]? = some d) (hl : d.bLoaded = false) :
    ∃ m1, k + 1 ≤ m1 ∧ m1 ≤ max m (k + 1) ∧ ShutdownInv st m1 s := by
  rcases Nat.lt_or_ge k m with hlt | hge
  · exact ⟨m, hlt, by omega, h⟩
  · have hmk : m = k := by omega
    subst hmk
    have hk0 : st.g_drivers[m]? = some d := by
      have := h.entries m
      rw [if_neg (by omega), hd] at this
      exact this.symm
    refine ⟨m + 1, by omega, by omega, h.free, h.len, ?_, ?_⟩
    · intro j
      rw [h.entries j]
      by_cases hj : j < m
      · rw [if_pos hj, if_pos (by omega)]
      · rw [if_neg hj]
        by_cases hjm : j = m
        · subst hjm
          rw [if_pos (by omega), hk0]
          simp [unloaded_of_not_loaded d hl]
        · rw [if_neg (by omega)]
    · rw [h.calls, List.range_succ, eventsOver_append]
      have : entryEvents (stopEv "*") st.g_drivers m = [] := by
        simp [entryEvents, hk0, stopEv, hl]
      simp [eventsOver, this]

theorem shutdownInv_at_loaded (st s : Registry) (k m : Nat) (h : ShutdownInv st m s)
    (hkm : k ≤ m) (d : driver_t) (hd : s.g_drivers[k]? = some d) (hl : d.bLoaded = true) :
    m = k ∧ st.g_drivers[k]? = some d := by
  have he := h.entries k
  rcases Nat.lt_or_ge k m with hlt | hge
  · rw [if_pos hlt, hd] at he
    cases h0 : st.g_drivers[k]? with
    | none => rw [h0] at he; exact absurd he (by simp)
    | some d0 =>
      rw [h0] at he
      simp only [Option.map_some', Option.some.injEq] at he
      rw [he] at hl
      exact absurd hl (by simp [unloaded])
  · rw [if_neg (by omega), hd] at he
    exact ⟨by omega, he.symm⟩

theorem shutdownInv_star (st s : Registry) (k : Nat) (h : ShutdownInv st k s)
    (d : driver_t) (hk0 : st.g_drivers[k]? = some d)
    (hstar : firstCharIsStar d.name = true) :
    ShutdownInv st st.g_drivers.length (DRV_StopDriver s d.name) := by
  obtain ⟨g, mx, t⟩ := stopDriver_spec s d.name h.free
  have hkn := lt_length_of_getElem? hk0
  have hsu : stopUpd d.name = unloaded :=
    funext (fun e => stopUpd_of_matches d.name e (stopMatches_of_star d.name e.name hstar))
  refine ⟨by simp [lockFree, mx], by rw [g, List.length_map, h.len], ?_, ?_⟩
  · intro j
    rw [g, List.getElem?_map, h.entries j, hsu]
    by_cases hj : j < k
    · rw [if_pos hj, if_pos (by omega)]
      cases st.g_drivers[j]? <;> simp [unloaded]
    · rw [if_neg hj]
      by_cases hjn : j < st.g_drivers.length
      · rw [if_pos hjn]
      · rw [if_neg hjn, List.getElem?_eq_none (by omega)]
        rfl
  · rw [t, h.calls, h.len, range_split st.g_drivers.length k hkn, eventsOver_append,
      eventsOver_append, List.append_assoc]
    congr 1
    rw [eventsOver_nil (entryEvents (stopEv d.name) s.g_drivers) (List.range k)]
    · rw [List.nil_append]
      congr 1
      apply eventsOver_congr
      intro j hj
      have hjk : ¬j < k := by
        rcases List.mem_cons.mp hj with e | e
        · omega
        · have := (List.mem_range'_1.mp e).1
          omega
      unfold entryEvents
      rw [h.entries j, if_neg hjk]
      cases st.g_drivers[j]? with
      | none => rfl
      | some e =>
        simp [stopEv, stopMatches_of_star d.name e.name hstar, stopMatches_star]
    · intro j hj
      have hjk : j < k := List.mem_range.mp hj
      unfold entryEvents
      rw [h.entries j, if_pos hjk]
      cases st.g_drivers[j]? with
      | none => rfl
      | some e => simp [stopEv, unloaded]

theorem stricmp_self (a : String) : stricmp a a = 0 :=
  (stricmp_eq_zero_iff a a).mpr rfl

theorem shutdownInv_exact (st s : Registry) (k : Nat) (hu : namesUnique st.g_drivers)
    (h : ShutdownInv st k s) (d : driver_t) (hk0 : st.g_drivers[k]? = some d)
    (hstar : firstCharIsStar d.name = false) :
    ShutdownInv st (k + 1) (DRV_StopDriver s d.name) := by
  obtain ⟨g, mx, t⟩ := stopDriver_spec s d.name h.free
  have hkn := lt_length_of_getElem? hk0
  have hself : stopMatches d.name d.name = true := by
    rw [stopMatches_of_noStar d.name d.name hstar]
    simpa using stricmp_self d.name
  have hother : ∀ j dj, j ≠ k → st.g_drivers[j]? = some dj →
      stopMatches d.name dj.name = false := by
    intro j dj hjk hdj
    rw [stopMatches_of_noStar d.name dj.name hstar]
    simp only [decide_eq_false_iff_not]
    intro hmj
    exact hjk (namesUnique_index hu hdj hk0 hmj)
  have hsk : s.g_drivers[k]? = some d := by
    rw [h.entries k, if_neg (by omega), hk0]
  refine ⟨by simp [lockFree, mx], by rw [g, List.length_map, h.len], ?_, ?_⟩
  · intro j
    rw [g, List.getElem?_map, h.entries j]
    by_cases hj : j < k
    · rw [if_pos hj, if_pos (by omega)]
      cases hdj : st.g_drivers[j]? with
      | none => rfl
      | some dj =>
        have := hother j dj (by omega) hdj
        simp only [Option.map_some', Option.some.injEq]
        exact stopUpd_of_not_matches d.name (unloaded dj) this
    · rw [if_neg hj]
      by_cases hjk : j = k
      · subst hjk
        rw [if_pos (by omega), hk0]
        simp only [Option.map_some', Option.some.injEq]
        exact stopUpd_of_matches d.name d hself
      · rw [if_neg (by omega)]
        cases hdj : st.g_drivers[j]? with
        | none => rfl
        | some dj =>
          simp only [Option.map_some', Option.some.injEq]
          exact stopUpd_of_not_matches d.name dj (hother j dj hjk hdj)
  · rw [t, h.calls, h.len, List.range_succ, eventsOver_append, List.append_assoc]
    congr 2
    rw [eventsOver_single _ k _ (List.nodup_range _) (List.mem_range.mpr hkn)]
    · simp [eventsOver, entryEvents, hsk, hk0, stopEv, hself, stopMatches_star]
    · intro j _ hjk
      unfold entryEvents
      rw [h.entries j]
      by_cases hj : j < k
      · rw [if_pos hj]
        cases hdj : st.g_drivers[j]? with
        | none => rfl
        | some dj => simp [stopEv, unloaded]
      · rw [if_neg hj]
        cases hdj : st.g_drivers[j]? with
        | none => rfl
        | some dj => simp [stopEv, hother j dj hjk hdj]

theorem shutdownBody_inv (st s : Registry) (k m : Nat) (hu : namesUnique st.g_drivers)
    (h : ShutdownInv st m s) (hkm : k ≤ m) (hmn : m ≤ st.g_drivers.length)
    (hk : k < st.g_drivers.length) :
    ∃ m1, k + 1 ≤ m1 ∧ m1 ≤ st.g_drivers.length ∧
      ShutdownInv st m1 (DRV_ShutdownAllDrivers_body s k) := by
  unfold DRV_ShutdownAllDrivers_body
  cases hd : s.g_drivers[k]? with
  | none =>
    have := List.getElem?_eq_none_iff.mp hd
    rw [h.len] at this
    omega
  | some d =>
    dsimp only
    by_cases hl : d.bLoaded = true
    · rw [if_pos hl]
      obtain ⟨rfl, hk0⟩ := shutdownInv_at_loaded st s k m h hkm d hd hl
      by_cases hstar : firstCharIsStar d.name = true
      · exact ⟨st.g_drivers.length, by omega, Nat.le_refl _,
          shutdownInv_star st s m h d hk0 hstar⟩
      · exact ⟨m + 1, Nat.le_refl _, by omega,
          shutdownInv_exact st s m hu h d hk0 (by simpa using hstar)⟩
    · rw [if_neg hl]
      obtain ⟨m1, h1, h2, h3⟩ := shutdownInv_skip st s k m h hkm d hd (by simpa using hl)
      exact ⟨m1, h1, by omega, h3⟩

theorem shutdownLoop_inv (st : Registry) (hu : namesUnique st.g_drivers) (cnt : Nat) :
    ∀ (k m : Nat) (s : Registry), k + cnt = st.g_drivers.length → k ≤ m →
      m ≤ st.g_drivers.length → ShutdownInv st m s →
      ShutdownInv st st.g_drivers.length
        ((List.range' k cnt).foldl DRV_ShutdownAllDrivers_body s) := by
  induction cnt with
  | zero =>
    intro k m s hk hkm hmn h
    have : m = st.g_drivers.length := by omega
    subst this
    exact h
  | succ cnt ih =>
    intro k m s hk hkm hmn h
    rw [List.range'_succ, List.foldl_cons]
    obtain ⟨m1, h1, h2, h3⟩ := shutdownBody_inv st s k m hu h hkm hmn (by omega)
    exact ih (k + 1) m1 _ (by omega) h1 h2 h3

/-- C17 (ShutdownAll equals wildcard stop): for every table with names unique under
`stricmp` and every loaded-state, with the mutex free, `DRV_ShutdownAllDrivers()` and
`DRV_StopDriver("*")` leave the same table, in which every `bLoaded` is false, and
invoke the same callbacks in the same order (the stop callbacks of the loaded
descriptors that have one, in table order). -/
theorem C17_shutdown_equals_wildcard_stop (st : Registry)
    (hu : namesUnique st.g_drivers) (hfree : lockFree st) :
    (DRV_ShutdownAllDrivers st).g_drivers = (DRV_StopDriver st "*").g_drivers ∧
      (∀ d ∈ (DRV_ShutdownAllDrivers st).g_drivers, d.bLoaded = false) ∧
      callbacks (DRV_ShutdownAllDrivers st).trace =
        callbacks (DRV_StopDriver st "*").trace := by
  have h0 : ShutdownInv st 0 st :=
    ⟨hfree, rfl, fun j => by rw [if_neg (by omega)], by simp [eventsOver]⟩
  have hend := shutdownLoop_inv st hu st.g_drivers.length 0 0 st (by omega)
    (Nat.le_refl 0) (Nat.zero_le _) h0
  rw [← List.range_eq_range'] at hend
  obtain ⟨g, _, t⟩ := stopDriver_spec st "*" hfree
  have hsu : stopUpd "*" = unloaded :=
    funext (fun e => stopUpd_of_matches "*" e (stopMatches_star e.name))
  have hd : (DRV_ShutdownAllDrivers st).g_drivers = st.g_drivers.map unloaded := by
    unfold DRV_ShutdownAllDrivers
    apply List.ext_getElem?
    intro j
    rw [hend.entries j, List.getElem?_map]
    by_cases hj : j < st.g_drivers.length
    · rw [if_pos hj]
    · rw [if_neg hj, List.getElem?_eq_none (by omega)]
      rfl
  refine ⟨by rw [hd, g, hsu], ?_, ?_⟩
  · intro d hdm
    rw [hd] at hdm
    obtain ⟨d0, _, e⟩ := List.mem_map.mp hdm
    rw [← e]
    rfl
  · rw [t]
    exact hend.calls

/-- Witness of C17: with `A` and `B` loaded, both operations unload both descriptors
and call the stop callback of `A` once. -/
theorem C17_shutdown_equals_wildcard_stop_witness :
    (namesUnique registryABLoaded.g_drivers ∧ lockFree registryABLoaded) ∧
      callbacks (DRV_ShutdownAllDrivers registryABLoaded).trace = [Event.stopFunc 0] ∧
      callbacks (DRV_StopDriver registryABLoaded "*").trace = [Event.stopFunc 0] ∧
      (DRV_ShutdownAllDrivers registryABLoaded).g_drivers =
        (DRV_StopDriver registryABLoaded "*").g_drivers :=
  ⟨⟨by decide, by decide⟩, by decide, by decide,
    (C17_shutdown_equals_wildcard_stop registryABLoaded (by decide) (by decide)).1⟩

/-! ## Driver registry: channel-changed dispatch -/

theorem channelChangedBody_eq (channel iVal : Int) :
    DRV_OnChannelChanged_body channel iVal = entryStep id
      (fun i d => if d.bLoaded = true ∧ d.onChannelChanged.isSome = true
        then [Event.onChannelChanged i channel iVal] else []) := by
  funext st k
  unfold DRV_OnChannelChanged_body entryStep
  cases hk : st.g_drivers[k]? with
  | none => rfl
  | some d =>
    dsimp only [id]
    rw [set_same _ _ _ hk]
    by_cases hl : d.bLoaded = true <;> by_cases hs : d.onChannelChanged.isSome = true <;>
      simp [hl, hs]

/-- C21 (channel-changed dispatch ignores the lock): for every table, loaded-state,
lock state, channel and value, `DRV_OnChannelChanged(channel, value)` leaves the table
and the mutex as they were, and what it adds to the trace is exactly one call
`onChannelChanged(channel, value)` for each descriptor that is loaded and has that
callback, in table order: no other callback and no request on the mutex. -/
theorem C21_channel_changed_dispatch (st : Registry) (channel value : Int) :
    (DRV_OnChannelChanged st channel value).g_drivers = st.g_drivers ∧
      (DRV_OnChannelChanged st channel value).g_mutex = st.g_mutex ∧
      (DRV_OnChannelChanged st channel value).trace =
        st.trace ++
          ((List.range st.g_drivers.length).filter
            (fun i => loadedAt st i && hasChannelChanged st i)).map
            (fun i => Event.onChannelChanged i channel value) := by
  obtain ⟨g, m, t⟩ := tickLoop_spec (DRV_OnChannelChanged_body channel value)
    (fun d => d.onChannelChanged.isSome) (fun i => Event.onChannelChanged i channel value)
    (channelChangedBody_eq channel value) st
  refine ⟨g, m, ?_⟩
  unfold DRV_OnChannelChanged
  rw [t]
  have hp : (fun i => match st.g_drivers[i]? with
      | some d => d.bLoaded && d.onChannelChanged.isSome
      | none => false) = (fun i => loadedAt st i && hasChannelChanged st i) := by
    funext i
    unfold loadedAt hasChannelChanged
    cases st.g_drivers[i]? <;> rfl
  rw [hp]

/-! ## Ring buffer: consuming -/

/-- C27 (consume shrinks the occupancy exactly): for every capacity `C ≥ 1`, every
reachable state and every `n` with `0 ≤ n ≤ UART_GetDataSize()`, after
`UART_ConsumeBytes(n)` the data size is the previous one minus `n`, and the `in`
index, the capacity and the stored bytes are unchanged. -/
theorem C27_consume_shrinks (C : Int) (hC : 1 ≤ C) (s : RingBuf) (h : Reachable C s)
    (n : Int) (h0 : 0 ≤ n) (hn : n ≤ UART_GetDataSize s) :
    UART_GetDataSize (UART_ConsumeBytes s n) = UART_GetDataSize s - n ∧
      (UART_ConsumeBytes s n).g_recvBufIn = s.g_recvBufIn ∧
      (UART_ConsumeBytes s n).g_recvBuf = s.g_recvBuf ∧
      (UART_ConsumeBytes s n).g_recvBufSize = s.g_recvBufSize := by
  obtain ⟨h1, _, h3, h4, h5, h6⟩ := reachable_inv hC h
  refine ⟨?_, rfl, rfl, rfl⟩
  unfold UART_GetDataSize at hn ⊢
  simp only [UART_ConsumeBytes]
  split_ifs at hn ⊢ <;> omega

/-- Witness of C27 on the overflow state (capacity 4, three bytes pending): consuming
two bytes leaves one. -/
theorem C27_consume_shrinks_witness :
    ((1 : Int) ≤ 4 ∧ Reachable 4 ringFull4 ∧ (0 : Int) ≤ 2 ∧ 2 ≤ UART_GetDataSize ringFull4) ∧
      UART_GetDataSize (UART_ConsumeBytes ringFull4 2) = 1 ∧
      UART_GetDataSize (UART_ConsumeBytes ringFull4 2) = UART_GetDataSize ringFull4 - 2 :=
  ⟨⟨by decide, ringFull4_reachable, by decide, by decide⟩, by decide,
    (C27_consume_shrinks 4 (by decide) ringFull4 ringFull4_reachable 2 (by decide)
      (by decide)).1⟩

/-! ## Driver registry: contention -/

theorem afterFailedTake_frame (st : Registry) (del : Int) :
    (afterFailedTake st del).g_drivers = st.g_drivers ∧
      callbacks (afterFailedTake st del).trace = callbacks st.trace := by
  simp [afterFailedTake, callbacks, Event.isCallback]

/-- C22 (contention drops the whole operation): for every table and loaded-state,
when the mutex is held by another context, each of `DRV_StartDriver`,
`DRV_StopDriver`, `DRV_OnEverySecond`, `DRV_RunQuickTick` and
`DRV_AppendInformationToHTTPIndexPage` returns leaving only the record of its failed
request on the mutex, with wait 0 for `DRV_RunQuickTick` and 100 for the others:
the table is unchanged, no callback is invoked, and the page is unchanged. -/
theorem C22_contention_drops_operation (st : Registry) (name : String)
    (request : http_request_t) (hheld : ¬lockFree st) :
    DRV_StartDriver st name = some (afterFailedTake st 100) ∧
      DRV_StopDriver st name = afterFailedTake st 100 ∧
      DRV_OnEverySecond st = afterFailedTake st 100 ∧
      DRV_RunQuickTick st = afterFailedTake st 0 ∧
      DRV_AppendInformationToHTTPIndexPage st request =
        some (afterFailedTake st 100, request) ∧
      (∀ del, (afterFailedTake st del).g_drivers = st.g_drivers ∧
        callbacks (afterFailedTake st del).trace = callbacks st.trace) := by
  refine ⟨startDriver_held st name hheld, ?_, ?_, ?_, ?_, afterFailedTake_frame st⟩
  · unfold DRV_StopDriver
    rw [mutexTake_eq_held 100 st hheld]
    rfl
  · unfold DRV_OnEverySecond
    rw [mutexTake_eq_held 100 st hheld]
    rfl
  · unfold DRV_RunQuickTick
    rw [mutexTake_eq_held 0 st hheld]
    rfl
  · unfold DRV_AppendInformationToHTTPIndexPage
    rw [mutexTake_eq_held 100 st hheld]
    rfl

/-- Witness of C22: with the mutex held and `A`, `B` loaded, the quick-tick pass and
the wildcard stop leave only their failed requests behind. -/
theorem C22_contention_drops_operation_witness :
    ¬lockFree registryABHeld ∧
      (DRV_RunQuickTick registryABHeld).trace = [Event.semaphoreTake 0 false] ∧
      (DRV_StopDriver registryABHeld "*").trace = [Event.semaphoreTake 100 false] ∧
      (DRV_StopDriver registryABHeld "*").g_drivers = registryABHeld.g_drivers ∧
      DRV_AppendInformationToHTTPIndexPage registryABHeld [] =
        some (afterFailedTake registryABHeld 100, []) :=
  ⟨by decide, by decide, by decide, by decide,
    (C22_contention_drops_operation registryABHeld "*" [] (by decide)).2.2.2.2.1⟩

/-! ## Driver registry: the commands -/

/-- C24 (command results): with no argument in the tokenized list, `DRV_Start` and
`DRV_Stop` return `CMD_RES_NOT_ENOUGH_ARGUMENTS` and leave the registry state as it
was, trace included.  With an argument `name` present, `DRV_Stop` returns
`CMD_RES_OK` after `DRV_StopDriver(name)`, and `DRV_Start` returns `CMD_RES_OK` after every
`DRV_StartDriver(name)` that returns, which it does whenever `name` equals no
descriptor's name and whenever every descriptor has an init callback. -/
theorem C24_command_results (st : Registry) :
    (DRV_Start st [] = some (commandResult_t.CMD_RES_NOT_ENOUGH_ARGUMENTS, st) ∧
      DRV_Stop st [] = some (commandResult_t.CMD_RES_NOT_ENOUGH_ARGUMENTS, st)) ∧
    (∀ (name : String) (rest : List String),
      DRV_Stop st (name :: rest) =
        some (commandResult_t.CMD_RES_OK, DRV_StopDriver st name)) ∧
    (∀ (name : String) (rest : List String) (st1 : Registry),
      DRV_StartDriver st name = some st1 →
      DRV_Start st (name :: rest) = some (commandResult_t.CMD_RES_OK, st1)) ∧
    (∀ (name : String) (rest : List String),
      (∀ d ∈ st.g_drivers, stricmp d.name name ≠ 0) →
      ∃ st1, DRV_Start st (name :: rest) = some (commandResult_t.CMD_RES_OK, st1) ∧
        st1.g_drivers = st.g_drivers ∧ callbacks st1.trace = callbacks st.trace) ∧
    (∀ (name : String) (rest : List String),
      (∀ d ∈ st.g_drivers, d.initFunc.isSome = true) →
      ∃ st1, DRV_Start st (name :: rest) = some (commandResult_t.CMD_RES_OK, st1)) := by
  have hstart : ∀ (name : String) (rest : List String) (st1 : Registry),
      DRV_StartDriver st name = some st1 →
      DRV_Start st (name :: rest) = some (commandResult_t.CMD_RES_OK, st1) := by
    intro name rest st1 h
    simp [DRV_Start, Tokenizer_CheckArgsCountAndPrintWarning, Tokenizer_GetArg, h]
  refine ⟨⟨rfl, rfl⟩, ?_, hstart, ?_, ?_⟩
  · intro name rest
    simp [DRV_Stop, Tokenizer_CheckArgsCountAndPrintWarning, Tokenizer_GetArg]
  · intro name rest hno
    obtain ⟨st1, h1, h2, h3⟩ := startDriver_unknown st name hno
    exact ⟨st1, hstart name rest st1 h1, h2, h3⟩
  · intro name rest hinit
    obtain ⟨st1, h1⟩ := call_total st (DrvCall.start name) hinit
    exact ⟨st1, hstart name rest st1 h1⟩

/-- Witness of C24: on the loaded table `A`, `B`, `startDriver Nope` succeeds and
changes nothing, `startDriver` without argument is refused. -/
theorem C24_command_results_witness :
    (∀ d ∈ registryABLoaded.g_drivers, stricmp d.name "Nope" ≠ 0) ∧
      (∃ st1, DRV_Start registryABLoaded ["Nope"] =
          some (commandResult_t.CMD_RES_OK, st1) ∧
        st1.g_drivers = registryABLoaded.g_drivers ∧
        callbacks st1.trace = callbacks registryABLoaded.trace) ∧
      DRV_Start registryABLoaded [] =
        some (commandResult_t.CMD_RES_NOT_ENOUGH_ARGUMENTS, registryABLoaded) :=
  ⟨by decide, (C24_command_results registryABLoaded).2.2.2.1 "Nope" [] (by decide),
    (C24_command_results registryABLoaded).1.1⟩

/-! ## The table `g_drivers` -/

set_option maxRecDepth 100000 in
/-- C26 (descriptor table well-formedness): in the table `g_drivers` with every build
option enabled (36 rows), every name is a non-empty string, no two names are
equal under `stricmp`, and every `bLoaded` is false. -/
theorem C26_table_well_formed :
    g_drivers.length = 36 ∧ (∀ d ∈ g_drivers, d.name ≠ "") ∧ namesUnique g_drivers ∧
      (∀ d ∈ g_drivers, d.bLoaded = false) ∧
      (DRV_initial g_drivers).g_drivers = g_drivers :=
  ⟨by decide, by decide, by decide, by decide, by decide⟩

/-! ## The debug drain -/

theorem append_zero_zeros (C k : Nat) (hk : k + 1 < C) :
    UART_AppendByteToCircularBuffer
        { g_recvBuf := List.replicate C 0, g_recvBufSize := (C : Int),
          g_recvBufIn := (k : Int), g_recvBufOut := 0 } 0 =
      some { g_recvBuf := List.replicate C 0, g_recvBufSize := (C : Int),
             g_recvBufIn := ((k + 1 : Nat) : Int), g_recvBufOut := 0 } := by
  unfold UART_AppendByteToCircularBuffer UART_GetDataSize
  dsimp only
  have h0 : (k : Int) ≥ 0 := by omega
  have h1 : (k : Int) - 0 < (C : Int) - 1 := by omega
  have h2 : 0 ≤ (k : Int) ∧ (k : Int).toNat < (List.replicate C (0 : Int)).length := by
    rw [List.length_replicate]
    omega
  have h3 : ¬((k : Int) + 1 ≥ (C : Int)) := by omega
  have h4 : (k : Int).toNat = k := by omega
  rw [if_pos h0, if_pos h1, if_pos h2, if_neg h3, h4, Int.zero_emod,
    List.set_replicate_self]
  rfl

theorem reachable_zeros (C k : Nat) (hk : k < C) :
    Reachable (C : Int)
      { g_recvBuf := List.replicate C 0, g_recvBufSize := (C : Int),
        g_recvBufIn := (k : Int), g_recvBufOut := 0 } := by
  induction k with
  | zero =>
    have h := Reachable.init (C := (C : Int)) ringBlank
    unfold UART_InitReceiveRingBuffer at h
    rw [Int.toNat_ofNat] at h
    exact h
  | succ k ih => exact Reachable.append 0 (ih (by omega)) (append_zero_zeros C k hk)

theorem reachable_pending (k : Nat) (hk : k < 512) : Reachable 512 (ringPending k) :=
  reachable_zeros 512 k hk

set_option maxRecDepth 1000000 in
/-- C28 (debug drain), evaluated on the code: with the ring buffer of capacity 512
holding 43 pending bytes, `UART_DebugTool_Run` stores at index 128 of its 128-byte
array `tmp`: the loop bound `sizeof(tmp) - 4` counts bytes, but each byte takes
three characters (two digits and a separator), so the 43rd byte puts the
terminating NUL of `sprintf` one past the array.  With 42 pending bytes the run
stays inside. -/
theorem C28_debug_drain_overflows_tmp :
    Reachable 512 (ringPending 43) ∧ UART_GetDataSize (ringPending 43) = 43 ∧
      (List.replicate 128 'x').length = 128 ∧
      faultOf (UART_DebugTool_Run (List.replicate 128 'x') (ringPending 43)) =
        some (Fault.writeOutsideTmp 128) ∧
      faultOf (UART_DebugTool_Run (List.replicate 128 'x') (ringPending 42)) = none :=
  ⟨reachable_pending 43 (by omega), by decide, by decide, by decide, by decide⟩

/-! ## Driver registry: the status page -/

theorem formatGo_plain (l : List Char) (args : List Int) (h : '%' ∉ l) :
    formatGo false l args = some l := by
  induction l with
  | nil => rfl
  | cons c rest ih =>
    have hc : c ≠ '%' := fun e => h (by simp [e])
    have hr : '%' ∉ rest := fun e => h (by simp [e])
    simp [formatGo, hc, ih hr]

theorem hprintf255_plain (request : http_request_t) (fmt : String) (h : '%' ∉ fmt.data) :
    hprintf255 request fmt [] = some (request ++ [Chunk.text fmt]) := by
  unfold hprintf255
  rw [formatGo_plain _ _ h]
  rfl

theorem hprintf255_active (request : http_request_t) (c : Int) :
    hprintf255 request "<h5>%i drivers active" [c] =
      some (request ++ [Chunk.text
        (String.mk ("<h5>".data ++ (toString c).data ++ " drivers active".data))]) := by
  rfl

theorem hprintf255_total (request : http_request_t) (c : Int) :
    hprintf255 request ", total %i</h5>" [c] =
      some (request ++ [Chunk.text
        (String.mk (", total ".data ++ (toString c).data ++ "</h5>".data))]) := by
  rfl

theorem filterMap_range_getElem {α β : Type} (l : List α) (f : α → Option β) :
    (List.range l.length).filterMap (fun i => (l[i]?).bind f) = l.filterMap f := by
  have h : (List.range l.length).map (fun i => l[i]?) = l.map some := by
    apply List.ext_getElem
    · simp
    · intro n h1 h2
      simp at h1
      simp [h1]
  have h2 : (List.range l.length).filterMap (fun i => (l[i]?).bind f) =
      ((List.range l.length).map (fun i => l[i]?)).filterMap (fun o => o.bind f) := by
    rw [List.filterMap_map]
    rfl
  rw [h2, h, List.filterMap_map]
  rfl

theorem loadedNames_eq (table : List driver_t) :
    loadedNames table =
      table.filterMap (fun d => if d.bLoaded = true then some d.name else none) := by
  unfold loadedNames
  induction table with
  | nil => rfl
  | cons d rest ih =>
    by_cases hd : d.bLoaded = true
    · simp [List.filter_cons, List.filterMap_cons, hd, ih]
    · simp [List.filter_cons, List.filterMap_cons, hd, ih]

theorem loadedNames_range (table : List driver_t) :
    (List.range table.length).filterMap (loadedName table) = loadedNames table := by
  rw [loadedNames_eq]
  exact filterMap_range_getElem table _

theorem infoCount_fold (l : List Nat) (a : InfoLoop) :
    (l.foldl DRV_AppendInformation_count a).st.g_drivers = a.st.g_drivers ∧
      (l.foldl DRV_AppendInformation_count a).st.g_mutex = a.st.g_mutex ∧
      (l.foldl DRV_AppendInformation_count a).c_active =
        a.c_active + ((l.filterMap (loadedName a.st.g_drivers)).length : Int) ∧
      ∃ infos, (l.foldl DRV_AppendInformation_count a).request = a.request ++ infos ∧
        ∀ c ∈ infos, ∃ i, c = Chunk.info i := by
  induction l generalizing a with
  | nil => exact ⟨rfl, rfl, by simp, [], by simp, by simp⟩
  | cons i rest ih =>
    rw [List.foldl_cons]
    obtain ⟨h1, h2, h3, infos, h4, h5⟩ := ih (DRV_AppendInformation_count a i)
    rw [h1, h2, h3, h4]
    unfold DRV_AppendInformation_count
    cases hd : a.st.g_drivers[i]? with
    | none => exact ⟨rfl, rfl, by simp [loadedName, hd], infos, rfl, h5⟩
    | some d =>
      by_cases hl : d.bLoaded = true
      · by_cases hf : d.appendInformationToHTTPIndexPage.isSome = true
        · refine ⟨by simp [hl, hf], by simp [hl, hf], ?_, Chunk.info i :: infos, ?_, ?_⟩
          · simp [hl, hf, loadedName, hd]
            omega
          · simp [hl, hf]
          · intro c hc
            rcases List.mem_cons.1 hc with h | h
            · exact ⟨i, h⟩
            · exact h5 c h
        · refine ⟨by simp [hl, hf], by simp [hl, hf], ?_, infos, by simp [hl, hf], h5⟩
          simp [hl, hf, loadedName, hd]
          omega
      · exact ⟨by simp [hl], by simp [hl], by simp [hl, loadedName, hd], infos,
          by simp [hl], h5⟩

theorem names_fold (table : List driver_t) (l : List Nat) (request : http_request_t)
    (j : Int) (hj : 0 ≤ j)
    (hp : ∀ n ∈ l.filterMap (loadedName table), '%' ∉ n.data) :
    l.foldl (DRV_AppendInformation_names table) (some (request, j)) =
      some (request ++ nameChunks j (l.filterMap (loadedName table)),
        j + ((l.filterMap (loadedName table)).length : Int)) := by
  induction l generalizing request j with
  | nil => simp [nameChunks]
  | cons i rest ih =>
    rw [List.foldl_cons]
    cases hd : table[i]? with
    | none =>
      have hn : loadedName table i = none := by simp [loadedName, hd]
      have hstep : DRV_AppendInformation_names table (some (request, j)) i =
          some (request, j) := by
        simp [DRV_AppendInformation_names, hd]
      rw [hstep, List.filterMap_cons, hn]
      rw [List.filterMap_cons, hn] at hp
      exact ih request j hj hp
    | some d =>
      by_cases hl : d.bLoaded = true
      · have hn : loadedName table i = some d.name := by simp [loadedName, hd, hl]
        rw [List.filterMap_cons, hn] at hp
        have hpd : '%' ∉ d.name.data := hp d.name (by simp)
        have hstep : DRV_AppendInformation_names table (some (request, j)) i =
            some (request ++ ((if j ≠ 0 then [Chunk.text ","] else []) ++
              [Chunk.text d.name]), j + 1) := by
          unfold DRV_AppendInformation_names
          simp only [hd, hl, if_true]
          by_cases hj0 : j ≠ 0
          · rw [if_pos hj0, if_pos hj0, hprintf255_plain request "," (by decide)]
            simp only
            rw [hprintf255_plain _ d.name hpd]
            simp
          · rw [if_neg hj0, if_neg hj0]
            simp only
            rw [hprintf255_plain _ d.name hpd]
            simp
        rw [hstep, List.filterMap_cons, hn,
          ih _ (j + 1) (by omega) (fun n hn1 => hp n (List.mem_cons_of_mem _ hn1))]
        simp only [nameChunks, List.length_cons, List.append_assoc]
        congr 2
        push_cast
        omega
      · have hn : loadedName table i = none := by simp [loadedName, hd, hl]
        have hstep : DRV_AppendInformation_names table (some (request, j)) i =
            some (request, j) := by
          simp [DRV_AppendInformation_names, hd, hl]
        rw [hstep, List.filterMap_cons, hn]
        rw [List.filterMap_cons, hn] at hp
        exact ih request j hj hp

theorem intercalate_go_data (acc : String) (ns : List String) :
    (String.intercalate.go acc "," ns).data =
      acc.data ++ (ns.map (fun n => ',' :: n.data)).flatten := by
  induction ns generalizing acc with
  | nil => simp [String.intercalate.go]
  | cons n rest ih =>
    rw [String.intercalate.go, ih]
    simp [String.data_append]

theorem nameChunks_text_pos (j : Int) (hj : 0 < j) (ns : List String) :
    pageText (nameChunks j ns) = (ns.map (fun n => ',' :: n.data)).flatten := by
  induction ns generalizing j with
  | nil => rfl
  | cons n rest ih =>
    have hj0 : j ≠ 0 := by omega
    simp only [nameChunks, if_pos hj0]
    have h := ih (j + 1) (by omega)
    unfold pageText at h ⊢
    simp only [List.map_append, List.flatten_append, List.map_cons, List.map_nil,
      List.flatten_cons, List.flatten_nil, Chunk.chars, List.append_nil, h]
    rfl

theorem nameChunks_text (ns : List String) :
    pageText (nameChunks 0 ns) = (",".intercalate ns).data := by
  cases ns with
  | nil => rfl
  | cons n rest =>
    have h := nameChunks_text_pos (0 + 1) (by omega) rest
    unfold pageText at h ⊢
    simp only [nameChunks, String.intercalate, intercalate_go_data]
    simp only [List.map_append, List.flatten_append, List.map_cons, List.map_nil,
      List.flatten_cons, List.flatten_nil, Chunk.chars, List.append_nil, h]
    simp

theorem nameChunks_texts (j : Int) (ns : List String) :
    ∀ c ∈ nameChunks j ns, ∃ s, c = Chunk.text s := by
  induction ns generalizing j with
  | nil => simp [nameChunks]
  | cons n rest ih =>
    intro c hc
    simp only [nameChunks, List.mem_append, List.mem_singleton] at hc
    rcases hc with (hc | hc) | hc
    · by_cases hj : j ≠ 0
      · rw [if_pos hj, List.mem_singleton] at hc
        exact ⟨_, hc⟩
      · rw [if_neg hj] at hc
        cases hc
    · exact ⟨_, hc⟩
    · exact ih (j + 1) c hc

theorem pageText_append (a b : http_request_t) :
    pageText (a ++ b) = pageText a ++ pageText b := by
  simp [pageText]

theorem summary_spec (table : List driver_t) (request : http_request_t)
    (hp : ∀ n ∈ loadedNames table, '%' ∉ n.data) :
    ∃ summary,
      DRV_AppendInformation_summary table request ((loadedNames table).length : Int) =
        some (request ++ summary) ∧
      (∀ c ∈ summary, ∃ s, c = Chunk.text s) ∧
      pageText summary = statusFragment table := by
  unfold DRV_AppendInformation_summary
  rw [hprintf255_active]
  dsimp only
  by_cases hn : ((loadedNames table).length : Int) > 0
  · have hn1 : (loadedNames table).length > 0 := by omega
    rw [if_pos hn, hprintf255_plain _ " (" (by decide)]
    dsimp only
    rw [names_fold table _ _ 0 (by omega) (by rw [loadedNames_range]; exact hp),
      loadedNames_range]
    dsimp only
    rw [hprintf255_plain _ ")" (by decide)]
    dsimp only
    rw [hprintf255_total]
    refine ⟨[Chunk.text (String.mk ("<h5>".data ++
        (toString ((loadedNames table).length : Int)).data ++ " drivers active".data)),
      Chunk.text " ("] ++ nameChunks 0 (loadedNames table) ++ [Chunk.text ")",
      Chunk.text (String.mk (", total ".data ++ (toString (table.length : Int)).data ++
        "</h5>".data))], by simp, ?_, ?_⟩
    · intro c hc
      simp only [List.mem_append, List.mem_cons, List.mem_singleton, List.not_mem_nil,
        or_false] at hc
      rcases hc with ((hc | hc) | hc) | (hc | hc)
      · exact ⟨_, hc⟩
      · exact ⟨_, hc⟩
      · exact nameChunks_texts 0 _ c hc
      · exact ⟨_, hc⟩
      · exact ⟨_, hc⟩
    · rw [pageText_append, pageText_append, nameChunks_text]
      unfold statusFragment
      rw [if_pos hn1]
      simp [pageText, Chunk.chars]
      rfl
  · have hn1 : ¬((loadedNames table).length > 0) := by omega
    rw [if_neg hn]
    dsimp only
    rw [hprintf255_total]
    refine ⟨[Chunk.text (String.mk ("<h5>".data ++
        (toString ((loadedNames table).length : Int)).data ++ " drivers active".data)),
      Chunk.text (String.mk (", total ".data ++ (toString (table.length : Int)).data ++
        "</h5>".data))], by simp, ?_, ?_⟩
    · intro c hc
      simp only [List.mem_cons, List.mem_singleton, List.not_mem_nil, or_false] at hc
      rcases hc with hc | hc
      · exact ⟨_, hc⟩
      · exact ⟨_, hc⟩
    · unfold statusFragment
      rw [if_neg hn1]
      simp [pageText, Chunk.chars]
      rfl

theorem lockFree_mutexFree (st : Registry) : lockFree (DRV_Mutex_Free st) := by
  unfold lockFree DRV_Mutex_Free xSemaphoreGive
  cases st.g_mutex <;> simp

theorem appendInformation_eq (st : Registry) (request : http_request_t)
    (hfree : lockFree st) :
    ∃ st1 infos, st1.g_drivers = st.g_drivers ∧ lockFree st1 ∧
      (∀ c ∈ infos, ∃ i, c = Chunk.info i) ∧
      DRV_AppendInformationToHTTPIndexPage st request =
        (DRV_AppendInformation_summary st.g_drivers (request ++ infos)
          ((loadedNames st.g_drivers).length : Int)).map (fun request1 => (st1, request1)) := by
  unfold DRV_AppendInformationToHTTPIndexPage
  rw [mutexTake_eq_free 100 st hfree]
  dsimp only
  rw [if_neg (by simp)]
  obtain ⟨h1, _, h3, infos, h4, h5⟩ := infoCount_fold (List.range st.g_drivers.length)
    { st := { st with g_mutex := some true,
                      trace := st.trace ++ [Event.semaphoreTake 100 true] },
      request := request, c_active := 0 }
  dsimp only at h1 h3 h4
  rw [loadedNames_range, Int.zero_add] at h3
  refine ⟨DRV_Mutex_Free _, infos, h1, lockFree_mutexFree _, h5, ?_⟩
  rw [h3, h4]
  have hg : ∀ x : Registry, (DRV_Mutex_Free x).g_drivers = x.g_drivers := fun _ => rfl
  rw [hg, h1]

theorem appendInformation_lockFree (st : Registry) (request : http_request_t)
    (hfree : lockFree st) (p : Registry × http_request_t)
    (h : DRV_AppendInformationToHTTPIndexPage st request = some p) : lockFree p.1 := by
  obtain ⟨st1, infos, _, h2, _, h4⟩ := appendInformation_eq st request hfree
  rw [h4] at h
  cases hs : DRV_AppendInformation_summary st.g_drivers (request ++ infos)
      ((loadedNames st.g_drivers).length : Int) with
  | none =>
    rw [hs] at h
    cases h
  | some r =>
    rw [hs] at h
    cases h
    exact h2

theorem appendInformation_spec (st : Registry) (request : http_request_t)
    (hfree : lockFree st) (hp : ∀ n ∈ loadedNames st.g_drivers, '%' ∉ n.data) :
    ∃ st1 infos summary,
      DRV_AppendInformationToHTTPIndexPage st request =
        some (st1, request ++ infos ++ summary) ∧
      st1.g_drivers = st.g_drivers ∧ lockFree st1 ∧
      (∀ c ∈ infos, ∃ i, c = Chunk.info i) ∧
      (∀ c ∈ summary, ∃ s, c = Chunk.text s) ∧
      pageText summary = statusFragment st.g_drivers := by
  obtain ⟨st1, infos, h1, h2, h3, h4⟩ := appendInformation_eq st request hfree
  obtain ⟨summary, h5, h6, h7⟩ := summary_spec st.g_drivers (request ++ infos) hp
  refine ⟨st1, infos, summary, ?_, h1, h2, h3, h6, h7⟩
  rw [h4, h5]
  rfl

theorem startDriver_lockFree (st : Registry) (name : String) (hfree : lockFree st)
    (st1 : Registry) (h : DRV_StartDriver st name = some st1) : lockFree st1 := by
  rcases startDriver_free st name hfree with ⟨_, h1⟩ | ⟨i, d, _, h1⟩
  · rw [h1] at h
    cases h
    exact lockFree_mutexFree _
  · rw [h1] at h
    cases hs : startFound (DRV_Mutex_Take 100 st).2 i d with
    | none =>
      rw [hs] at h
      cases h
    | some p =>
      rw [hs] at h
      cases h
      exact lockFree_mutexFree _

/-- C25 (lock released on every exit path): for every table, loaded-state, name and
page, when the mutex is free before the call, it is free again after
`DRV_StopDriver(name)`, `DRV_OnEverySecond()` and `DRV_RunQuickTick()`, and after every
`DRV_StartDriver(name)` and `DRV_AppendInformationToHTTPIndexPage(request)` that returns; the
start returns whenever every descriptor has an init callback, the status page
whenever no loaded name contains a percent sign. -/
theorem C25_lock_released (st : Registry) (name : String) (request : http_request_t)
    (hfree : lockFree st) :
    (∀ st1, DRV_StartDriver st name = some st1 → lockFree st1) ∧
      lockFree (DRV_StopDriver st name) ∧
      lockFree (DRV_OnEverySecond st) ∧
      lockFree (DRV_RunQuickTick st) ∧
      (∀ p, DRV_AppendInformationToHTTPIndexPage st request = some p → lockFree p.1) ∧
      ((∀ d ∈ st.g_drivers, d.initFunc.isSome = true) →
        ∃ st1, DRV_StartDriver st name = some st1) ∧
      ((∀ n ∈ loadedNames st.g_drivers, '%' ∉ n.data) →
        ∃ p, DRV_AppendInformationToHTTPIndexPage st request = some p) := by
  refine ⟨startDriver_lockFree st name hfree, ?_, ?_, ?_,
    appendInformation_lockFree st request hfree, ?_, ?_⟩
  · unfold lockFree
    rw [(stopDriver_spec st name hfree).2.1]
    simp
  · unfold DRV_OnEverySecond
    rw [mutexTake_eq_free 100 st hfree]
    dsimp only
    rw [if_neg (by simp)]
    exact lockFree_mutexFree _
  · unfold DRV_RunQuickTick
    rw [mutexTake_eq_free 0 st hfree]
    dsimp only
    rw [if_neg (by simp)]
    exact lockFree_mutexFree _
  · intro hinit
    exact call_total st (DrvCall.start name) hinit
  · intro hp
    obtain ⟨st1, infos, summary, h, _⟩ := appendInformation_spec st request hfree hp
    exact ⟨_, h⟩

/-- Witness of C25: on the loaded table `A`, `B` with the mutex free, the wildcard stop,
the start of the loaded `A` and the status page all leave the mutex free. -/
theorem C25_lock_released_witness :
    lockFree registryABLoaded ∧
      lockFree (DRV_StopDriver registryABLoaded "*") ∧
      (DRV_StartDriver registryABLoaded "A").map (fun s => s.g_mutex) = some (some false) ∧
      (DRV_AppendInformationToHTTPIndexPage registryABLoaded []).map
        (fun p => p.1.g_mutex) = some (some false) :=
  ⟨by decide, (C25_lock_released registryABLoaded "*" [] (by decide)).2.1, by decide,
    by decide⟩

/-- Outside the tables of the program: the second loop passes each name to
`hprintf255` as the format, so a loaded descriptor named `A%%B` would be printed as
`A%B` and one named `100%` would end the format in an unfinished conversion.  No
row of `g_drivers` has a percent sign in its name.  On five descriptors with `X`,
`Y` loaded the page reads `2 drivers active (X,Y), total 5`. -/
theorem appendInformation_percent_names :
    lockFree registryPercent ∧
      (DRV_AppendInformationToHTTPIndexPage registryPercent []).map
          (fun p => pageText p.2) =
        some "<h5>1 drivers active (A%B), total 1</h5>".data ∧
      statusFragment registryPercent.g_drivers =
        "<h5>1 drivers active (A%%B), total 1</h5>".data ∧
      DRV_AppendInformationToHTTPIndexPage registryLonePercent [] = none ∧
      (DRV_AppendInformationToHTTPIndexPage registryFive []).map
          (fun p => pageText p.2) =
        some "<h5>2 drivers active (X,Y), total 5</h5>".data ∧
      statusFragment registryFive.g_drivers =
        "<h5>2 drivers active (X,Y), total 5</h5>".data :=
  ⟨by decide, by decide, by decide, by decide, by decide, by decide⟩

/-! ## The claims on the tables of the program -/

set_option maxRecDepth 100000 in
theorem g_drivers_rows :
    namesUnique g_drivers ∧ (∀ d ∈ g_drivers, d.initFunc.isSome = true) ∧
      (∀ d ∈ g_drivers, '%' ∉ d.name.data) :=
  ⟨by decide, by decide, by decide⟩

theorem buildState_row {st : Registry} (h : buildState st) {d : driver_t}
    (hd : d ∈ st.g_drivers) : ({ d with bLoaded := false } : driver_t) ∈ g_drivers :=
  h.subset (List.mem_map.mpr ⟨d, hd, rfl⟩)

theorem buildState_unique {st : Registry} (h : buildState st) : namesUnique st.g_drivers := by
  have h1 : namesUnique (staticTable st) := List.Pairwise.sublist h g_drivers_rows.1
  unfold namesUnique staticTable at h1
  rw [List.pairwise_map] at h1
  exact h1

theorem buildState_init {st : Registry} (h : buildState st) :
    ∀ d ∈ st.g_drivers, d.initFunc.isSome = true :=
  fun d hd => g_drivers_rows.2.1 { d with bLoaded := false } (buildState_row h hd)

theorem buildState_percent {st : Registry} (h : buildState st) :
    ∀ n ∈ loadedNames st.g_drivers, '%' ∉ n.data := by
  intro n hn
  unfold loadedNames at hn
  obtain ⟨d, hd, rfl⟩ := List.mem_map.mp hn
  exact g_drivers_rows.2.2 { d with bLoaded := false }
    (buildState_row h (List.mem_filter.mp hd).1)

/-- C12 (start is idempotent): in every state of the program (any build of
`g_drivers`, any loaded flags, any lock state), for every name that `stricmp` finds
equal to the name of an already-loaded descriptor, `DRV_StartDriver(name)` returns,
invokes no callback and leaves the table unchanged; and for every name,
`DRV_StartDriver(name)` returns and a second `DRV_StartDriver(name)` right after it
returns, invokes no callback and leaves the table unchanged. -/
theorem C12_start_idempotent (st : Registry) (name : String) (hbuild : buildState st) :
    (∀ (i : Nat) (d : driver_t), st.g_drivers[i]? = some d → stricmp d.name name = 0 →
      d.bLoaded = true →
      ∃ st1, DRV_StartDriver st name = some st1 ∧ st1.g_drivers = st.g_drivers ∧
        callbacks st1.trace = callbacks st.trace) ∧
    (∃ st1, DRV_StartDriver st name = some st1 ∧
      ∃ st2, DRV_StartDriver st1 name = some st2 ∧ st2.g_drivers = st1.g_drivers ∧
        callbacks st2.trace = callbacks st1.trace) := by
  refine ⟨?_, ?_⟩
  · intro i d hd hm hl
    exact startDriver_loaded st name i d
      (isFirstMatch_of_unique (buildState_unique hbuild) hd hm) hl
  · obtain ⟨st1, h1⟩ := call_total st (DrvCall.start name) (buildState_init hbuild)
    exact ⟨st1, h1, startDriver_twice st name st1 h1⟩

set_option maxRecDepth 100000 in
/-- Witness of C12: in the build of five rows with `NTP` loaded, `DRV_StartDriver("ntp")`
changes nothing and calls nothing. -/
theorem C12_start_idempotent_witness :
    (buildState registryBuild5 ∧
      (registryBuild5.g_drivers[2]?).map (fun d => (d.name, d.bLoaded)) =
        some ("NTP", true)) ∧
    ∃ st1, DRV_StartDriver registryBuild5 "ntp" = some st1 ∧
      st1.g_drivers = registryBuild5.g_drivers ∧
      callbacks st1.trace = callbacks registryBuild5.trace :=
  ⟨⟨by decide, by decide⟩,
    (C12_start_idempotent registryBuild5 "ntp" (by decide)).1 2 registryBuild5.g_drivers[2]
      (by decide) (by decide) (by decide)⟩

/-- C23 (status fragment): in every state of the program (any build of `g_drivers`,
any loaded flags) with the mutex free, `DRV_AppendInformationToHTTPIndexPage(request)`
returns with the page extended by the outputs of the info callbacks followed by
the summary, whose text is the status fragment of the specification: between the
`h5` tags the count of loaded descriptors and `drivers active`, then, only when the
count is positive, the names of the loaded descriptors in table order joined by
commas in parentheses, then `, total` and the number of descriptors. -/
theorem C23_status_fragment (st : Registry) (request : http_request_t)
    (hbuild : buildState st) (hfree : lockFree st) :
    ∃ st1 infos summary,
      DRV_AppendInformationToHTTPIndexPage st request =
        some (st1, request ++ infos ++ summary) ∧
      st1.g_drivers = st.g_drivers ∧
      (∀ c ∈ infos, ∃ i, c = Chunk.info i) ∧
      (∀ c ∈ summary, ∃ s, c = Chunk.text s) ∧
      pageText summary = statusFragment st.g_drivers := by
  obtain ⟨st1, infos, summary, h1, h2, _, h4, h5, h6⟩ :=
    appendInformation_spec st request hfree (buildState_percent hbuild)
  exact ⟨st1, infos, summary, h1, h2, h4, h5, h6⟩

set_option maxRecDepth 100000 in
/-- Witness of C23: in the build of five rows with `NTP` and `Bridge` loaded the page
reads `2 drivers active (NTP,Bridge), total 5`; with none of the 36 rows loaded it
reads `0 drivers active, total 36`. -/
theorem C23_status_fragment_witness :
    (buildState registryBuild5 ∧ lockFree registryBuild5) ∧
    (∃ st1 infos summary,
      DRV_AppendInformationToHTTPIndexPage registryBuild5 [] =
        some (st1, [] ++ infos ++ summary) ∧
      st1.g_drivers = registryBuild5.g_drivers ∧
      (∀ c ∈ infos, ∃ i, c = Chunk.info i) ∧
      (∀ c ∈ summary, ∃ s, c = Chunk.text s) ∧
      pageText summary = statusFragment registryBuild5.g_drivers) ∧
    statusFragment registryBuild5.g_drivers =
      "<h5>2 drivers active (NTP,Bridge), total 5</h5>".data ∧
    (DRV_AppendInformationToHTTPIndexPage registryBuild5 []).map (fun p => pageText p.2) =
      some "<h5>2 drivers active (NTP,Bridge), total 5</h5>".data ∧
    (DRV_AppendInformationToHTTPIndexPage (DRV_initial g_drivers) []).map
        (fun p => pageText p.2) =
      some "<h5>0 drivers active, total 36</h5>".data :=
  ⟨⟨by decide, by decide⟩, C23_status_fragment registryBuild5 [] (by decide) (by decide),
    by decide, by decide, by decide⟩

end OpenBK
